import Mathlib

/-!
Verification development for the recipe bulk-edit core
(`app/core/xml_model.py`, `app/core/exporter.py`, `app/core/importer.py`,
`app/core/base.py`, `app/utils/errors.py`).

The XML tree is embedded as an id-based element store (`Store`), mirroring
lxml's aliased mutable elements: node objects in the collections and the
document tree reference the same element through its id.  Python dicts are
embedded as insertion-ordered association lists with last-value-wins update
(`Dict`).  Fallible Python code is embedded in `Except PyErr`; each uncaught
Python exception kind gets its own constructor.
-/

/-- Python-style insertion-ordered dictionary with string keys. -/
abbrev Dict (α : Type) := List (String × α)

/-- Dictionary lookup (`d.get(k)` / `d[k]`): value of the entry for `k`. -/
def dget {α : Type} (m : Dict α) (k : String) : Option α :=
  (m.find? (fun p => p.1 == k)).map (fun p => p.2)

/-- Python `k in d`. -/
def dmem {α : Type} (m : Dict α) (k : String) : Bool :=
  (m.find? (fun p => p.1 == k)).isSome

/-- Python `d[k] = v`: overwrite in place if the key exists, else append. -/
def dinsert {α : Type} (m : Dict α) (k : String) (v : α) : Dict α :=
  if dmem m k then m.map (fun p => if p.1 == k then (p.1, v) else p) else m ++ [(k, v)]

/-- Build a dict from a pair list, later values winning (Python `dict(...)`). -/
def dictOf {α : Type} (ps : List (String × α)) : Dict α :=
  ps.foldl (fun m p => dinsert m p.1 p.2) []

/-- Python's whitespace set for `str.strip()` (the ASCII part; the repository
only handles ASCII field values). -/
def isPySpace (c : Char) : Bool :=
  c == ' ' || c == '\t' || c == '\n' || c == '\r' || c == '\x0b' || c == '\x0c'

/-- Python `str.strip()`. -/
def pyStrip (s : String) : String :=
  String.mk (((s.data.dropWhile isPySpace).reverse.dropWhile isPySpace).reverse)

/-- Python `str == ""` / falsiness of a string. -/
def strIsEmpty (s : String) : Bool := s.data.isEmpty

/-- Whether the first list starts with the second. -/
def listStarts : List Char → List Char → Bool
  | _, [] => true
  | [], _ :: _ => false
  | a :: as, b :: bs => a == b && listStarts as bs

/-- Python `str.startswith`. -/
def strStarts (s pre : String) : Bool := listStarts s.data pre.data

/-- Python `str.endswith`. -/
def strEnds (s suf : String) : Bool := listStarts s.data.reverse suf.data.reverse

/-- Split worker with an explicit fuel bound (`fuel ≥ length` of the scanned
list), scanning left to right for non-overlapping occurrences of the
separator; the separator is non-empty at every call site. -/
def splitFuel (sep : List Char) : Nat → List Char → List Char → List (List Char)
  | _, [], cur => [cur.reverse]
  | 0, l, cur => [cur.reverse ++ l]
  | fuel + 1, c :: rest, cur =>
    if !sep.isEmpty && listStarts (c :: rest) sep then
      cur.reverse :: splitFuel sep fuel ((c :: rest).drop sep.length) []
    else splitFuel sep fuel rest (c :: cur)

/-- Python `str.split(sep)` for a non-empty separator. -/
def strSplitOn (s sep : String) : List String :=
  (splitFuel sep.data s.data.length s.data []).map String.mk

/-- Python `sep.join(parts)`. -/
def strJoin (sep : String) : List String → String
  | [] => ""
  | [x] => x
  | x :: y :: rest => x ++ sep ++ strJoin sep (y :: rest)

/-- Modelled from the spec: `safe_strip` from the repository's `utils/string.py`
module, which is not under `src/` (only its import sites are).  Per its call
sites and the spec's blank-cell handling, `None` becomes the empty string and a
string is stripped of surrounding whitespace. -/
def safe_strip (v : Option String) : String := pyStrip (v.getD "")

/-- Uncaught Python exception kinds reachable in the core.  `validation`,
`typeConflict` and `deferResolution` are the classes of `app/utils/errors.py`
(the module defines no other error class); the rest are Python builtins. -/
inductive PyErr where
  | validation (msg : String)
  | typeConflict (msg : String)
  | deferResolution (msg : String)
  | keyError
  | attributeError
  | indexError
  | stopIteration
  | nameError
deriving DecidableEq

/-- Element id in the store (stands for an lxml element object reference). -/
abbrev EId := Nat

/-- One XML element: local tag name (the namespace is the uniform
`urn:Rockwell/MasterRecipe` everywhere in the code, so only localnames are
kept), optional text, attributes, and child element ids in document order. -/
structure EData where
  tag : String
  text : Option String
  attrs : Dict String
  children : List EId
deriving DecidableEq

instance : Inhabited EData := ⟨{ tag := "", text := none, attrs := [], children := [] }⟩

/-- The element store: id `i` refers to `elems[i]`.  Allocation appends;
detached elements simply become unreferenced. -/
structure Store where
  elems : List EData
deriving DecidableEq

instance : Inhabited Store := ⟨{ elems := [] }⟩

def Store.size (s : Store) : Nat := s.elems.length

def Store.get (s : Store) (i : EId) : EData := s.elems.getD i default

def Store.setE (s : Store) (i : EId) (d : EData) : Store := { elems := s.elems.set i d }

def Store.alloc (s : Store) (d : EData) : Store × EId :=
  ({ elems := s.elems ++ [d] }, s.elems.length)

def Store.setText (s : Store) (i : EId) (t : Option String) : Store :=
  s.setE i { s.get i with text := t }

def Store.setChildren (s : Store) (i : EId) (cs : List EId) : Store :=
  s.setE i { s.get i with children := cs }

def Store.appendChild (s : Store) (p c : EId) : Store :=
  s.setChildren p ((s.get p).children ++ [c])

def Store.removeChild (s : Store) (p c : EId) : Store :=
  s.setChildren p ((s.get p).children.erase c)

/-- `element.find(tag)`: first child with the given localname. -/
def findChild (s : Store) (e : EId) (t : String) : Option EId :=
  (s.get e).children.find? (fun c => (s.get c).tag == t)

/-- lxml `element.getparent()`: the element whose child list holds this id. -/
def getparent (s : Store) (c : EId) : Option EId :=
  (List.range s.size).find? (fun p => (s.get p).children.contains c)

/-- All proper descendants in document (pre)order, with a recursion fuel bound;
`fuel = s.size` suffices for any acyclic store. -/
def descendants (s : Store) : Nat → EId → List EId
  | 0, _ => []
  | fuel + 1, e => ((s.get e).children.map (fun c => c :: descendants s fuel c)).flatten

/-- Snapshot of an element's immediate children (`NodeBase.__init__`):
localname to text-or-empty, as a Python dict comprehension. -/
def snapshotSubs (s : Store) (e : EId) : Dict String :=
  dictOf ((s.get e).children.map (fun c => ((s.get c).tag, (s.get c).text.getD "")))

/-- `NodeBase` state: the aliased element, the full path, and the snapshot of
original sub-elements taken at construction time. -/
structure Node where
  element : EId
  fullpath : String
  original_subs : Dict String
deriving DecidableEq

instance : Inhabited Node := ⟨{ element := 0, fullpath := "", original_subs := [] }⟩

/-- NodeBase constructor: snapshots the element's current children. -/
def Node.make (s : Store) (e : EId) (fp : String) : Node :=
  { element := e, fullpath := fp, original_subs := snapshotSubs s e }

/-- `EXCEL_COLUMNS` from `core/base.py` (the fixed part of the header). -/
def EXCEL_COLUMNS : List String :=
  ["TagType", "Name", "FullPath", "Real", "Integer", "High", "Low", "String",
   "EnumerationSet", "EnumerationMember", "Defer",
   "FormulaValueLimit_Verification", "FormulaValueLimit_LowLowLowValue",
   "FormulaValueLimit_LowLowValue", "FormulaValueLimit_LowValue",
   "FormulaValueLimit_HighValue", "FormulaValueLimit_HighHighValue",
   "FormulaValueLimit_HighHighHighValue"]

/-- `ParameterNode.to_excel_row`. -/
def ParameterNode.to_excel_row (nd : Node) : Dict String :=
  let row := dictOf [("TagType", "Parameter"), ("Name", ""), ("FullPath", nd.fullpath)]
  let row := dinsert row "Name" ((dget nd.original_subs "Name").getD "")
  let row := ["Real", "Integer", "High", "Low", "String", "EnumerationSet",
              "EnumerationMember"].foldl
    (fun r col => dinsert r col ((dget nd.original_subs col).getD "")) row
  let row := dinsert row "Defer" ""
  nd.original_subs.foldl (fun r kv => if dmem r kv.1 then r else dinsert r kv.1 kv.2) row

/-- `FormulaValueNode.to_excel_row` (reads the live FormulaValueLimit block). -/
def FormulaValueNode.to_excel_row (s : Store) (nd : Node) : Dict String :=
  let row := dictOf [("TagType", "FormulaValue"), ("Name", ""), ("FullPath", nd.fullpath)]
  let row := dinsert row "Name" ((dget nd.original_subs "Name").getD "")
  let defer := (dget nd.original_subs "Defer").getD ""
  let row := dinsert row "Defer" defer
  let row := dinsert row "Value"
    (if strIsEmpty defer then (dget nd.original_subs "Value").getD "" else "")
  let row := ["Real", "Integer", "String", "EnumerationSet", "EnumerationMember"].foldl
    (fun r col => dinsert r col ((dget nd.original_subs col).getD "")) row
  let row :=
    match findChild s nd.element "FormulaValueLimit" with
    | some fvl =>
        let row := dinsert row "FormulaValueLimit_Verification"
          ((dget (s.get fvl).attrs "Verification").getD "")
        (s.get fvl).children.foldl
          (fun r c => dinsert r ("FormulaValueLimit_" ++ (s.get c).tag)
            ((s.get c).text.getD "")) row
    | none =>
        EXCEL_COLUMNS.foldl
          (fun r col => if strStarts col "FormulaValueLimit_" then dinsert r col "" else r)
          row
  nd.original_subs.foldl (fun r kv => if dmem r kv.1 then r else dinsert r kv.1 kv.2) row

/-- The per-field body shared by both `update_from_dict` loops: skip a blank
value whose key was not in the original snapshot; otherwise create the child
(with the stripped text) or overwrite its text when it differs. -/
def applyRowField (s : Store) (el : EId) (subs : Dict String) (changed : Bool)
    (k text : String) : Store × Bool :=
  if strIsEmpty text && !(dmem subs k) then (s, changed)
  else
    match findChild s el k with
    | none =>
        let (s1, cid) := s.alloc { tag := k, text := some text, attrs := [], children := [] }
        (s1.appendChild el cid, true)
    | some cid =>
        if text != safe_strip (s.get cid).text then (s.setText cid (some text), true)
        else (s, changed)

/-- `sum(bool(row[f].strip()) for f in fields)`, with `row[f]` raising
`KeyError` on a missing key. -/
def rowTypeCount (row : Dict String) (fields : List String) : Except PyErr Nat :=
  fields.foldlM
    (fun acc f =>
      match dget row f with
      | none => Except.error PyErr.keyError
      | some v => Except.ok (acc + (if strIsEmpty (pyStrip v) then 0 else 1)))
    0

/-- Canonical child order chosen by `ParameterNode.reorder_children`; `none`
when no recognized data-type child is present (a `ValidationError` there). -/
def paramOrder (cm : Dict EId) : Option (List String) :=
  if dmem cm "String" then
    some ["Name", "ERPAlias", "PLCReference", "String", "EngineeringUnits"]
  else if dmem cm "Integer" then
    some ["Name", "ERPAlias", "PLCReference", "Integer", "High", "Low",
          "EngineeringUnits", "Scale"]
  else if dmem cm "Real" then
    some ["Name", "ERPAlias", "PLCReference", "Real", "High", "Low",
          "EngineeringUnits", "Scale"]
  else if dmem cm "EnumerationSet" then
    some ["Name", "ERPAlias", "PLCReference", "EnumerationSet", "EnumerationMember"]
  else none

/-- The `children` map of a reorder: localname to child element, last wins. -/
def childMapOf (s : Store) (el : EId) : Dict EId :=
  dictOf ((s.get el).children.map (fun c => ((s.get c).tag, c)))

/-- The slot-filling loop of both reorders: one new child per slot tag, the
mapped existing element when present, else a freshly allocated empty element. -/
def buildSlots (s : Store) (cm : Dict EId) : List String → Store × List EId
  | [] => (s, [])
  | tag :: rest =>
    match dget cm tag with
    | some c =>
        let (s1, ids) := buildSlots s cm rest
        (s1, c :: ids)
    | none =>
        let (s1, c) := s.alloc { tag := tag, text := none, attrs := [], children := [] }
        let (s2, ids) := buildSlots s1 cm rest
        (s2, c :: ids)

/-- Remove every child, then re-append one element per slot (the tail both
reorder methods share). -/
def rebuildChildren (s : Store) (el : EId) (cm : Dict EId) (order : List String) : Store :=
  let s0 := s.setChildren el []
  let (s1, kids) := buildSlots s0 cm order
  s1.setChildren el kids

/-- `ParameterNode.reorder_children`. -/
def ParameterNode.reorder_children (s : Store) (nd : Node) : Except PyErr Store :=
  let cm := childMapOf s nd.element
  match paramOrder cm with
  | none => Except.error (PyErr.validation (nd.fullpath ++ ": no recognized type"))
  | some order => Except.ok (rebuildChildren s nd.element cm order)

/-- The data-type scan of `FormulaValueNode.reorder_children`: appends every
present data-type tag and remembers the last one as `dtype`. -/
def fvOrderAndDtype (cm : Dict EId) : Option String × List String :=
  let base := ["Name", "Display"] ++ (if dmem cm "Defer" then ["Defer"] else ["Value"])
  ["Integer", "Real", "String", "EnumerationSet"].foldl
    (fun acc t => if dmem cm t then (some t, acc.2 ++ [t]) else acc) (none, base)

/-- Canonical child order of `FormulaValueNode.reorder_children`; `none` when
the local `dtype` is never assigned, where the Python method hits the bare
`NameError` at `if dtype in ("Integer", "Real")`. -/
def fvOrder (cm : Dict EId) : Option (List String) :=
  let (dtypeOpt, o1) := fvOrderAndDtype cm
  let o2 := if dmem cm "EnumerationMember" then o1 ++ ["EnumerationMember"] else o1
  match dtypeOpt with
  | none => none
  | some dtype =>
    let o3 := if dtype == "Integer" || dtype == "Real" then o2 ++ ["EngineeringUnits"] else o2
    some (if dmem cm "FormulaValueLimit" then o3 ++ ["FormulaValueLimit"] else o3)

/-- `FormulaValueNode.reorder_children`; the `NameError` fires before any
child is removed, so the element is untouched on that path. -/
def FormulaValueNode.reorder_children (s : Store) (nd : Node) : Except PyErr Store :=
  let cm := childMapOf s nd.element
  match fvOrder cm with
  | none => Except.error PyErr.nameError
  | some order => Except.ok (rebuildChildren s nd.element cm order)

/-- Keys skipped by the `ParameterNode.update_from_dict` loop. -/
def paramSkipKey (k : String) : Bool :=
  k == "TagType" || k == "FullPath" || k == "Defer" || strStarts k "FormulaValueLimit_"

/-- `ParameterNode.update_from_dict`: validate the data-type count (raising
`TypeConflictError` only when more than two are populated), apply each row
field, and reorder when anything changed. -/
def ParameterNode.update_from_dict (s : Store) (nd : Node) (row : Dict String) :
    Except PyErr (Store × Bool) := do
  let count ← rowTypeCount row ["Real", "Integer", "String", "EnumerationSet"]
  if count > 2 then
    Except.error (PyErr.typeConflict (nd.fullpath ++ ": must have exactly one data type"))
  else
    let sc := row.foldl
      (fun (acc : Store × Bool) kv =>
        if paramSkipKey kv.1 then acc
        else applyRowField acc.1 nd.element nd.original_subs acc.2 kv.1 (pyStrip kv.2))
      (s, false)
    if sc.2 then do
      let s2 ← ParameterNode.reorder_children sc.1 nd
      pure (s2, sc.2)
    else pure sc

/-- `FormulaValueNode.update_from_dict`: same shape, with `Defer` in the
counted fields, `Value` skipped when the row's `Defer` is non-blank, and a
blank `Defer` never written. -/
def FormulaValueNode.update_from_dict (s : Store) (nd : Node) (row : Dict String) :
    Except PyErr (Store × Bool) := do
  let count ← rowTypeCount row ["Real", "Integer", "String", "EnumerationSet", "Defer"]
  if count > 2 then
    Except.error (PyErr.typeConflict (nd.fullpath ++ ": must have exactly one data type"))
  else
    let sc := row.foldl
      (fun (acc : Store × Bool) kv =>
        if strStarts kv.1 "FormulaValueLimit_" || kv.1 == "TagType" || kv.1 == "FullPath" then
          acc
        else
          let text := pyStrip kv.2
          if kv.1 == "Value" && !(strIsEmpty (pyStrip ((dget row "Defer").getD ""))) then acc
          else if kv.1 == "Defer" && strIsEmpty text then acc
          else applyRowField acc.1 nd.element nd.original_subs acc.2 kv.1 text)
      (s, false)
    if sc.2 then do
      let s2 ← FormulaValueNode.reorder_children sc.1 nd
      pure (s2, sc.2)
    else pure sc

/-- `RecipeTree` state: the parsed tree's root plus the two node collections
(`parameters`, `formula_values`) built by `extract_nodes`. -/
structure RecipeTree where
  filepath : String
  root : EId
  parameters : List Node
  formula_values : List Node
deriving DecidableEq

instance : Inhabited RecipeTree :=
  ⟨{ filepath := "", root := 0, parameters := [], formula_values := [] }⟩

/-- `RecipeTree.find_parameter`: first collection entry with this full path. -/
def RecipeTree.find_parameter (t : RecipeTree) (fp : String) : Option Node :=
  t.parameters.find? (fun p => p.fullpath == fp)

/-- `RecipeTree.find_formulavalue`. -/
def RecipeTree.find_formulavalue (t : RecipeTree) (fp : String) : Option Node :=
  t.formula_values.find? (fun p => p.fullpath == fp)

/-- List insertion at an index (Python `list.insert` via lxml `root.insert`). -/
def insertAt {α : Type} (l : List α) (i : Nat) (a : α) : List α :=
  l.take i ++ a :: l.drop i

/-- `RecipeTree.create_parameter`: allocate an empty `<Parameter>`, insert it
right after the last existing `<Parameter>` child of the root (before `<Steps>`
or at the end when there is none), wrap it as a node, apply the row, and
append the node to the collection. -/
def RecipeTree.create_parameter (s : Store) (t : RecipeTree) (row : Dict String) :
    Except PyErr (Store × RecipeTree) := do
  let (sA, newEl) := s.alloc { tag := "Parameter", text := none, attrs := [], children := [] }
  let rootKids := (sA.get t.root).children
  let pIdx := ((rootKids.enum.filter (fun p => (sA.get p.2).tag == "Parameter")).map
    (fun p => p.1)).getLast?
  let sB :=
    match pIdx with
    | some i => sA.setChildren t.root (insertAt rootKids (i + 1) newEl)
    | none =>
      match (rootKids.enum.find? (fun p => (sA.get p.2).tag == "Steps")).map (fun p => p.1) with
      | some j => sA.setChildren t.root (insertAt rootKids j newEl)
      | none => sA.setChildren t.root (rootKids ++ [newEl])
  let fp ← match dget row "FullPath" with
    | none => Except.error PyErr.keyError
    | some v => Except.ok v
  let node : Node := { element := newEl, fullpath := fp, original_subs := [] }
  let (sC, _) ← ParameterNode.update_from_dict sB node row
  Except.ok (sC, { t with parameters := t.parameters ++ [node] })

/-- The step-name capture of `create_formulavalue`'s regular expression
`.*/Steps/Step\[(.*?)\]/FormulaValue\[.*\]$`: the text between the last
`/Steps/Step[` and the next `]`, the remainder being `/FormulaValue[...]`. -/
def parseStepFromPath (fp : String) : Option String :=
  match strSplitOn fp "/Steps/Step[" with
  | [] => none
  | [_] => none
  | parts =>
    let after := parts.getLastD ""
    match strSplitOn after "]" with
    | [] => none
    | name :: rest =>
      let remainder := strJoin "]" rest
      if strStarts remainder "/FormulaValue[" && strEnds remainder "]" then some name
      else none

/-- The generator scan `next(s for s in root.findall(".//Step") if
s.find("Name").text == step_name)`: `AttributeError` when a candidate step has
no `<Name>` child, `StopIteration` when the generator is exhausted. -/
def firstStepNamed (s : Store) (nm : String) : List EId → Except PyErr EId
  | [] => Except.error PyErr.stopIteration
  | c :: rest =>
    match findChild s c "Name" with
    | none => Except.error PyErr.attributeError
    | some n =>
      if (s.get n).text == some nm then Except.ok c else firstStepNamed s nm rest

/-- `RecipeTree.create_formulavalue`: parse the step name out of the row's
path (a `ValidationError` when the pattern does not match), locate the step by
scanning every descendant `<Step>`, append a fresh `<FormulaValue>` under it,
apply the row, and register the node.  The source's `if step_el is None` guard
is unreachable, because `next` without a default never yields `None`. -/
def RecipeTree.create_formulavalue (s : Store) (t : RecipeTree) (row : Dict String) :
    Except PyErr (Store × RecipeTree) := do
  let fp ← match dget row "FullPath" with
    | none => Except.error PyErr.keyError
    | some v => Except.ok v
  match parseStepFromPath fp with
  | none => Except.error (PyErr.validation (fp ++ ": cannot parse step"))
  | some step_name => do
    let steps := (descendants s s.size t.root).filter (fun e => (s.get e).tag == "Step")
    let step_el ← firstStepNamed s step_name steps
    let (sA, el) := s.alloc { tag := "FormulaValue", text := none, attrs := [], children := [] }
    let sB := sA.appendChild step_el el
    let node : Node := { element := el, fullpath := fp, original_subs := [] }
    let (sC, _) ← FormulaValueNode.update_from_dict sB node row
    Except.ok (sC, { t with formula_values := t.formula_values ++ [node] })

/-- `os.path.basename` for the POSIX paths the repository uses. -/
def basename (p : String) : String := ((strSplitOn p "/").getLast?).getD p

/-- One worksheet: its title and its cell grid (first row is the header). -/
structure Sheet where
  name : String
  cells : List (List String)
deriving DecidableEq

/-- A workbook is its sheets in creation order. -/
abbrev Workbook := List Sheet

/-- Insertion into a sorted list, for Python `sorted`. -/
def insSorted (a : String) : List String → List String
  | [] => [a]
  | b :: r => if a < b || a == b then a :: b :: r else b :: insSorted a r

/-- Python `sorted` on a list of strings. -/
def sortStr (l : List String) : List String := l.foldr insSorted []

/-- `ExcelExporter.export`: build one row dict per node, collect the extra
columns beyond `EXCEL_COLUMNS` across every sheet, and emit per sheet a header
row followed by the rows projected through the header (missing keys as `""`).
Sheets are keyed by the basename of the tree's filepath, last tree winning on
a duplicate basename, exactly as the Python `sheet_data` dict. -/
def ExcelExporter.export (s : Store) (trees : List RecipeTree) : Workbook :=
  let sheetRows : Dict (List (Dict String)) :=
    dictOf (trees.map (fun t =>
      (basename t.filepath,
       t.parameters.map ParameterNode.to_excel_row ++
         t.formula_values.map (FormulaValueNode.to_excel_row s))))
  let allRows : List (Dict String) :=
    (trees.map (fun t =>
      t.parameters.map ParameterNode.to_excel_row ++
        t.formula_values.map (FormulaValueNode.to_excel_row s))).flatten
  let extras : List String :=
    sortStr (((allRows.map (fun r => r.map (fun kv => kv.1))).flatten.filter
      (fun k => !(EXCEL_COLUMNS.contains k))).dedup)
  let header := EXCEL_COLUMNS ++ extras
  sheetRows.map (fun p =>
    { name := p.1,
      cells := header :: p.2.map (fun r => header.map (fun col => (dget r col).getD "")) })

/-- Global import statistics. -/
structure Stats where
  created : Nat
  updated : Nat
  deleted : Nat
deriving DecidableEq

/-- Per-sheet accumulators of `import_changes`: the Parameter names seen so
far in the sheet, and the full paths of the Parameter and FormulaValue rows
applied so far. -/
structure SheetAcc where
  excel_param_names : List String
  seen_params : List String
  seen_fvs : List String
deriving DecidableEq

/-- The whole mutable state threaded through row processing. -/
structure RowState where
  store : Store
  tree : RecipeTree
  acc : SheetAcc
  errors : List String
  stats : Stats
deriving DecidableEq

/-- `fp.split("/Steps/Step[", 1)[1].split("]")[0]`, an `IndexError` when the
path has no step component. -/
def stepOfPath (fp : String) : Except PyErr String :=
  match strSplitOn fp "/Steps/Step[" with
  | _ :: rest@(_ :: _) =>
    Except.ok ((strSplitOn (strJoin "/Steps/Step[" rest) "]").headD "")
  | _ => Except.error PyErr.indexError

/-- One data row of `ExcelImporter.import_changes`: the single-type pre-check
(flagging only more than two populated fields), then the per-tag-type branch;
row-level failures append a message and move on, everything else mutates the
state in place. -/
def preCheckCount (row_dict : Dict String) : Nat :=
  (["Real", "Integer", "String", "EnumerationSet", "Defer"].map
    (fun f => if strIsEmpty (safe_strip (dget row_dict f)) then 0 else 1)).sum

def processRow (sheet : String) (r_idx : Nat) (st : RowState) (row_dict : Dict String) :
    Except PyErr RowState := do
  let fp := pyStrip ((dget row_dict "FullPath").getD "")
  let tagtype := pyStrip ((dget row_dict "TagType").getD "")
  let cnt := preCheckCount row_dict
  if cnt > 2 then
    Except.ok { st with errors := st.errors ++
      [sheet ++ "!Row" ++ Nat.repr r_idx ++ ": expected exactly one data type for " ++ fp] }
  else if tagtype == "Parameter" then do
    let name ← match dget row_dict "Name" with
      | none => Except.error PyErr.keyError
      | some v => Except.ok v
    let acc1 := { st.acc with excel_param_names := st.acc.excel_param_names ++ [pyStrip name] }
    match st.tree.find_parameter fp with
    | some nd => do
      let (s1, changed) ← ParameterNode.update_from_dict st.store nd row_dict
      let stats1 := if changed then { st.stats with updated := st.stats.updated + 1 } else st.stats
      Except.ok { st with
        store := s1
        stats := stats1
        acc := { acc1 with seen_params := acc1.seen_params ++ [fp] } }
    | none => do
      let (s1, t1) ← st.tree.create_parameter st.store row_dict
      Except.ok { st with
        store := s1
        tree := t1
        stats := { st.stats with created := st.stats.created + 1 }
        acc := { acc1 with seen_params := acc1.seen_params ++ [fp] } }
  else if tagtype == "FormulaValue" then do
    let nodeOpt := st.tree.find_formulavalue fp
    let defer := pyStrip ((dget row_dict "Defer").getD "")
    let _name ← match dget row_dict "Name" with
      | none => Except.error PyErr.keyError
      | some v => Except.ok v
    let _step ← stepOfPath fp
    if !(strIsEmpty defer) && !(st.acc.excel_param_names.contains defer) then
      Except.ok { st with errors := st.errors ++
        [sheet ++ "!Row" ++ Nat.repr r_idx ++ ": defer target '" ++ defer ++
          "' not found for " ++ fp] }
    else
      match nodeOpt with
      | some nd => do
        let (s1, changed) ← FormulaValueNode.update_from_dict st.store nd row_dict
        let stats1 := if changed then { st.stats with updated := st.stats.updated + 1 } else st.stats
        Except.ok { st with
          store := s1
          stats := stats1
          acc := { st.acc with seen_fvs := st.acc.seen_fvs ++ [fp] } }
      | none => do
        let (s1, t1) ← st.tree.create_formulavalue st.store row_dict
        Except.ok { st with
          store := s1
          tree := t1
          stats := { st.stats with created := st.stats.created + 1 }
          acc := { st.acc with seen_fvs := st.acc.seen_fvs ++ [fp] } }
  else
    Except.ok { st with errors := st.errors ++
      [sheet ++ "!Row" ++ Nat.repr r_idx ++ ": unknown TagType '" ++ tagtype ++ "'"] }

/-- The data-row loop from worksheet row index `r_idx`, building each row dict
by zipping the header with the cell values. -/
def processRowsFrom (sheet : String) (header : List String) (r_idx : Nat) (st : RowState) :
    List (List String) → Except PyErr RowState
  | [] => Except.ok st
  | row :: rest => do
    let st1 ← processRow sheet r_idx st (dictOf (header.zip row))
    processRowsFrom sheet header (r_idx + 1) st1 rest

/-- The Parameter half of the delete pass: every collection node whose path
was not seen in the sheet is detached from its parent and dropped from the
collection, counting one deletion. -/
def deleteParams (pre : List Node) (st : RowState) : Except PyErr RowState :=
  pre.foldlM
    (fun st nd =>
      if st.acc.seen_params.contains nd.fullpath then Except.ok st
      else
        match getparent st.store nd.element with
        | none => Except.error PyErr.attributeError
        | some p =>
          Except.ok { st with
            store := st.store.removeChild p nd.element
            tree := { st.tree with parameters := st.tree.parameters.erase nd }
            stats := { st.stats with deleted := st.stats.deleted + 1 } })
    st

/-- The FormulaValue half of the delete pass; the step-name split for the
per-step tally can raise `IndexError` on a malformed path. -/
def deleteFVs (pre : List Node) (st : RowState) : Except PyErr RowState :=
  pre.foldlM
    (fun st nd =>
      if st.acc.seen_fvs.contains nd.fullpath then Except.ok st
      else
        match getparent st.store nd.element with
        | none => Except.error PyErr.attributeError
        | some p => do
          let st1 : RowState := { st with
            store := st.store.removeChild p nd.element
            tree := { st.tree with formula_values := st.tree.formula_values.erase nd }
            stats := { st.stats with deleted := st.stats.deleted + 1 } }
          let _ ← stepOfPath nd.fullpath
          Except.ok st1)
    st

/-- One matched sheet of `import_changes`: fresh per-sheet accumulators, the
header from the first worksheet row, every data row, then the delete pass. -/
def processSheet (name : String) (cells : List (List String)) (s : Store) (t : RecipeTree)
    (errors : List String) (stats : Stats) :
    Except PyErr (Store × RecipeTree × List String × Stats) := do
  match cells with
  | [] => Except.error PyErr.stopIteration
  | header :: dataRows => do
    let st0 : RowState :=
      { store := s, tree := t,
        acc := { excel_param_names := [], seen_params := [], seen_fvs := [] },
        errors := errors, stats := stats }
    let st1 ← processRowsFrom name header 2 st0 dataRows
    let st2 ← deleteParams st1.tree.parameters st1
    let st3 ← deleteFVs st2.tree.formula_values st2
    Except.ok (st3.store, st3.tree, st3.errors, st3.stats)

/-- The workbook's `tree_map` lookup: the index of the last tree whose
filepath basename equals the sheet title (Python dict comprehension semantics,
later entries shadowing earlier ones). -/
def lastIdxWithBasename (trees : List RecipeTree) (nm : String) : Option Nat :=
  (((trees.enum.filter (fun p => basename p.2.filepath == nm)).map (fun p => p.1)).getLast?)

/-- Every sheet of the workbook in order; a sheet with no matching tree is
skipped with a warning. -/
def processAllSheets (s : Store) (trees : List RecipeTree) (wb : Workbook) :
    Except PyErr (Store × List RecipeTree × List String × Stats) :=
  wb.foldlM
    (fun (acc : Store × List RecipeTree × List String × Stats) sheet =>
      let (s, trees, errors, stats) := acc
      match lastIdxWithBasename trees sheet.name with
      | none => Except.ok acc
      | some i => do
        let t := trees.getD i default
        let (s1, t1, errors1, stats1) ← processSheet sheet.name sheet.cells s t errors stats
        Except.ok (s1, trees.set i t1, errors1, stats1))
    (s, trees, [], { created := 0, updated := 0, deleted := 0 })

/-- `ExcelImporter.import_changes`: apply the workbook, then raise one
aggregate `ValidationError` carrying the error count when any row-level
failure was recorded, else return the statistics.  The trees are mutated in
place in Python, so the mutated store and tree list are part of the result. -/
def ExcelImporter.import_changes (s : Store) (trees : List RecipeTree) (wb : Workbook) :
    Except PyErr (Store × List RecipeTree × Stats) := do
  let (s1, trees1, errors, stats) ← processAllSheets s trees wb
  if errors.isEmpty then Except.ok (s1, trees1, stats)
  else Except.error (PyErr.validation (Nat.repr errors.length ++ " errors"))

deriving instance DecidableEq for Except

/-! ## Concrete documents used to evaluate the code -/

/-- A parameter element with `Name`, `Real` and `High` children. -/
def c1S : Store := { elems :=
  [ { tag := "Parameter", text := none, attrs := [], children := [1, 2, 3] },
    { tag := "Name", text := some "P1", attrs := [], children := [] },
    { tag := "Real", text := some "1", attrs := [], children := [] },
    { tag := "High", text := some "100", attrs := [], children := [] } ] }

def c1Nd : Node := Node.make c1S 0 "TEST/Parameter[P1]"

/-- A row for `c1Nd` that blanks the `High` cell and keeps the rest. -/
def c1Row : Dict String :=
  [("TagType", "Parameter"), ("Name", "P1"), ("FullPath", "TEST/Parameter[P1]"),
   ("Real", "1"), ("Integer", ""), ("String", ""), ("EnumerationSet", ""), ("High", "")]

/-- A formula-value element with `Name`, `Value` and `Integer` children. -/
def fvS : Store := { elems :=
  [ { tag := "FormulaValue", text := none, attrs := [], children := [1, 2, 3] },
    { tag := "Name", text := some "F1", attrs := [], children := [] },
    { tag := "Value", text := some "2", attrs := [], children := [] },
    { tag := "Integer", text := some "3", attrs := [], children := [] } ] }

def fvNd : Node := Node.make fvS 0 "TEST/Steps/Step[S1]/FormulaValue[F1]"

/-- A row for `fvNd` that blanks the `Value` cell and keeps the rest. -/
def fvRowBlankValue : Dict String :=
  [("TagType", "FormulaValue"), ("FullPath", "TEST/Steps/Step[S1]/FormulaValue[F1]"),
   ("Name", "F1"), ("Value", ""), ("Integer", "3"), ("Real", ""), ("String", ""),
   ("EnumerationSet", ""), ("Defer", "")]

/-- A row for `fvNd` that repeats its values and sets one non-blank
`FormulaValueLimit_` cell (plus a Verification value). -/
def fvRowLimit : Dict String :=
  [("TagType", "FormulaValue"), ("FullPath", "TEST/Steps/Step[S1]/FormulaValue[F1]"),
   ("Name", "F1"), ("Value", "2"), ("Integer", "3"), ("Real", ""), ("String", ""),
   ("EnumerationSet", ""), ("Defer", ""),
   ("FormulaValueLimit_HighValue", "5"), ("FormulaValueLimit_Verification", "Limits")]

/-- The changed flag of an update result. -/
def updChanged (r : Except PyErr (Store × Bool)) : Except PyErr Bool :=
  r.map (fun p => p.2)

/-- The text of the named child of `el` in the store an update produced. -/
def updText (r : Except PyErr (Store × Bool)) (el : EId) (tag : String) :
    Option (Option String) :=
  match r with
  | Except.ok (s, _) => (findChild s el tag).map (fun i => (s.get i).text)
  | Except.error _ => none

/-- A one-parameter, one-formula-value document (`dS`, `dT`). -/
def dS : Store := { elems :=
  [ { tag := "RecipeElement", text := none, attrs := [], children := [1, 2, 5] },
    { tag := "RecipeElementID", text := some "TEST", attrs := [], children := [] },
    { tag := "Parameter", text := none, attrs := [], children := [3, 4] },
    { tag := "Name", text := some "Param1", attrs := [], children := [] },
    { tag := "Real", text := some "1", attrs := [], children := [] },
    { tag := "Steps", text := none, attrs := [], children := [6] },
    { tag := "Step", text := none, attrs := [], children := [7, 8] },
    { tag := "Name", text := some "Step1", attrs := [], children := [] },
    { tag := "FormulaValue", text := none, attrs := [], children := [9, 10, 11] },
    { tag := "Name", text := some "FV1", attrs := [], children := [] },
    { tag := "Value", text := some "2", attrs := [], children := [] },
    { tag := "Integer", text := some "3", attrs := [], children := [] } ] }

def dT : RecipeTree :=
  { filepath := "TEST.pxml", root := 0,
    parameters := [Node.make dS 2 "TEST/Parameter[Param1]"],
    formula_values := [Node.make dS 8 "TEST/Steps/Step[Step1]/FormulaValue[FV1]"] }

def pNd : Node := Node.make dS 2 "TEST/Parameter[Param1]"

/-- A `Param1` row with two non-blank data-type cells. -/
def rowTwoTypes : Dict String :=
  [("TagType", "Parameter"), ("Name", "Param1"), ("FullPath", "TEST/Parameter[Param1]"),
   ("Real", "1"), ("Integer", "2"), ("String", ""), ("EnumerationSet", ""), ("Defer", "")]

/-- A `Param1` row with three non-blank data-type cells. -/
def rowThreeTypes : Dict String :=
  [("TagType", "Parameter"), ("Name", "Param1"), ("FullPath", "TEST/Parameter[Param1]"),
   ("Real", "1"), ("Integer", "2"), ("String", "3"), ("EnumerationSet", ""), ("Defer", "")]

/-- The initial row-processing state over `dS`/`dT`. -/
def dSt0 : RowState :=
  { store := dS, tree := dT,
    acc := { excel_param_names := [], seen_params := [], seen_fvs := [] },
    errors := [], stats := { created := 0, updated := 0, deleted := 0 } }

/-- A parameter element whose `Foo` child is outside every canonical slot. -/
def fooS : Store := { elems :=
  [ { tag := "Parameter", text := none, attrs := [], children := [1, 2, 3] },
    { tag := "Name", text := some "P", attrs := [], children := [] },
    { tag := "String", text := some "x", attrs := [], children := [] },
    { tag := "Foo", text := some "f", attrs := [], children := [] } ] }

def fooNd : Node := Node.make fooS 0 "TEST/Parameter[P]"

/-- A row creating a new formula value under the existing `Step1`. -/
def rowNewFV : Dict String :=
  [("TagType", "FormulaValue"), ("FullPath", "TEST/Steps/Step[Step1]/FormulaValue[FV2]"),
   ("Name", "FV2"), ("Value", "5"), ("Integer", "4"), ("Real", ""), ("String", ""),
   ("EnumerationSet", ""), ("Defer", "")]

/-- The same row pointed at a step that does not exist in the document. -/
def rowBadStep : Dict String :=
  [("TagType", "FormulaValue"), ("FullPath", "TEST/Steps/Step[Step2]/FormulaValue[FV2]"),
   ("Name", "FV2"), ("Value", "5"), ("Integer", "4"), ("Real", ""), ("String", ""),
   ("EnumerationSet", ""), ("Defer", "")]

/-- A workbook for `dT` whose only row is a formula value deferring to a
parameter name absent from the sheet. -/
def badRowCells : List String :=
  ["FormulaValue", "FVX", "TEST/Steps/Step[Step1]/FormulaValue[FVX]",
   "", "", "", "", "", "", "", "X", "", "", "", "", "", "", ""]

def wbBad : Workbook := [{ name := "TEST.pxml", cells := [EXCEL_COLUMNS, badRowCells] }]

/-! ## Claim theorems: row-level update semantics -/

/-- C1: refuted on the code.  For a field present in the original snapshot, a
blank row cell does not leave the structural child untouched: `update_from_dict`
overwrites the prior non-blank text with the empty string and reports
`changed = true`, for both entity kinds (`Parameter.High` `"100" ↦ ""` and
`FormulaValue.Value` `"2" ↦ ""`). -/
theorem c1_blank_cell_erases_prior_value :
    dget c1Nd.original_subs "High" = some "100" ∧
    dget c1Row "High" = some "" ∧
    updChanged (ParameterNode.update_from_dict c1S c1Nd c1Row) = Except.ok true ∧
    updText (ParameterNode.update_from_dict c1S c1Nd c1Row) c1Nd.element "High" =
      some (some "") ∧
    dget fvNd.original_subs "Value" = some "2" ∧
    dget fvRowBlankValue "Value" = some "" ∧
    updChanged (FormulaValueNode.update_from_dict fvS fvNd fvRowBlankValue) = Except.ok true ∧
    updText (FormulaValueNode.update_from_dict fvS fvNd fvRowBlankValue) fvNd.element "Value" =
      some (some "") := by decide

/-- C2: refuted on the code.  A row with two non-blank mutually-exclusive
data-type cells (`Real` and `Integer`) raises no `TypeConflictError`: both
`update_from_dict` and the importer's per-row pre-check test `count > 2`, so
two populated type fields are accepted (the update is applied and counted),
and only three or more raise the error naming the path. -/
theorem c2_two_type_fields_accepted :
    updChanged (ParameterNode.update_from_dict dS pNd rowTwoTypes) = Except.ok true ∧
    (processRow "TEST.pxml" 2 dSt0 rowTwoTypes).map (fun st => (st.errors, st.stats.updated)) =
      Except.ok ([], 1) ∧
    ParameterNode.update_from_dict dS pNd rowThreeTypes =
      Except.error (PyErr.typeConflict "TEST/Parameter[Param1]: must have exactly one data type") := by
  decide

/-- C5: refuted on the code.  For a formula value with no FormulaValueLimit
block, a row carrying a non-blank `FormulaValueLimit_`-prefixed cell does not
create the block: `update_from_dict` skips every `FormulaValueLimit_` key, so
the store is returned unchanged with `changed = false` and no
`FormulaValueLimit` child exists afterwards. -/
theorem c5_formulavaluelimit_keys_ignored :
    dget fvRowLimit "FormulaValueLimit_HighValue" = some "5" ∧
    findChild fvS fvNd.element "FormulaValueLimit" = none ∧
    FormulaValueNode.update_from_dict fvS fvNd fvRowLimit = Except.ok (fvS, false) := by decide

/-- C6 counterexample: `ParameterNode.reorder_children` drops an original
child whose tag (`Foo`) is not in the canonical slot list: the child with id 3
is attached before the reorder and absent afterwards. -/
theorem c6_reorder_drops_noncanonical_child :
    (fooS.get fooNd.element).children = [1, 2, 3] ∧
    (fooS.get 3).tag = "Foo" ∧
    (ParameterNode.reorder_children fooS fooNd).map
        (fun s => ((s.get fooNd.element).children.map (fun c => (s.get c).tag),
                   (s.get fooNd.element).children.contains 3)) =
      Except.ok (["Name", "ERPAlias", "PLCReference", "String", "EngineeringUnits"], false) := by
  decide

/-- C7: the missing-Step failure is an uncontrolled `StopIteration` from
`next(...)` (no `StructureError` class exists in `utils/errors.py` and the
`if step_el is None` guard is unreachable), while with an existing Step the
new formula value is appended under the step element and registered in the
`formula_values` collection. -/
theorem c7_missing_step_stopiteration :
    RecipeTree.create_formulavalue dS dT rowBadStep = Except.error PyErr.stopIteration ∧
    (RecipeTree.create_formulavalue dS dT rowNewFV).map (fun p =>
        (p.2.formula_values.map (fun n => n.fullpath), (p.1.get 6).children)) =
      Except.ok (["TEST/Steps/Step[Step1]/FormulaValue[FV1]",
                  "TEST/Steps/Step[Step1]/FormulaValue[FV2]"], [7, 8, 12]) := by decide

/-- C4 counterexample: with one unresolved-defer row, the import raises the
single aggregate `ValidationError "1 errors"` (no `DeferResolutionError`
value is ever raised), yet the affected document is mutated before the raise:
both pre-existing entities are deleted (`deleted = 2`, both collections
emptied), because the erroring row's path is never marked as seen. -/
theorem c4_mutations_survive_aggregate_error :
    ExcelImporter.import_changes dS [dT] wbBad = Except.error (PyErr.validation "1 errors") ∧
    (processAllSheets dS [dT] wbBad).map (fun q =>
        (q.2.1.map (fun t => (t.parameters.length, t.formula_values.length)),
         (q.2.2.2).deleted)) = Except.ok ([(0, 0)], 2) := by decide

/-- C4 amended: when row-level failures were recorded, `import_changes` raises
exactly one aggregate `ValidationError` whose message is the error count —
after the per-sheet processing (including its mutations) has already run. -/
theorem c4_amended_aggregate_validation_error (s : Store) (trees : List RecipeTree)
    (wb : Workbook) (s1 : Store) (trees1 : List RecipeTree) (errors : List String)
    (stats : Stats)
    (h : processAllSheets s trees wb = Except.ok (s1, trees1, errors, stats))
    (hne : errors ≠ []) :
    ExcelImporter.import_changes s trees wb =
      Except.error (PyErr.validation (Nat.repr errors.length ++ " errors")) := by
  unfold ExcelImporter.import_changes
  rw [h]
  cases errors with
  | nil => exact absurd rfl hne
  | cons a l => rfl

/-- The document state `wbBad` leaves behind: both entities detached and the
collections emptied. -/
def c4S' : Store := { elems :=
  [ { tag := "RecipeElement", text := none, attrs := [], children := [1, 5] },
    { tag := "RecipeElementID", text := some "TEST", attrs := [], children := [] },
    { tag := "Parameter", text := none, attrs := [], children := [3, 4] },
    { tag := "Name", text := some "Param1", attrs := [], children := [] },
    { tag := "Real", text := some "1", attrs := [], children := [] },
    { tag := "Steps", text := none, attrs := [], children := [6] },
    { tag := "Step", text := none, attrs := [], children := [7] },
    { tag := "Name", text := some "Step1", attrs := [], children := [] },
    { tag := "FormulaValue", text := none, attrs := [], children := [9, 10, 11] },
    { tag := "Name", text := some "FV1", attrs := [], children := [] },
    { tag := "Value", text := some "2", attrs := [], children := [] },
    { tag := "Integer", text := some "3", attrs := [], children := [] } ] }

def c4T' : RecipeTree := { dT with parameters := [], formula_values := [] }

def c4Errs : List String :=
  ["TEST.pxml!Row2: defer target 'X' not found for TEST/Steps/Step[Step1]/FormulaValue[FVX]"]

theorem c4_amended_aggregate_validation_error_witness :
    ExcelImporter.import_changes dS [dT] wbBad =
      Except.error (PyErr.validation (Nat.repr c4Errs.length ++ " errors")) :=
  c4_amended_aggregate_validation_error dS [dT] wbBad c4S' [c4T'] c4Errs
    { created := 0, updated := 0, deleted := 2 } (by decide) (by decide)

/-- A formula value with no data-type child at all. -/
def fvNoTypeS : Store := { elems :=
  [ { tag := "FormulaValue", text := none, attrs := [], children := [1, 2] },
    { tag := "Name", text := some "F", attrs := [], children := [] },
    { tag := "Value", text := some "9", attrs := [], children := [] } ] }

def fvNoTypeNd : Node := Node.make fvNoTypeS 0 "TEST/Steps/Step[S1]/FormulaValue[F]"

/-- C10: `FormulaValueNode.reorder_children` fails with the uncontrolled
`NameError` (never a `ValidationError`) exactly when the element has no child
among `Integer`, `Real`, `String`, `EnumerationSet`; with at least one such
child it returns normally. -/
theorem c10_fv_reorder_needs_datatype_child (s : Store) (nd : Node) :
    ((∀ t, t ∈ ["Integer", "Real", "String", "EnumerationSet"] →
        dmem (childMapOf s nd.element) t = false) →
      FormulaValueNode.reorder_children s nd = Except.error PyErr.nameError) ∧
    ((∃ t, t ∈ ["Integer", "Real", "String", "EnumerationSet"] ∧
        dmem (childMapOf s nd.element) t = true) →
      ∃ s1, FormulaValueNode.reorder_children s nd = Except.ok s1) := by
  constructor
  · intro h
    have hI := h "Integer" (by simp)
    have hR := h "Real" (by simp)
    have hS := h "String" (by simp)
    have hE := h "EnumerationSet" (by simp)
    simp [FormulaValueNode.reorder_children, fvOrder, fvOrderAndDtype, hI, hR, hS, hE]
  · rintro ⟨t, ht, hmem⟩
    have hsome : (fvOrder (childMapOf s nd.element)).isSome = true := by
      cases hI : dmem (childMapOf s nd.element) "Integer" <;>
        cases hR : dmem (childMapOf s nd.element) "Real" <;>
          cases hS : dmem (childMapOf s nd.element) "String" <;>
            cases hE : dmem (childMapOf s nd.element) "EnumerationSet" <;>
              simp [fvOrder, fvOrderAndDtype, hI, hR, hS, hE]
      simp only [List.mem_cons, List.not_mem_nil, or_false] at ht
      rcases ht with rfl | rfl | rfl | rfl
      · exact absurd hmem (by simp [hI])
      · exact absurd hmem (by simp [hR])
      · exact absurd hmem (by simp [hS])
      · exact absurd hmem (by simp [hE])
    rcases Option.isSome_iff_exists.mp hsome with ⟨o, ho⟩
    refine ⟨rebuildChildren s nd.element (childMapOf s nd.element) o, ?_⟩
    simp [FormulaValueNode.reorder_children, ho]

theorem c10_fv_reorder_needs_datatype_child_witness :
    FormulaValueNode.reorder_children fvNoTypeS fvNoTypeNd = Except.error PyErr.nameError ∧
    ∃ s1, FormulaValueNode.reorder_children fvS fvNd = Except.ok s1 :=
  ⟨(c10_fv_reorder_needs_datatype_child fvNoTypeS fvNoTypeNd).1 (by decide),
   (c10_fv_reorder_needs_datatype_child fvS fvNd).2 ⟨"Integer", by simp, by decide⟩⟩

/-! ## Dictionary and store lemmas -/

lemma dget_mem {α : Type} {m : Dict α} {k : String} {v : α} (h : dget m k = some v) :
    (k, v) ∈ m := by
  unfold dget at h
  cases hf : m.find? (fun p => p.1 == k) with
  | none => rw [hf] at h; simp at h
  | some p =>
    rw [hf] at h
    simp only [Option.map_some'] at h
    have hp := List.mem_of_find?_eq_some hf
    have hk := List.find?_some hf
    obtain ⟨p1, p2⟩ := p
    have hpk : p1 = k := by simpa using hk
    subst hpk
    cases h
    exact hp

lemma mem_dinsert_sub {α : Type} {p : String × α} {m : Dict α} {k : String} {v : α}
    (h : p ∈ dinsert m k v) : p ∈ m ∨ p = (k, v) := by
  unfold dinsert at h
  split at h
  · rcases List.mem_map.mp h with ⟨q, hq, hmap⟩
    by_cases hqk : (q.1 == k) = true
    · right
      rw [if_pos hqk] at hmap
      have hk : q.1 = k := by simpa using hqk
      rw [← hmap, hk]
    · left
      rw [if_neg hqk] at hmap
      rwa [← hmap]
  · rcases List.mem_append.mp h with hm | hkv
    · exact Or.inl hm
    · right; simpa using hkv

lemma foldl_dinsert_sub {α : Type} {p : String × α} (ps : List (String × α)) (acc : Dict α)
    (h : p ∈ ps.foldl (fun m q => dinsert m q.1 q.2) acc) : p ∈ acc ∨ p ∈ ps := by
  induction ps generalizing acc with
  | nil => exact Or.inl h
  | cons q rest ih =>
    rcases ih (dinsert acc q.1 q.2) h with hacc | hrest
    · rcases mem_dinsert_sub hacc with h1 | h2
      · exact Or.inl h1
      · right
        rw [h2]
        exact List.mem_cons_self _ _
    · exact Or.inr (List.mem_cons_of_mem _ hrest)

lemma dictOf_sub {α : Type} {p : String × α} {ps : List (String × α)}
    (h : p ∈ dictOf ps) : p ∈ ps := by
  rcases foldl_dinsert_sub ps [] h with h0 | h1
  · simp at h0
  · exact h1

lemma childMap_some {s : Store} {el : EId} {tag : String} {c : EId}
    (h : dget (childMapOf s el) tag = some c) :
    c ∈ (s.get el).children ∧ (s.get c).tag = tag := by
  have hmem := dictOf_sub (dget_mem h)
  rcases List.mem_map.mp hmem with ⟨c', hc', heq⟩
  obtain ⟨h1, h2⟩ := Prod.mk.injEq .. ▸ heq
  subst h2
  exact ⟨hc', h1⟩

lemma Store.size_setE (s : Store) (i : EId) (d : EData) : (s.setE i d).size = s.size := by
  simp [Store.setE, Store.size]

lemma Store.get_setE_ne (s : Store) (i j : EId) (d : EData) (h : j ≠ i) :
    (s.setE i d).get j = s.get j := by
  simp [Store.setE, Store.get, List.getD_eq_getElem?_getD, List.getElem?_set_ne (Ne.symm h)]

lemma Store.get_setE_self (s : Store) (i : EId) (d : EData) (h : i < s.size) :
    (s.setE i d).get i = d := by
  simp [Store.setE, Store.get, Store.size] at h ⊢
  simp [List.getD_eq_getElem?_getD, List.getElem?_set_self, h]

lemma Store.get_alloc_low (s : Store) (d : EData) (i : EId) (h : i < s.size) :
    (s.alloc d).1.get i = s.get i := by
  simp [Store.alloc, Store.get, Store.size] at h ⊢
  simp [List.getD_eq_getElem?_getD, List.getElem?_append_left h]

lemma Store.get_alloc_new (s : Store) (d : EData) : (s.alloc d).1.get s.size = d := by
  simp [Store.alloc, Store.get, Store.size, List.getD_eq_getElem?_getD]

lemma Store.size_alloc (s : Store) (d : EData) : (s.alloc d).1.size = s.size + 1 := by
  simp [Store.alloc, Store.size]

/-! ## buildSlots lemmas -/

lemma buildSlots_size_le (cm : Dict EId) (order : List String) :
    ∀ s : Store, s.size ≤ (buildSlots s cm order).1.size := by
  induction order with
  | nil => intro s; simp [buildSlots]
  | cons tag rest ih =>
    intro s
    unfold buildSlots
    cases h : dget cm tag with
    | some c =>
      simpa [h] using ih s
    | none =>
      have h1 := ih (s.alloc { tag := tag, text := none, attrs := [], children := [] }).1
      rw [Store.size_alloc] at h1
      simp only [h, buildSlots]
      omega

lemma buildSlots_get_low (cm : Dict EId) (order : List String) :
    ∀ (s : Store) (i : EId), i < s.size → (buildSlots s cm order).1.get i = s.get i := by
  induction order with
  | nil => intro s i _; simp [buildSlots]
  | cons tag rest ih =>
    intro s i hi
    unfold buildSlots
    cases h : dget cm tag with
    | some c =>
      simpa [h] using ih s i hi
    | none =>
      have hi1 : i < (s.alloc { tag := tag, text := none, attrs := [], children := [] }).1.size := by
        rw [Store.size_alloc]
        exact Nat.lt_succ_of_lt hi
      have h1 := ih (s.alloc { tag := tag, text := none, attrs := [], children := [] }).1 i hi1
      rw [Store.get_alloc_low s _ i hi] at h1
      simpa [h, buildSlots] using h1

/-- Positional characterization of the slots built by `buildSlots`: each slot
either reuses the mapped existing element or holds a fresh empty element. -/
lemma buildSlots_forall₂ (cm : Dict EId) (order : List String) :
    ∀ s : Store,
      List.Forall₂ (fun tag c =>
        dget cm tag = some c ∨
          (dget cm tag = none ∧ s.size ≤ c ∧
            (buildSlots s cm order).1.get c =
              { tag := tag, text := none, attrs := [], children := [] }))
        order (buildSlots s cm order).2 := by
  induction order with
  | nil => intro s; simp [buildSlots]
  | cons tag rest ih =>
    intro s
    unfold buildSlots
    cases h : dget cm tag with
    | some c =>
      rcases hbe : buildSlots s cm rest with ⟨s1, ids⟩
      simp only [h, hbe]
      refine List.Forall₂.cons (Or.inl h) ?_
      have h0 := ih s
      rw [hbe] at h0
      exact h0
    | none =>
      rcases hbe : buildSlots (s.alloc { tag := tag, text := none, attrs := [], children := [] }).1
          cm rest with ⟨s1, ids⟩
      simp only [h, hbe]
      have hsz := Store.size_alloc s { tag := tag, text := none, attrs := [], children := [] }
      refine List.Forall₂.cons (Or.inr ⟨h, Nat.le_refl _, ?_⟩) ?_
      · have hlow := buildSlots_get_low cm rest
          (s.alloc { tag := tag, text := none, attrs := [], children := [] }).1 s.size
          (by rw [hsz]; exact Nat.lt_succ_self _)
        rw [hbe] at hlow
        exact hlow.trans (Store.get_alloc_new s _)
      · have h0 := ih (s.alloc { tag := tag, text := none, attrs := [], children := [] }).1
        rw [hbe] at h0
        refine h0.imp ?_
        intro a b hab
        rcases hab with hl | ⟨hn, hle, hget⟩
        · exact Or.inl hl
        · refine Or.inr ⟨hn, ?_, hget⟩
          rw [hsz] at hle
          exact Nat.le_of_succ_le hle

lemma forall₂_mem_right {α β : Type} {R : α → β → Prop} {l1 : List α} {l2 : List β}
    (h : List.Forall₂ R l1 l2) {b : β} (hb : b ∈ l2) : ∃ a ∈ l1, R a b := by
  induction h with
  | nil => simp at hb
  | @cons a b' l1' l2' hr _ ih =>
    rcases List.mem_cons.mp hb with rfl | hb2
    · exact ⟨a, List.mem_cons_self _ _, hr⟩
    · rcases ih hb2 with ⟨a', ha, hR⟩
      exact ⟨a', List.mem_cons_of_mem _ ha, hR⟩

lemma forall₂_mem_left {α β : Type} {R : α → β → Prop} {l1 : List α} {l2 : List β}
    (h : List.Forall₂ R l1 l2) {a : α} (ha : a ∈ l1) : ∃ b ∈ l2, R a b := by
  induction h with
  | nil => simp at ha
  | @cons a' b' l1' l2' hr _ ih =>
    rcases List.mem_cons.mp ha with rfl | ha2
    · exact ⟨b', List.mem_cons_self _ _, hr⟩
    · rcases ih ha2 with ⟨b, hb, hR⟩
      exact ⟨b, List.mem_cons_of_mem _ hb, hR⟩

lemma forall₂_map_eq {α β : Type} {f : β → α} {l1 : List α} {l2 : List β}
    (h : List.Forall₂ (fun a b => f b = a) l1 l2) : l2.map f = l1 := by
  induction h with
  | nil => rfl
  | cons hr _ ih => simpa [ih] using hr

/-- What both reorder methods guarantee on success, formulated against the
canonical slot list `order` they selected: the resulting child tags are
exactly `order`; original children with tags outside `order` are dropped;
children mapped by a slot are kept; empty slots get fresh placeholders. -/
def reorderSpec (s : Store) (nd : Node) (s1 : Store) (order : List String) : Prop :=
  ((s1.get nd.element).children.map (fun c => (s1.get c).tag) = order) ∧
  (∀ c ∈ (s.get nd.element).children, (s.get c).tag ∉ order →
    c ∉ (s1.get nd.element).children) ∧
  (∀ tag c, tag ∈ order → dget (childMapOf s nd.element) tag = some c →
    c ∈ (s1.get nd.element).children) ∧
  (∀ tag, tag ∈ order → dget (childMapOf s nd.element) tag = none →
    ∃ c, c ∈ (s1.get nd.element).children ∧ s.size ≤ c ∧
      s1.get c = { tag := tag, text := none, attrs := [], children := [] })

lemma rebuildChildren_spec (s : Store) (nd : Node)
    (hel : nd.element < s.size)
    (hch : ∀ c ∈ (s.get nd.element).children, c < s.size)
    (hne : nd.element ∉ (s.get nd.element).children)
    (order : List String) :
    reorderSpec s nd (rebuildChildren s nd.element (childMapOf s nd.element) order) order := by
  rcases hbe : buildSlots (s.setChildren nd.element []) (childMapOf s nd.element) order
    with ⟨bs, kids⟩
  have hreb : rebuildChildren s nd.element (childMapOf s nd.element) order =
      bs.setChildren nd.element kids := by
    simp [rebuildChildren, hbe]
  have hsz0 : (s.setChildren nd.element []).size = s.size := by
    simp [Store.setChildren, Store.size_setE]
  have hszbs : s.size ≤ bs.size := by
    have := buildSlots_size_le (childMapOf s nd.element) order (s.setChildren nd.element [])
    rw [hbe] at this
    simpa [hsz0] using this
  have hbs_low : ∀ j < s.size, j ≠ nd.element → bs.get j = s.get j := by
    intro j hj hjne
    have h1 := buildSlots_get_low (childMapOf s nd.element) order
      (s.setChildren nd.element []) j (by rw [hsz0]; exact hj)
    rw [hbe] at h1
    simp only at h1
    rw [h1, Store.setChildren, Store.get_setE_ne _ _ _ _ hjne]
  have hfin_ne : ∀ j, j ≠ nd.element →
      (bs.setChildren nd.element kids).get j = bs.get j := by
    intro j hjne
    rw [Store.setChildren, Store.get_setE_ne _ _ _ _ hjne]
  have hfin_el : ((bs.setChildren nd.element kids).get nd.element).children = kids := by
    rw [Store.setChildren, Store.get_setE_self _ _ _ (Nat.lt_of_lt_of_le hel hszbs)]
  have hfa := buildSlots_forall₂ (childMapOf s nd.element) order (s.setChildren nd.element [])
  rw [hbe] at hfa
  simp only [hsz0] at hfa
  -- hfa : Forall₂ (some-or-placeholder) order kids, phrased over s.size and bs
  rw [hreb]
  refine ⟨?_, ?_, ?_, ?_⟩
  · rw [hfin_el]
    refine forall₂_map_eq (hfa.imp ?_)
    intro tag c hc
    rcases hc with hsome | ⟨_, hle, hph⟩
    · obtain ⟨hcmem, htag⟩ := childMap_some hsome
      have hcne : c ≠ nd.element := fun he => hne (he ▸ hcmem)
      rw [hfin_ne c hcne, hbs_low c (hch c hcmem) hcne, htag]
    · have hcne : c ≠ nd.element := fun he => absurd (he ▸ hle) (Nat.not_le.mpr hel)
      rw [hfin_ne c hcne, hph]
  · intro c hcmem htag
    rw [hfin_el]
    intro hck
    rcases forall₂_mem_right hfa hck with ⟨tag', htag', hrel⟩
    rcases hrel with hsome | ⟨_, hle, _⟩
    · obtain ⟨_, htagc⟩ := childMap_some hsome
      exact htag (htagc ▸ htag')
    · exact absurd hle (Nat.not_le.mpr (hch c hcmem))
  · intro tag c htag hsome
    rw [hfin_el]
    rcases forall₂_mem_left hfa htag with ⟨b, hb, hrel⟩
    rcases hrel with hsome2 | ⟨hnone, _, _⟩
    · rw [hsome] at hsome2
      cases hsome2
      exact hb
    · rw [hsome] at hnone
      cases hnone
  · intro tag htag hnone
    rw [hfin_el]
    rcases forall₂_mem_left hfa htag with ⟨b, hb, hrel⟩
    rcases hrel with hsome | ⟨_, hle, hph⟩
    · rw [hnone] at hsome
      cases hsome
    · have hbne : b ≠ nd.element := fun he => absurd (he ▸ hle) (Nat.not_le.mpr hel)
      exact ⟨b, hb, hle, by rw [hfin_ne b hbne, hph]⟩

/-- C6 amended: on success, both reorder methods rebuild the child list
purely from the canonical slot order they selected — the resulting child tags
are exactly that order, any original child whose tag is outside the slot list
is dropped (not preserved), children mapped by a slot are kept, and every
slot with no existing child is synthesized as a fresh empty placeholder. -/
theorem c6_amended_reorder_keeps_only_canonical_slots :
    (∀ (s : Store) (nd : Node) (s1 : Store), nd.element < s.size →
      (∀ c ∈ (s.get nd.element).children, c < s.size) →
      nd.element ∉ (s.get nd.element).children →
      ParameterNode.reorder_children s nd = Except.ok s1 →
      ∃ order, paramOrder (childMapOf s nd.element) = some order ∧
        reorderSpec s nd s1 order) ∧
    (∀ (s : Store) (nd : Node) (s1 : Store), nd.element < s.size →
      (∀ c ∈ (s.get nd.element).children, c < s.size) →
      nd.element ∉ (s.get nd.element).children →
      FormulaValueNode.reorder_children s nd = Except.ok s1 →
      ∃ order, fvOrder (childMapOf s nd.element) = some order ∧
        reorderSpec s nd s1 order) := by
  constructor
  · intro s nd s1 hel hch hne hok
    cases hp : paramOrder (childMapOf s nd.element) with
    | none =>
      simp only [ParameterNode.reorder_children, hp] at hok
      cases hok
    | some order =>
      simp only [ParameterNode.reorder_children, hp, Except.ok.injEq] at hok
      rw [← hok]
      exact ⟨order, rfl, rebuildChildren_spec s nd hel hch hne order⟩
  · intro s nd s1 hel hch hne hok
    cases hp : fvOrder (childMapOf s nd.element) with
    | none =>
      simp only [FormulaValueNode.reorder_children, hp] at hok
      cases hok
    | some order =>
      simp only [FormulaValueNode.reorder_children, hp, Except.ok.injEq] at hok
      rw [← hok]
      exact ⟨order, rfl, rebuildChildren_spec s nd hel hch hne order⟩

/-- The store `ParameterNode.reorder_children fooS fooNd` produces. -/
def c6ResS : Store := { elems :=
  [ { tag := "Parameter", text := none, attrs := [], children := [1, 4, 5, 2, 6] },
    { tag := "Name", text := some "P", attrs := [], children := [] },
    { tag := "String", text := some "x", attrs := [], children := [] },
    { tag := "Foo", text := some "f", attrs := [], children := [] },
    { tag := "ERPAlias", text := none, attrs := [], children := [] },
    { tag := "PLCReference", text := none, attrs := [], children := [] },
    { tag := "EngineeringUnits", text := none, attrs := [], children := [] } ] }

/-- The store `FormulaValueNode.reorder_children fvS fvNd` produces. -/
def c6FvResS : Store := { elems :=
  [ { tag := "FormulaValue", text := none, attrs := [], children := [1, 4, 2, 3, 5] },
    { tag := "Name", text := some "F1", attrs := [], children := [] },
    { tag := "Value", text := some "2", attrs := [], children := [] },
    { tag := "Integer", text := some "3", attrs := [], children := [] },
    { tag := "Display", text := none, attrs := [], children := [] },
    { tag := "EngineeringUnits", text := none, attrs := [], children := [] } ] }

theorem c6_amended_reorder_keeps_only_canonical_slots_witness :
    (∃ order, paramOrder (childMapOf fooS fooNd.element) = some order ∧
      reorderSpec fooS fooNd c6ResS order) ∧
    (∃ order, fvOrder (childMapOf fvS fvNd.element) = some order ∧
      reorderSpec fvS fvNd c6FvResS order) :=
  ⟨c6_amended_reorder_keeps_only_canonical_slots.1 fooS fooNd c6ResS
    (by decide) (by decide) (by decide) (by decide),
   c6_amended_reorder_keeps_only_canonical_slots.2 fvS fvNd c6FvResS
    (by decide) (by decide) (by decide) (by decide)⟩

/-! ## Row-processing lemmas -/

lemma except_bind_ok {ε α β : Type} (a : α) (f : α → Except ε β) :
    (Except.ok (ε := ε) a >>= f) = f a := rfl

lemma except_bind_error {ε α β : Type} (e : ε) (f : α → Except ε β) :
    (Except.error (α := α) e >>= f) = Except.error e := rfl

lemma processRow_errors (sheet : String) (r : Nat) (st : RowState) (rd : Dict String)
    (st' : RowState) (h : processRow sheet r st rd = Except.ok st') :
    st'.errors = st.errors ∨ ∃ msg, st'.errors = st.errors ++ [msg] := by
  unfold processRow at h
  by_cases hcnt : preCheckCount rd > 2
  · rw [if_pos hcnt] at h
    cases h
    exact Or.inr ⟨_, rfl⟩
  · rw [if_neg hcnt] at h
    by_cases hp : (pyStrip ((dget rd "TagType").getD "") == "Parameter") = true
    · rw [if_pos hp] at h
      cases hn : dget rd "Name" with
      | none =>
        rw [hn] at h
        simp only [except_bind_error] at h
        exact Except.noConfusion h
      | some nm =>
        rw [hn] at h
        simp only [except_bind_ok] at h
        cases hf : st.tree.find_parameter (pyStrip ((dget rd "FullPath").getD "")) with
        | some nd =>
          rw [hf] at h
          simp only [except_bind_ok, except_bind_error] at h
          cases hu : ParameterNode.update_from_dict st.store nd rd with
          | error e =>
            rw [hu] at h
            simp only [except_bind_error] at h
            exact Except.noConfusion h
          | ok pr =>
            rw [hu] at h
            simp only [except_bind_ok, Except.ok.injEq] at h
            cases h
            exact Or.inl rfl
        | none =>
          rw [hf] at h
          simp only [except_bind_ok, except_bind_error] at h
          cases hc : RecipeTree.create_parameter st.store st.tree rd with
          | error e =>
            rw [hc] at h
            simp only [except_bind_error] at h
            exact Except.noConfusion h
          | ok pr =>
            rw [hc] at h
            simp only [except_bind_ok, Except.ok.injEq] at h
            cases h
            exact Or.inl rfl
    · rw [if_neg hp] at h
      by_cases hfv : (pyStrip ((dget rd "TagType").getD "") == "FormulaValue") = true
      · rw [if_pos hfv] at h
        cases hn : dget rd "Name" with
        | none =>
          rw [hn] at h
          simp only [except_bind_error] at h
          exact Except.noConfusion h
        | some nm =>
          rw [hn] at h
          simp only [except_bind_ok] at h
          cases hs : stepOfPath (pyStrip ((dget rd "FullPath").getD "")) with
          | error e =>
            rw [hs] at h
            simp only [except_bind_error] at h
            exact Except.noConfusion h
          | ok stp =>
            rw [hs] at h
            simp only [except_bind_ok] at h
            by_cases hdef : (!(strIsEmpty (pyStrip ((dget rd "Defer").getD ""))) &&
                !(st.acc.excel_param_names.contains (pyStrip ((dget rd "Defer").getD "")))) = true
            · rw [if_pos hdef] at h
              cases h
              exact Or.inr ⟨_, rfl⟩
            · rw [if_neg hdef] at h
              cases hff : st.tree.find_formulavalue (pyStrip ((dget rd "FullPath").getD "")) with
              | some nd =>
                rw [hff] at h
                simp only [except_bind_ok, except_bind_error] at h
                cases hu : FormulaValueNode.update_from_dict st.store nd rd with
                | error e =>
                  rw [hu] at h
                  simp only [except_bind_error] at h
                  exact Except.noConfusion h
                | ok pr =>
                  rw [hu] at h
                  simp only [except_bind_ok, Except.ok.injEq] at h
                  cases h
                  exact Or.inl rfl
              | none =>
                rw [hff] at h
                simp only [except_bind_ok, except_bind_error] at h
                cases hc : RecipeTree.create_formulavalue st.store st.tree rd with
                | error e =>
                  rw [hc] at h
                  simp only [except_bind_error] at h
                  exact Except.noConfusion h
                | ok pr =>
                  rw [hc] at h
                  simp only [except_bind_ok, Except.ok.injEq] at h
                  cases h
                  exact Or.inl rfl
      · rw [if_neg hfv] at h
        cases h
        exact Or.inr ⟨_, rfl⟩

/-- The Parameter name a row contributes to `excel_param_names`: added exactly
when the row passes the pre-check and has TagType `Parameter`. -/
def collectNames (rd : Dict String) : List String :=
  if preCheckCount rd > 2 then []
  else if pyStrip ((dget rd "TagType").getD "") == "Parameter" then
    [pyStrip ((dget rd "Name").getD "")]
  else []

lemma processRow_names (sheet : String) (r : Nat) (st : RowState) (rd : Dict String)
    (st' : RowState) (h : processRow sheet r st rd = Except.ok st') :
    st'.acc.excel_param_names = st.acc.excel_param_names ++ collectNames rd := by
  unfold processRow at h
  by_cases hcnt : preCheckCount rd > 2
  · rw [if_pos hcnt] at h
    cases h
    simp [collectNames, hcnt]
  · rw [if_neg hcnt] at h
    by_cases hp : (pyStrip ((dget rd "TagType").getD "") == "Parameter") = true
    · rw [if_pos hp] at h
      cases hn : dget rd "Name" with
      | none =>
        rw [hn] at h
        simp only [except_bind_error] at h
        exact Except.noConfusion h
      | some nm =>
        rw [hn] at h
        simp only [except_bind_ok] at h
        have hcoll : collectNames rd = [pyStrip nm] := by
          simp [collectNames, hcnt, hp, hn]
        cases hf : st.tree.find_parameter (pyStrip ((dget rd "FullPath").getD "")) with
        | some nd =>
          rw [hf] at h
          simp only [except_bind_ok, except_bind_error] at h
          cases hu : ParameterNode.update_from_dict st.store nd rd with
          | error e =>
            rw [hu] at h
            simp only [except_bind_error] at h
            exact Except.noConfusion h
          | ok pr =>
            rw [hu] at h
            simp only [except_bind_ok, Except.ok.injEq] at h
            cases h
            simp [hcoll]
        | none =>
          rw [hf] at h
          simp only [except_bind_ok, except_bind_error] at h
          cases hc : RecipeTree.create_parameter st.store st.tree rd with
          | error e =>
            rw [hc] at h
            simp only [except_bind_error] at h
            exact Except.noConfusion h
          | ok pr =>
            rw [hc] at h
            simp only [except_bind_ok, Except.ok.injEq] at h
            cases h
            simp [hcoll]
    · rw [if_neg hp] at h
      have hcoll : collectNames rd = [] := by
        simp only [collectNames, if_neg hcnt]
        rw [if_neg hp]
      by_cases hfv : (pyStrip ((dget rd "TagType").getD "") == "FormulaValue") = true
      · rw [if_pos hfv] at h
        cases hn : dget rd "Name" with
        | none =>
          rw [hn] at h
          simp only [except_bind_error] at h
          exact Except.noConfusion h
        | some nm =>
          rw [hn] at h
          simp only [except_bind_ok] at h
          cases hs : stepOfPath (pyStrip ((dget rd "FullPath").getD "")) with
          | error e =>
            rw [hs] at h
            simp only [except_bind_error] at h
            exact Except.noConfusion h
          | ok stp =>
            rw [hs] at h
            simp only [except_bind_ok] at h
            by_cases hdef : (!(strIsEmpty (pyStrip ((dget rd "Defer").getD ""))) &&
                !(st.acc.excel_param_names.contains (pyStrip ((dget rd "Defer").getD "")))) = true
            · rw [if_pos hdef] at h
              cases h
              simp [hcoll]
            · rw [if_neg hdef] at h
              cases hff : st.tree.find_formulavalue (pyStrip ((dget rd "FullPath").getD "")) with
              | some nd =>
                rw [hff] at h
                simp only [except_bind_ok, except_bind_error] at h
                cases hu : FormulaValueNode.update_from_dict st.store nd rd with
                | error e =>
                  rw [hu] at h
                  simp only [except_bind_error] at h
                  exact Except.noConfusion h
                | ok pr =>
                  rw [hu] at h
                  simp only [except_bind_ok, Except.ok.injEq] at h
                  cases h
                  simp [hcoll]
              | none =>
                rw [hff] at h
                simp only [except_bind_ok, except_bind_error] at h
                cases hc : RecipeTree.create_formulavalue st.store st.tree rd with
                | error e =>
                  rw [hc] at h
                  simp only [except_bind_error] at h
                  exact Except.noConfusion h
                | ok pr =>
                  rw [hc] at h
                  simp only [except_bind_ok, Except.ok.injEq] at h
                  cases h
                  simp [hcoll]
      · rw [if_neg hfv] at h
        cases h
        simp [hcoll]

/-- The defer pre-check of a FormulaValue row consults only the Parameter
names accumulated so far (`st.acc.excel_param_names`): when the non-blank
defer target is not among them, the row is recorded as a defer error and
nothing else happens to the state. -/
lemma processRow_defer_error (sheet : String) (r : Nat) (st : RowState) (rd : Dict String)
    (st' : RowState) (h : processRow sheet r st rd = Except.ok st')
    (hcnt : ¬ preCheckCount rd > 2)
    (htag : pyStrip ((dget rd "TagType").getD "") = "FormulaValue")
    (hdefer : strIsEmpty (pyStrip ((dget rd "Defer").getD "")) = false)
    (hnotin : pyStrip ((dget rd "Defer").getD "") ∉ st.acc.excel_param_names) :
    st' = { st with errors := st.errors ++
      [sheet ++ "!Row" ++ Nat.repr r ++ ": defer target '" ++
        pyStrip ((dget rd "Defer").getD "") ++ "' not found for " ++
        pyStrip ((dget rd "FullPath").getD "")] } := by
  unfold processRow at h
  rw [if_neg hcnt] at h
  rw [htag] at h
  rw [if_neg (by decide : ¬ (("FormulaValue" : String) == "Parameter") = true)] at h
  rw [if_pos (by decide : (("FormulaValue" : String) == "FormulaValue") = true)] at h
  cases hn : dget rd "Name" with
  | none =>
    rw [hn] at h
    simp only [except_bind_error] at h
    exact Except.noConfusion h
  | some nm =>
    rw [hn] at h
    simp only [except_bind_ok] at h
    cases hs : stepOfPath (pyStrip ((dget rd "FullPath").getD "")) with
    | error e =>
      rw [hs] at h
      simp only [except_bind_error] at h
      exact Except.noConfusion h
    | ok stp =>
      rw [hs] at h
      simp only [except_bind_ok] at h
      have hcontains : st.acc.excel_param_names.contains
          (pyStrip ((dget rd "Defer").getD "")) = false := by
        simpa using hnotin
      rw [if_pos (by rw [hdefer, hcontains]; rfl)] at h
      cases h
      rfl

/-- The Parameter names a sheet's data rows contribute, in row order. -/
def collectedParamNames (header : List String) (rows : List (List String)) : List String :=
  (rows.map (fun row => collectNames (dictOf (header.zip row)))).flatten

lemma processRowsFrom_append (sheet : String) (header : List String)
    (xs ys : List (List String)) :
    ∀ (r : Nat) (st : RowState),
      processRowsFrom sheet header r st (xs ++ ys) =
        (processRowsFrom sheet header r st xs) >>= fun st1 =>
          processRowsFrom sheet header (r + xs.length) st1 ys := by
  induction xs with
  | nil =>
    intro r st
    simp [processRowsFrom, except_bind_ok]
  | cons x rest ih =>
    intro r st
    simp only [List.cons_append, processRowsFrom]
    cases hx : processRow sheet r st (dictOf (header.zip x)) with
    | error e => simp [except_bind_error]
    | ok st1 =>
      simp only [except_bind_ok]
      change processRowsFrom sheet header (r + 1) st1 (rest ++ ys) = _
      rw [ih (r + 1) st1]
      have harith : r + 1 + rest.length = r + (x :: rest).length := by
        simp [List.length_cons]
        omega
      rw [harith]

lemma processRowsFrom_names (sheet : String) (header : List String) :
    ∀ (rows : List (List String)) (r : Nat) (st st' : RowState),
      processRowsFrom sheet header r st rows = Except.ok st' →
      st'.acc.excel_param_names =
        st.acc.excel_param_names ++ collectedParamNames header rows := by
  intro rows
  induction rows with
  | nil =>
    intro r st st' h
    cases h
    simp [collectedParamNames]
  | cons x rest ih =>
    intro r st st' h
    simp only [processRowsFrom] at h
    cases hx : processRow sheet r st (dictOf (header.zip x)) with
    | error e =>
      rw [hx] at h
      simp only [except_bind_error] at h
      exact Except.noConfusion h
    | ok st1 =>
      rw [hx] at h
      simp only [except_bind_ok] at h
      have h1 := processRow_names sheet r st (dictOf (header.zip x)) st1 hx
      have h2 := ih (r + 1) st1 st' h
      rw [h2, h1, collectedParamNames, collectedParamNames]
      simp [List.append_assoc]

lemma processRowsFrom_errors_tail (sheet : String) (header : List String) :
    ∀ (rows : List (List String)) (r : Nat) (st st' : RowState),
      processRowsFrom sheet header r st rows = Except.ok st' →
      ∃ tail, st'.errors = st.errors ++ tail := by
  intro rows
  induction rows with
  | nil =>
    intro r st st' h
    cases h
    exact ⟨[], by simp⟩
  | cons x rest ih =>
    intro r st st' h
    simp only [processRowsFrom] at h
    cases hx : processRow sheet r st (dictOf (header.zip x)) with
    | error e =>
      rw [hx] at h
      simp only [except_bind_error] at h
      exact Except.noConfusion h
    | ok st1 =>
      rw [hx] at h
      simp only [except_bind_ok] at h
      rcases ih (r + 1) st1 st' h with ⟨tail, htail⟩
      rcases processRow_errors sheet r st (dictOf (header.zip x)) st1 hx with h0 | ⟨msg, h0⟩
      · exact ⟨tail, by rw [htail, h0]⟩
      · exact ⟨msg :: tail, by rw [htail, h0]; simp⟩

/-- C9: during a sheet's import, a FormulaValue row's non-blank `Defer` value
is validated only against the Parameter names accumulated from rows processed
earlier in the same sheet (the per-sheet accumulator starts empty): whenever
the target is not named by an earlier Parameter row, the row is recorded as a
defer-resolution error in the aggregate error list — even when a Parameter
row later in the same sheet (or any other sheet) names the target. -/
theorem c9_defer_scoped_to_earlier_parameter_rows (sheet : String) (header : List String)
    (pre post : List (List String)) (fvRow : List String) (st0 stFin : RowState)
    (rd : Dict String) (hrd : rd = dictOf (header.zip fvRow))
    (h0 : st0.acc.excel_param_names = [])
    (hrun : processRowsFrom sheet header 2 st0 (pre ++ fvRow :: post) = Except.ok stFin)
    (hcnt : ¬ preCheckCount rd > 2)
    (htag : pyStrip ((dget rd "TagType").getD "") = "FormulaValue")
    (hdefer : strIsEmpty (pyStrip ((dget rd "Defer").getD "")) = false)
    (hnotin : pyStrip ((dget rd "Defer").getD "") ∉ collectedParamNames header pre) :
    (sheet ++ "!Row" ++ Nat.repr (2 + pre.length) ++ ": defer target '" ++
      pyStrip ((dget rd "Defer").getD "") ++ "' not found for " ++
      pyStrip ((dget rd "FullPath").getD "")) ∈ stFin.errors := by
  rw [processRowsFrom_append] at hrun
  cases hpre : processRowsFrom sheet header 2 st0 pre with
  | error e =>
    rw [hpre] at hrun
    simp only [except_bind_error] at hrun
    exact Except.noConfusion hrun
  | ok st1 =>
    rw [hpre] at hrun
    simp only [except_bind_ok] at hrun
    simp only [processRowsFrom] at hrun
    rw [← hrd] at hrun
    cases hx : processRow sheet (2 + pre.length) st1 rd with
    | error e =>
      rw [hx] at hrun
      simp only [except_bind_error] at hrun
      exact Except.noConfusion hrun
    | ok st2 =>
      rw [hx] at hrun
      simp only [except_bind_ok] at hrun
      have hnames : st1.acc.excel_param_names = collectedParamNames header pre := by
        have := processRowsFrom_names sheet header pre 2 st0 st1 hpre
        rw [h0] at this
        simpa using this
      have hst2 := processRow_defer_error sheet (2 + pre.length) st1 rd st2 hx hcnt htag
        hdefer (by rw [hnames]; exact hnotin)
      rcases processRowsFrom_errors_tail sheet header post (2 + pre.length + 1) st2 stFin hrun
        with ⟨tail, htail⟩
      rw [htail, hst2]
      simp

/-- A Parameter row naming `X`, placed after the deferring FormulaValue row. -/
def paramXCells : List String :=
  ["Parameter", "X", "TEST/Parameter[X]", "7", "", "", "", "", "", "", "", "", "", "", "",
   "", "", ""]

/-- The state after processing `badRowCells` then `paramXCells` over `dT`:
the batch creates Parameter `X`, yet the earlier defer to `X` is an error. -/
def c9StFin : RowState :=
  { store := { elems :=
      [ { tag := "RecipeElement", text := none, attrs := [], children := [1, 2, 12, 5] },
        { tag := "RecipeElementID", text := some "TEST", attrs := [], children := [] },
        { tag := "Parameter", text := none, attrs := [], children := [3, 4] },
        { tag := "Name", text := some "Param1", attrs := [], children := [] },
        { tag := "Real", text := some "1", attrs := [], children := [] },
        { tag := "Steps", text := none, attrs := [], children := [6] },
        { tag := "Step", text := none, attrs := [], children := [7, 8] },
        { tag := "Name", text := some "Step1", attrs := [], children := [] },
        { tag := "FormulaValue", text := none, attrs := [], children := [9, 10, 11] },
        { tag := "Name", text := some "FV1", attrs := [], children := [] },
        { tag := "Value", text := some "2", attrs := [], children := [] },
        { tag := "Integer", text := some "3", attrs := [], children := [] },
        { tag := "Parameter", text := none, attrs := [],
          children := [13, 15, 16, 14, 17, 18, 19, 20] },
        { tag := "Name", text := some "X", attrs := [], children := [] },
        { tag := "Real", text := some "7", attrs := [], children := [] },
        { tag := "ERPAlias", text := none, attrs := [], children := [] },
        { tag := "PLCReference", text := none, attrs := [], children := [] },
        { tag := "High", text := none, attrs := [], children := [] },
        { tag := "Low", text := none, attrs := [], children := [] },
        { tag := "EngineeringUnits", text := none, attrs := [], children := [] },
        { tag := "Scale", text := none, attrs := [], children := [] } ] },
    tree :=
      { filepath := "TEST.pxml"
        root := 0
        parameters :=
          [ { element := 2, fullpath := "TEST/Parameter[Param1]",
              original_subs := [("Name", "Param1"), ("Real", "1")] },
            { element := 12, fullpath := "TEST/Parameter[X]", original_subs := [] } ]
        formula_values :=
          [ { element := 8, fullpath := "TEST/Steps/Step[Step1]/FormulaValue[FV1]",
              original_subs := [("Name", "FV1"), ("Value", "2"), ("Integer", "3")] } ] },
    acc := { excel_param_names := ["X"], seen_params := ["TEST/Parameter[X]"], seen_fvs := [] },
    errors :=
      ["TEST.pxml!Row2: defer target 'X' not found for TEST/Steps/Step[Step1]/FormulaValue[FVX]"],
    stats := { created := 1, updated := 0, deleted := 0 } }

theorem c9_defer_scoped_to_earlier_parameter_rows_witness :
    ("TEST.pxml" ++ "!Row" ++ Nat.repr (2 + ([] : List (List String)).length) ++
      ": defer target '" ++
      pyStrip ((dget (dictOf (EXCEL_COLUMNS.zip badRowCells)) "Defer").getD "") ++
      "' not found for " ++
      pyStrip ((dget (dictOf (EXCEL_COLUMNS.zip badRowCells)) "FullPath").getD "")) ∈
      c9StFin.errors :=
  c9_defer_scoped_to_earlier_parameter_rows "TEST.pxml" EXCEL_COLUMNS [] [paramXCells]
    badRowCells dSt0 c9StFin (dictOf (EXCEL_COLUMNS.zip badRowCells)) rfl (by decide)
    (by decide) (by decide) (by decide) (by decide) (by decide)

/-! ## Occurrence counting: how often an element id appears as a child -/

/-- Total number of occurrences of `c` in any child list of the store; an
element is attached in the tree exactly when its count is positive, and a
well-formed store gives every attached element exactly one parent. -/
def occCount (s : Store) (c : EId) : Nat :=
  (s.elems.map (fun d => d.children.count c)).sum

lemma sum_map_set {α : Type} (f : α → Nat) (d : α) :
    ∀ (l : List α) (i : Nat), i < l.length →
      ((l.set i d).map f).sum + f (l.getD i d) = (l.map f).sum + f d := by
  intro l
  induction l with
  | nil => intro i hi; simp at hi
  | cons x rest ih =>
    intro i hi
    cases i with
    | zero => simp [List.set]; omega
    | succ j =>
      have hj : j < rest.length := by simpa using hi
      have := ih j hj
      simp only [List.set, List.map_cons, List.sum_cons, List.getD_cons_succ]
      omega

lemma occ_setE_exact (s : Store) (i : EId) (d : EData) (c : EId) (h : i < s.size) :
    occCount (s.setE i d) c + ((s.get i).children.count c) =
      occCount s c + (d.children.count c) := by
  have hg : s.elems.getD i d = s.get i := by
    simp [Store.get, Store.size] at h ⊢
    simp [List.getD_eq_getElem?_getD, List.getElem?_eq_getElem h]
  have := sum_map_set (fun e => e.children.count c) d s.elems i h
  rw [hg] at this
  simpa [occCount, Store.setE] using this

lemma occ_setE_oob (s : Store) (i : EId) (d : EData) (c : EId) (h : s.size ≤ i) :
    occCount (s.setE i d) c = occCount s c := by
  simp [occCount, Store.setE, List.set_eq_of_length_le h]

lemma occ_setE_le (s : Store) (i : EId) (d : EData) (c : EId)
    (hcnt : d.children.count c ≤ (s.get i).children.count c) :
    occCount (s.setE i d) c ≤ occCount s c := by
  by_cases h : i < s.size
  · have := occ_setE_exact s i d c h
    omega
  · rw [occ_setE_oob s i d c (Nat.le_of_not_lt h)]

lemma occ_setChildren_exact (s : Store) (i : EId) (cs : List EId) (c : EId)
    (h : i < s.size) :
    occCount (s.setChildren i cs) c + (s.get i).children.count c =
      occCount s c + cs.count c :=
  occ_setE_exact s i { s.get i with children := cs } c h

lemma occ_setChildren_oob (s : Store) (i : EId) (cs : List EId) (c : EId)
    (h : s.size ≤ i) :
    occCount (s.setChildren i cs) c = occCount s c :=
  occ_setE_oob s i { s.get i with children := cs } c h

lemma occ_setChildren_le (s : Store) (i : EId) (cs : List EId) (c : EId)
    (hcnt : cs.count c ≤ (s.get i).children.count c) :
    occCount (s.setChildren i cs) c ≤ occCount s c := by
  by_cases h : i < s.size
  · have := occ_setChildren_exact s i cs c h
    omega
  · exact Nat.le_of_eq (occ_setChildren_oob s i cs c (Nat.le_of_not_lt h))

lemma occ_setText (s : Store) (i : EId) (t : Option String) (c : EId) :
    occCount (s.setText i t) c = occCount s c := by
  by_cases h : i < s.size
  · have hx := occ_setE_exact s i { s.get i with text := t } c h
    have hch : ({ s.get i with text := t } : EData).children = (s.get i).children := rfl
    rw [hch] at hx
    show occCount (s.setE i { s.get i with text := t }) c = occCount s c
    omega
  · exact occ_setE_oob s i _ c (Nat.le_of_not_lt h)

lemma occ_alloc (s : Store) (d : EData) (c : EId) :
    occCount (s.alloc d).1 c = occCount s c + d.children.count c := by
  simp [occCount, Store.alloc]

lemma size_setText (s : Store) (i : EId) (t : Option String) :
    (s.setText i t).size = s.size := Store.size_setE s i _

lemma size_setChildren (s : Store) (i : EId) (cs : List EId) :
    (s.setChildren i cs).size = s.size := Store.size_setE s i _

lemma size_appendChild (s : Store) (p q : EId) :
    (s.appendChild p q).size = s.size := Store.size_setE s p _

lemma size_removeChild (s : Store) (p q : EId) :
    (s.removeChild p q).size = s.size := Store.size_setE s p _

lemma occ_appendChild_ne (s : Store) (p q c : EId) (h : q ≠ c) :
    occCount (s.appendChild p q) c = occCount s c := by
  by_cases hp : p < s.size
  · have hx := occ_setChildren_exact s p ((s.get p).children ++ [q]) c hp
    rw [List.count_append] at hx
    simp only [List.count_cons, List.count_nil, beq_iff_eq] at hx
    rw [if_neg h] at hx
    show occCount (s.setChildren p ((s.get p).children ++ [q])) c = occCount s c
    omega
  · exact occ_setChildren_oob s p _ c (Nat.le_of_not_lt hp)

lemma occ_removeChild_le (s : Store) (p q c : EId) :
    occCount (s.removeChild p q) c ≤ occCount s c :=
  occ_setChildren_le s p ((s.get p).children.erase q) c
    (((s.get p).children.erase_sublist q).count_le c)

/-- Store evolution during row processing: the store only grows, and the
attachment count of any pre-existing element never increases. -/
def Mono (s s' : Store) : Prop :=
  s.size ≤ s'.size ∧ ∀ c, c < s.size → occCount s' c ≤ occCount s c

lemma Mono.refl (s : Store) : Mono s s := ⟨Nat.le_refl _, fun _ _ => Nat.le_refl _⟩

lemma Mono.trans {s1 s2 s3 : Store} (h1 : Mono s1 s2) (h2 : Mono s2 s3) : Mono s1 s3 :=
  ⟨Nat.le_trans h1.1 h2.1,
   fun c hc => Nat.le_trans (h2.2 c (Nat.lt_of_lt_of_le hc h1.1)) (h1.2 c hc)⟩

lemma mono_applyRowField (s : Store) (el : EId) (subs : Dict String) (ch : Bool)
    (k text : String) : Mono s (applyRowField s el subs ch k text).1 := by
  unfold applyRowField
  by_cases hb : (strIsEmpty text && !dmem subs k) = true
  · rw [if_pos hb]
    exact Mono.refl s
  · rw [if_neg hb]
    cases hf : findChild s el k with
    | none =>
      constructor
      · show s.size ≤ ((s.alloc
          { tag := k, text := some text, attrs := [], children := [] }).1.appendChild el
          (s.alloc { tag := k, text := some text, attrs := [], children := [] }).2).size
        rw [size_appendChild, Store.size_alloc]
        omega
      · intro c hc
        show occCount ((s.alloc
          { tag := k, text := some text, attrs := [], children := [] }).1.appendChild el
          (s.alloc { tag := k, text := some text, attrs := [], children := [] }).2) c ≤
          occCount s c
        have h2 : (s.alloc
            { tag := k, text := some text, attrs := [], children := [] }).2 ≠ c := by
          show s.elems.length ≠ c
          have hc2 : c < s.elems.length := hc
          omega
        rw [occ_appendChild_ne _ _ _ _ h2, occ_alloc]
        simp
    | some cid =>
      show Mono s (if (text != safe_strip (s.get cid).text) = true
        then (s.setText cid (some text), true) else (s, ch)).1
      by_cases ht : (text != safe_strip (s.get cid).text) = true
      · rw [if_pos ht]
        exact ⟨Nat.le_of_eq (size_setText s cid (some text)).symm, fun c _ =>
          Nat.le_of_eq (occ_setText s cid (some text) c)⟩
      · rw [if_neg ht]
        exact Mono.refl s

lemma insertAt_count_ne (l : List EId) (i : Nat) (a c : EId) (h : a ≠ c) :
    (insertAt l i a).count c = l.count c := by
  have hl : l.count c = (l.take i).count c + (l.drop i).count c := by
    conv_lhs => rw [← List.take_append_drop i l]
    rw [List.count_append]
  unfold insertAt
  rw [List.count_append, List.count_cons, hl]
  simp [beq_iff_eq, h, Ne.symm h]

lemma occ_buildSlots (cm : Dict EId) (order : List String) :
    ∀ (s : Store) (c : EId), occCount (buildSlots s cm order).1 c = occCount s c := by
  induction order with
  | nil => intro s c; simp [buildSlots]
  | cons tag rest ih =>
    intro s c
    unfold buildSlots
    cases h : dget cm tag with
    | some k =>
      rcases hbe : buildSlots s cm rest with ⟨s1, ids⟩
      have h0 := ih s c
      rw [hbe] at h0
      simpa using h0
    | none =>
      rcases hbe : buildSlots (s.alloc { tag := tag, text := none, attrs := [], children := [] }).1
          cm rest with ⟨s1, ids⟩
      have h0 := ih (s.alloc { tag := tag, text := none, attrs := [], children := [] }).1 c
      rw [hbe] at h0
      have ha := occ_alloc s { tag := tag, text := none, attrs := [], children := [] } c
      simp only at h0 ha
      simp only [hbe]
      rw [h0, ha]
      simp

lemma forall₂_count_le_one {R : String → EId → Prop} :
    ∀ {order : List String} {kids : List EId},
      List.Forall₂ R order kids → order.Nodup → ∀ (c : EId) (t0 : String),
      (∀ tag, R tag c → tag = t0) → kids.count c ≤ 1 := by
  intro order kids h
  induction h with
  | nil => intro _ c t0 _; simp
  | @cons tag k order' kids' hr hrest ih =>
    intro hnd c t0 ht
    have hnd' : order'.Nodup := (List.nodup_cons.mp hnd).2
    have htag_notin : tag ∉ order' := (List.nodup_cons.mp hnd).1
    rw [List.count_cons]
    by_cases hk : c = k
    · subst hk
      have h1 : tag = t0 := ht tag hr
      have h0 : kids'.count c = 0 := by
        rw [List.count_eq_zero]
        intro hmem
        rcases forall₂_mem_right hrest hmem with ⟨tag', htag', hR⟩
        have h2 : tag' = t0 := ht tag' hR
        exact htag_notin (h1 ▸ h2 ▸ htag')
      simp [h0]
    · have := ih hnd' c t0 ht
      have hkc : ¬ (k = c) := fun hkc => hk hkc.symm
      simp only [beq_iff_eq, if_neg hk, if_neg hkc]
      omega

lemma forall₂_count_zero {R : String → EId → Prop} {order : List String} {kids : List EId}
    (h : List.Forall₂ R order kids) (c : EId) (hc : ∀ tag, ¬ R tag c) :
    kids.count c = 0 := by
  rw [List.count_eq_zero]
  intro hmem
  rcases forall₂_mem_right h hmem with ⟨tag, _, hR⟩
  exact hc tag hR

lemma occ_rebuild_le (s : Store) (el : EId) (order : List String) (c : EId)
    (hel : el < s.size) (hc : c < s.size) (hnd : order.Nodup) :
    occCount (rebuildChildren s el (childMapOf s el) order) c ≤ occCount s c := by
  rcases hbe : buildSlots (s.setChildren el []) (childMapOf s el) order with ⟨s1, kids⟩
  have hreb : rebuildChildren s el (childMapOf s el) order = s1.setChildren el kids := by
    simp [rebuildChildren, hbe]
  have hsz0 : (s.setChildren el []).size = s.size := size_setChildren s el []
  have hocc0 := occ_setChildren_exact s el [] c hel
  simp only [List.count_nil] at hocc0
  have hocc1 : occCount s1 c = occCount (s.setChildren el []) c := by
    have := occ_buildSlots (childMapOf s el) order (s.setChildren el []) c
    rw [hbe] at this
    exact this
  have hel1 : el < s1.size := by
    have hgrow := buildSlots_size_le (childMapOf s el) order (s.setChildren el [])
    rw [hbe] at hgrow
    simp only at hgrow
    exact Nat.lt_of_lt_of_le hel (hsz0 ▸ hgrow)
  have hget1 : s1.get el = { s.get el with children := [] } := by
    have hlow := buildSlots_get_low (childMapOf s el) order (s.setChildren el []) el
      (by rw [hsz0]; exact hel)
    rw [hbe] at hlow
    simp only at hlow
    rw [hlow, Store.setChildren, Store.get_setE_self s el _ hel]
  have hocc2 := occ_setChildren_exact s1 el kids c hel1
  rw [hget1] at hocc2
  simp only [List.count_nil] at hocc2
  have hfa := buildSlots_forall₂ (childMapOf s el) order (s.setChildren el [])
  rw [hbe] at hfa
  simp only [hsz0] at hfa
  have hkids : kids.count c ≤ (s.get el).children.count c := by
    by_cases hmem : c ∈ (s.get el).children
    · have hle1 : kids.count c ≤ 1 := by
        refine forall₂_count_le_one hfa hnd c ((s.get c).tag) ?_
        intro tag hR
        rcases hR with hsome | ⟨_, hge, _⟩
        · exact (childMap_some hsome).2.symm
        · exact absurd hge (Nat.not_le.mpr hc)
      have hge1 : 1 ≤ (s.get el).children.count c := List.one_le_count_iff.mpr hmem
      omega
    · have h0 : kids.count c = 0 := by
        refine forall₂_count_zero hfa c ?_
        intro tag hR
        rcases hR with hsome | ⟨_, hge, _⟩
        · exact hmem (childMap_some hsome).1
        · exact absurd hge (Nat.not_le.mpr hc)
      omega
  rw [hreb]
  omega

lemma mono_rebuild (s : Store) (el : EId) (order : List String)
    (hel : el < s.size) (hnd : order.Nodup) :
    Mono s (rebuildChildren s el (childMapOf s el) order) := by
  constructor
  · rcases hbe : buildSlots (s.setChildren el []) (childMapOf s el) order with ⟨s1, kids⟩
    have hreb : rebuildChildren s el (childMapOf s el) order = s1.setChildren el kids := by
      simp [rebuildChildren, hbe]
    have := buildSlots_size_le (childMapOf s el) order (s.setChildren el [])
    rw [hbe] at this
    simp only at this
    rw [hreb, size_setChildren]
    have hsz0 : (s.setChildren el []).size = s.size := size_setChildren s el []
    omega
  · intro c hc
    exact occ_rebuild_le s el order c hel hc hnd

lemma paramOrder_nodup (cm : Dict EId) (o : List String) (h : paramOrder cm = some o) :
    o.Nodup := by
  unfold paramOrder at h
  split at h
  · cases h; decide
  · split at h
    · cases h; decide
    · split at h
      · cases h; decide
      · split at h
        · cases h; decide
        · exact absurd h (by simp)

lemma foldl_collect_snd (p : String → Bool) :
    ∀ (l : List String) (d0 : Option String) (acc : List String),
      (l.foldl (fun a t => if p t then (some t, a.2 ++ [t]) else a) ((d0, acc) : Option String × List String)).2
        = acc ++ l.filter p := by
  intro l
  induction l with
  | nil => intro d0 acc; simp
  | cons t rest ih =>
    intro d0 acc
    simp only [List.foldl_cons, List.filter_cons]
    by_cases hp : p t = true
    · rw [if_pos hp, ih]
      simp [hp]
    · rw [if_neg hp, ih]
      simp [hp]

lemma ite_append_sub {α : Type} (c : Prop) [Decidable c] (a x : List α) :
    (if c then a ++ x else a).Sublist (a ++ x) := by
  split
  · exact List.Sublist.refl _
  · exact List.sublist_append_left a x

lemma fvOrder_nodup (cm : Dict EId) (o : List String) (h : fvOrder cm = some o) : o.Nodup := by
  unfold fvOrder at h
  rcases hfd : fvOrderAndDtype cm with ⟨dt, o1⟩
  rw [hfd] at h
  simp only at h
  cases dt with
  | none => exact absurd h (by simp)
  | some dtype =>
    simp only [Option.some.injEq] at h
    have hsnd : o1 = (["Name", "Display"] ++
        (if dmem cm "Defer" then ["Defer"] else ["Value"])) ++
        (["Integer", "Real", "String", "EnumerationSet"].filter (fun t => dmem cm t)) := by
      have h2 := foldl_collect_snd (fun t => dmem cm t)
        ["Integer", "Real", "String", "EnumerationSet"] none
        (["Name", "Display"] ++ (if dmem cm "Defer" then ["Defer"] else ["Value"]))
      have h3 : (fvOrderAndDtype cm).2 = o1 := by rw [hfd]
      rw [← h3]
      unfold fvOrderAndDtype
      simpa using h2
    subst h
    have hmaster : (["Name", "Display"] ++ ["Defer", "Value"] ++
        ["Integer", "Real", "String", "EnumerationSet"] ++ ["EnumerationMember"] ++
        ["EngineeringUnits"] ++ ["FormulaValueLimit"] : List String).Nodup := by decide
    refine List.Nodup.sublist ?_ hmaster
    have s3 := ite_append_sub (dmem cm "FormulaValueLimit" = true)
      (if (dtype == "Integer" || dtype == "Real") = true
        then (if dmem cm "EnumerationMember" = true then o1 ++ ["EnumerationMember"] else o1) ++
          ["EngineeringUnits"]
        else (if dmem cm "EnumerationMember" = true then o1 ++ ["EnumerationMember"] else o1))
      ["FormulaValueLimit"]
    have s2 := ite_append_sub ((dtype == "Integer" || dtype == "Real") = true)
      (if dmem cm "EnumerationMember" = true then o1 ++ ["EnumerationMember"] else o1)
      ["EngineeringUnits"]
    have s1 := ite_append_sub (dmem cm "EnumerationMember" = true) o1 ["EnumerationMember"]
    have sB : (["Name", "Display"] ++
        (if dmem cm "Defer" then ["Defer"] else ["Value"]) : List String).Sublist
        (["Name", "Display"] ++ ["Defer", "Value"]) := by
      refine List.Sublist.append (List.Sublist.refl _) ?_
      split
      · decide
      · decide
    have sC : (["Integer", "Real", "String", "EnumerationSet"].filter
        (fun t => dmem cm t)).Sublist ["Integer", "Real", "String", "EnumerationSet"] :=
      List.filter_sublist _
    have so1 : o1.Sublist (["Name", "Display"] ++ ["Defer", "Value"] ++
        ["Integer", "Real", "String", "EnumerationSet"]) := by
      rw [hsnd]
      exact List.Sublist.append sB sC
    refine List.Sublist.trans s3 ?_
    refine List.Sublist.trans (List.Sublist.append_right s2 ["FormulaValueLimit"]) ?_
    refine List.Sublist.trans (List.Sublist.append_right
      (List.Sublist.append_right s1 ["EngineeringUnits"]) ["FormulaValueLimit"]) ?_
    exact List.Sublist.append (List.Sublist.append
      (List.Sublist.append so1 (List.Sublist.refl ["EnumerationMember"]))
      (List.Sublist.refl ["EngineeringUnits"])) (List.Sublist.refl ["FormulaValueLimit"])

lemma pure_eq_ok {α : Type} (a : α) : (pure a : Except PyErr α) = Except.ok a := rfl

lemma mono_reorder_param (s : Store) (nd : Node) (s2 : Store)
    (h : ParameterNode.reorder_children s nd = Except.ok s2) (hel : nd.element < s.size) :
    Mono s s2 := by
  simp only [ParameterNode.reorder_children] at h
  cases hp : paramOrder (childMapOf s nd.element) with
  | none => rw [hp] at h; exact Except.noConfusion h
  | some order =>
    rw [hp] at h
    simp only [Except.ok.injEq] at h
    subst h
    exact mono_rebuild s nd.element order hel (paramOrder_nodup _ _ hp)

lemma mono_reorder_fv (s : Store) (nd : Node) (s2 : Store)
    (h : FormulaValueNode.reorder_children s nd = Except.ok s2) (hel : nd.element < s.size) :
    Mono s s2 := by
  simp only [FormulaValueNode.reorder_children] at h
  cases hp : fvOrder (childMapOf s nd.element) with
  | none => rw [hp] at h; exact Except.noConfusion h
  | some order =>
    rw [hp] at h
    simp only [Except.ok.injEq] at h
    subst h
    exact mono_rebuild s nd.element order hel (fvOrder_nodup _ _ hp)

lemma mono_param_fold (el : EId) (subs : Dict String) :
    ∀ (row : List (String × String)) (acc : Store × Bool),
      Mono acc.1 ((row.foldl
        (fun (acc : Store × Bool) kv =>
          if paramSkipKey kv.1 then acc
          else applyRowField acc.1 el subs acc.2 kv.1 (pyStrip kv.2)) acc).1) := by
  intro row
  induction row with
  | nil => intro acc; exact Mono.refl _
  | cons kv rest ih =>
    intro acc
    simp only [List.foldl_cons]
    by_cases hk : paramSkipKey kv.1 = true
    · rw [if_pos hk]
      exact ih acc
    · rw [if_neg hk]
      exact Mono.trans (mono_applyRowField acc.1 el subs acc.2 kv.1 (pyStrip kv.2)) (ih _)

lemma mono_fv_fold (el : EId) (subs : Dict String) (row : Dict String) :
    ∀ (l : List (String × String)) (acc : Store × Bool),
      Mono acc.1 ((l.foldl
        (fun (acc : Store × Bool) kv =>
          if strStarts kv.1 "FormulaValueLimit_" || kv.1 == "TagType" || kv.1 == "FullPath" then
            acc
          else
            let text := pyStrip kv.2
            if kv.1 == "Value" && !(strIsEmpty (pyStrip ((dget row "Defer").getD ""))) then acc
            else if kv.1 == "Defer" && strIsEmpty text then acc
            else applyRowField acc.1 el subs acc.2 kv.1 text) acc).1) := by
  intro l
  induction l with
  | nil => intro acc; exact Mono.refl _
  | cons kv rest ih =>
    intro acc
    simp only [List.foldl_cons]
    by_cases h1 : (strStarts kv.1 "FormulaValueLimit_" || kv.1 == "TagType" ||
        kv.1 == "FullPath") = true
    · rw [if_pos h1]
      exact ih acc
    · rw [if_neg h1]
      by_cases h2 : (kv.1 == "Value" &&
          !(strIsEmpty (pyStrip ((dget row "Defer").getD "")))) = true
      · rw [if_pos h2]
        exact ih acc
      · rw [if_neg h2]
        by_cases h3 : (kv.1 == "Defer" && strIsEmpty (pyStrip kv.2)) = true
        · rw [if_pos h3]
          exact ih acc
        · rw [if_neg h3]
          exact Mono.trans (mono_applyRowField acc.1 el subs acc.2 kv.1 (pyStrip kv.2)) (ih _)

lemma mono_update_param (s : Store) (nd : Node) (row : Dict String) (s1 : Store) (ch : Bool)
    (h : ParameterNode.update_from_dict s nd row = Except.ok (s1, ch))
    (hel : nd.element < s.size) : Mono s s1 := by
  unfold ParameterNode.update_from_dict at h
  cases hc : rowTypeCount row ["Real", "Integer", "String", "EnumerationSet"] with
  | error e =>
    rw [hc] at h
    simp only [except_bind_error] at h
    exact Except.noConfusion h
  | ok count =>
    rw [hc] at h
    simp only [except_bind_ok] at h
    by_cases hcnt : count > 2
    · rw [if_pos hcnt] at h
      exact Except.noConfusion h
    · rw [if_neg hcnt] at h
      have hm := mono_param_fold nd.element nd.original_subs row (s, false)
      rcases hsc : (row.foldl
          (fun (acc : Store × Bool) kv =>
            if paramSkipKey kv.1 then acc
            else applyRowField acc.1 nd.element nd.original_subs acc.2 kv.1 (pyStrip kv.2))
          (s, false)) with ⟨sA, chA⟩
      rw [hsc] at h hm
      simp only [] at h hm
      by_cases hch : chA = true
      · rw [if_pos hch] at h
        cases hr : ParameterNode.reorder_children sA nd with
        | error e =>
          rw [hr] at h
          simp only [except_bind_error] at h
          exact Except.noConfusion h
        | ok s2 =>
          rw [hr] at h
          simp only [except_bind_ok, pure_eq_ok, Except.ok.injEq, Prod.mk.injEq] at h
          obtain ⟨h1, _⟩ := h
          subst h1
          exact Mono.trans hm (mono_reorder_param sA nd s2 hr (Nat.lt_of_lt_of_le hel hm.1))
      · rw [if_neg hch] at h
        simp only [pure_eq_ok, Except.ok.injEq, Prod.mk.injEq] at h
        obtain ⟨h1, _⟩ := h
        subst h1
        exact hm

lemma mono_update_fv (s : Store) (nd : Node) (row : Dict String) (s1 : Store) (ch : Bool)
    (h : FormulaValueNode.update_from_dict s nd row = Except.ok (s1, ch))
    (hel : nd.element < s.size) : Mono s s1 := by
  unfold FormulaValueNode.update_from_dict at h
  cases hc : rowTypeCount row ["Real", "Integer", "String", "EnumerationSet", "Defer"] with
  | error e =>
    rw [hc] at h
    simp only [except_bind_error] at h
    exact Except.noConfusion h
  | ok count =>
    rw [hc] at h
    simp only [except_bind_ok] at h
    by_cases hcnt : count > 2
    · rw [if_pos hcnt] at h
      exact Except.noConfusion h
    · rw [if_neg hcnt] at h
      have hm := mono_fv_fold nd.element nd.original_subs row row (s, false)
      rcases hsc : (row.foldl
          (fun (acc : Store × Bool) kv =>
            if strStarts kv.1 "FormulaValueLimit_" || kv.1 == "TagType" ||
                kv.1 == "FullPath" then
              acc
            else
              let text := pyStrip kv.2
              if kv.1 == "Value" &&
                  !(strIsEmpty (pyStrip ((dget row "Defer").getD ""))) then acc
              else if kv.1 == "Defer" && strIsEmpty text then acc
              else applyRowField acc.1 nd.element nd.original_subs acc.2 kv.1 text)
          (s, false)) with ⟨sA, chA⟩
      rw [hsc] at h hm
      simp only [] at h hm
      by_cases hch : chA = true
      · rw [if_pos hch] at h
        cases hr : FormulaValueNode.reorder_children sA nd with
        | error e =>
          rw [hr] at h
          simp only [except_bind_error] at h
          exact Except.noConfusion h
        | ok s2 =>
          rw [hr] at h
          simp only [except_bind_ok, pure_eq_ok, Except.ok.injEq, Prod.mk.injEq] at h
          obtain ⟨h1, _⟩ := h
          subst h1
          exact Mono.trans hm (mono_reorder_fv sA nd s2 hr (Nat.lt_of_lt_of_le hel hm.1))
      · rw [if_neg hch] at h
        simp only [pure_eq_ok, Except.ok.injEq, Prod.mk.injEq] at h
        obtain ⟨h1, _⟩ := h
        subst h1
        exact hm

lemma occ_setChildren_same_count (s : Store) (i : EId) (cs : List EId) (c : EId)
    (hcnt : cs.count c = (s.get i).children.count c) :
    occCount (s.setChildren i cs) c = occCount s c := by
  by_cases h : i < s.size
  · have := occ_setChildren_exact s i cs c h
    omega
  · exact occ_setChildren_oob s i cs c (Nat.le_of_not_lt h)

lemma create_param_spec (s : Store) (t : RecipeTree) (row : Dict String)
    (s1 : Store) (t1 : RecipeTree)
    (h : RecipeTree.create_parameter s t row = Except.ok (s1, t1)) :
    Mono s s1 ∧ s.size < s1.size ∧
      ∃ nd : Node, t1 = { t with parameters := t.parameters ++ [nd] } ∧
        nd.element = s.size ∧ nd.element < s1.size := by
  unfold RecipeTree.create_parameter at h
  rcases ha : s.alloc { tag := "Parameter", text := none, attrs := [], children := [] }
    with ⟨sA, newEl⟩
  rw [ha] at h
  simp only [] at h
  have hNew : newEl = s.size := by
    rw [show s.size = (s.alloc { tag := "Parameter", text := none, attrs := [], children := [] }).2 from rfl, ha]
  have hA : sA = (s.alloc { tag := "Parameter", text := none, attrs := [], children := [] }).1 := by
    rw [ha]
  have hAsz : sA.size = s.size + 1 := by rw [hA]; exact Store.size_alloc s _
  have hOccA : ∀ c, occCount sA c = occCount s c := by
    intro c
    rw [hA, occ_alloc]
    simp
  have hNe : ∀ c : EId, c < s.size → newEl ≠ c := by
    intro c hc he
    rw [hNew] at he
    exact Nat.ne_of_lt hc he.symm
  cases hfp : dget row "FullPath" with
  | none =>
    rw [hfp] at h
    simp only [except_bind_error] at h
    exact Except.noConfusion h
  | some fp =>
    rw [hfp] at h
    simp only [except_bind_ok] at h
    rcases hpi : (((sA.get t.root).children.enum.filter
        (fun p => (sA.get p.2).tag == "Parameter")).map (fun p => p.1)).getLast? with _ | i
    all_goals rw [hpi] at h
    · rcases hj : ((sA.get t.root).children.enum.find?
          (fun p => (sA.get p.2).tag == "Steps")).map (fun p => p.1) with _ | j
      all_goals rw [hj] at h
      · -- append at end
        cases hu : ParameterNode.update_from_dict
            (sA.setChildren t.root ((sA.get t.root).children ++ [newEl]))
            { element := newEl, fullpath := fp, original_subs := [] } row with
        | error e =>
          rw [hu] at h
          simp only [except_bind_error] at h
          exact Except.noConfusion h
        | ok sc =>
          rcases sc with ⟨sC, b⟩
          rw [hu] at h
          simp only [except_bind_ok, Except.ok.injEq, Prod.mk.injEq] at h
          obtain ⟨hs1, ht1⟩ := h
          have hMB : Mono s (sA.setChildren t.root ((sA.get t.root).children ++ [newEl])) := by
            constructor
            · rw [size_setChildren]
              omega
            · intro c hc
              have hcnt : ((sA.get t.root).children ++ [newEl]).count c =
                  (sA.get t.root).children.count c := by
                rw [List.count_append, List.count_cons, List.count_nil]
                simp only [beq_iff_eq]
                rw [if_neg (hNe c hc)]
                omega
              rw [occ_setChildren_same_count _ _ _ _ hcnt, hOccA]
          have hMC : Mono (sA.setChildren t.root ((sA.get t.root).children ++ [newEl])) sC :=
            mono_update_param _ _ row sC b hu
              (by rw [size_setChildren, hAsz, hNew]; exact Nat.lt_succ_self _)
          refine ⟨hs1 ▸ Mono.trans hMB hMC, ?_, ?_⟩
          · have h2 := hMC.1
            rw [size_setChildren] at h2
            rw [← hs1]
            omega
          · refine ⟨{ element := newEl, fullpath := fp, original_subs := [] }, ht1.symm, hNew, ?_⟩
            have h2 := hMC.1
            rw [size_setChildren, hAsz] at h2
            rw [← hs1]
            have h3 : newEl < s.size + 1 := by rw [hNew]; exact Nat.lt_succ_self _
            exact Nat.lt_of_lt_of_le h3 h2
      · -- insert before Steps
        cases hu : ParameterNode.update_from_dict
            (sA.setChildren t.root (insertAt (sA.get t.root).children j newEl))
            { element := newEl, fullpath := fp, original_subs := [] } row with
        | error e =>
          rw [hu] at h
          simp only [except_bind_error] at h
          exact Except.noConfusion h
        | ok sc =>
          rcases sc with ⟨sC, b⟩
          rw [hu] at h
          simp only [except_bind_ok, Except.ok.injEq, Prod.mk.injEq] at h
          obtain ⟨hs1, ht1⟩ := h
          have hMB : Mono s (sA.setChildren t.root (insertAt (sA.get t.root).children j newEl)) := by
            constructor
            · rw [size_setChildren]
              omega
            · intro c hc
              have hcnt : (insertAt (sA.get t.root).children j newEl).count c =
                  (sA.get t.root).children.count c := insertAt_count_ne _ _ _ _ (hNe c hc)
              rw [occ_setChildren_same_count _ _ _ _ hcnt, hOccA]
          have hMC : Mono (sA.setChildren t.root (insertAt (sA.get t.root).children j newEl)) sC :=
            mono_update_param _ _ row sC b hu
              (by rw [size_setChildren, hAsz, hNew]; exact Nat.lt_succ_self _)
          refine ⟨hs1 ▸ Mono.trans hMB hMC, ?_, ?_⟩
          · have h2 := hMC.1
            rw [size_setChildren] at h2
            rw [← hs1]
            omega
          · refine ⟨{ element := newEl, fullpath := fp, original_subs := [] }, ht1.symm, hNew, ?_⟩
            have h2 := hMC.1
            rw [size_setChildren, hAsz] at h2
            rw [← hs1]
            have h3 : newEl < s.size + 1 := by rw [hNew]; exact Nat.lt_succ_self _
            exact Nat.lt_of_lt_of_le h3 h2
    · -- insert after last Parameter
      cases hu : ParameterNode.update_from_dict
          (sA.setChildren t.root (insertAt (sA.get t.root).children (i + 1) newEl))
          { element := newEl, fullpath := fp, original_subs := [] } row with
      | error e =>
        rw [hu] at h
        simp only [except_bind_error] at h
        exact Except.noConfusion h
      | ok sc =>
        rcases sc with ⟨sC, b⟩
        rw [hu] at h
        simp only [except_bind_ok, Except.ok.injEq, Prod.mk.injEq] at h
        obtain ⟨hs1, ht1⟩ := h
        have hMB : Mono s (sA.setChildren t.root (insertAt (sA.get t.root).children (i + 1) newEl)) := by
          constructor
          · rw [size_setChildren]
            omega
          · intro c hc
            have hcnt : (insertAt (sA.get t.root).children (i + 1) newEl).count c =
                (sA.get t.root).children.count c := insertAt_count_ne _ _ _ _ (hNe c hc)
            rw [occ_setChildren_same_count _ _ _ _ hcnt, hOccA]
        have hMC : Mono (sA.setChildren t.root (insertAt (sA.get t.root).children (i + 1) newEl)) sC :=
          mono_update_param _ _ row sC b hu
            (by rw [size_setChildren, hAsz, hNew]; exact Nat.lt_succ_self _)
        refine ⟨hs1 ▸ Mono.trans hMB hMC, ?_, ?_⟩
        · have h2 := hMC.1
          rw [size_setChildren] at h2
          rw [← hs1]
          omega
        · refine ⟨{ element := newEl, fullpath := fp, original_subs := [] }, ht1.symm, hNew, ?_⟩
          have h2 := hMC.1
          rw [size_setChildren, hAsz] at h2
          rw [← hs1]
          have h3 : newEl < s.size + 1 := by rw [hNew]; exact Nat.lt_succ_self _
          exact Nat.lt_of_lt_of_le h3 h2

lemma create_fv_spec (s : Store) (t : RecipeTree) (row : Dict String)
    (s1 : Store) (t1 : RecipeTree)
    (h : RecipeTree.create_formulavalue s t row = Except.ok (s1, t1)) :
    Mono s s1 ∧ s.size < s1.size ∧
      ∃ nd : Node, t1 = { t with formula_values := t.formula_values ++ [nd] } ∧
        nd.element = s.size ∧ nd.element < s1.size := by
  unfold RecipeTree.create_formulavalue at h
  cases hfp : dget row "FullPath" with
  | none =>
    rw [hfp] at h
    simp only [except_bind_error] at h
    exact Except.noConfusion h
  | some fp =>
    rw [hfp] at h
    simp only [except_bind_ok] at h
    cases hps : parseStepFromPath fp with
    | none =>
      rw [hps] at h
      exact Except.noConfusion h
    | some step_name =>
      rw [hps] at h
      simp only [] at h
      cases hse : firstStepNamed s step_name
          ((descendants s s.size t.root).filter (fun e => (s.get e).tag == "Step")) with
      | error e =>
        rw [hse] at h
        simp only [except_bind_error] at h
        exact Except.noConfusion h
      | ok step_el =>
        rw [hse] at h
        simp only [except_bind_ok] at h
        rcases ha : s.alloc { tag := "FormulaValue", text := none, attrs := [], children := [] }
          with ⟨sA, el⟩
        rw [ha] at h
        simp only [] at h
        have hEl : el = s.size := by
          rw [show s.size = (s.alloc { tag := "FormulaValue", text := none, attrs := [], children := [] }).2 from rfl, ha]
        have hA : sA = (s.alloc { tag := "FormulaValue", text := none, attrs := [], children := [] }).1 := by
          rw [ha]
        have hAsz : sA.size = s.size + 1 := by rw [hA]; exact Store.size_alloc s _
        have hOccA : ∀ c, occCount sA c = occCount s c := by
          intro c
          rw [hA, occ_alloc]
          simp
        have hNe : ∀ c : EId, c < s.size → el ≠ c := by
          intro c hc he
          rw [hEl] at he
          exact Nat.ne_of_lt hc he.symm
        cases hu : FormulaValueNode.update_from_dict (sA.appendChild step_el el)
            { element := el, fullpath := fp, original_subs := [] } row with
        | error e =>
          rw [hu] at h
          simp only [except_bind_error] at h
          exact Except.noConfusion h
        | ok sc =>
          rcases sc with ⟨sC, b⟩
          rw [hu] at h
          simp only [except_bind_ok, Except.ok.injEq, Prod.mk.injEq] at h
          obtain ⟨hs1, ht1⟩ := h
          have hMB : Mono s (sA.appendChild step_el el) := by
            constructor
            · rw [size_appendChild]
              omega
            · intro c hc
              rw [occ_appendChild_ne sA step_el el c (hNe c hc), hOccA]
          have hMC : Mono (sA.appendChild step_el el) sC :=
            mono_update_fv _ _ row sC b hu
              (by rw [size_appendChild, hAsz, hEl]; exact Nat.lt_succ_self _)
          refine ⟨hs1 ▸ Mono.trans hMB hMC, ?_, ?_⟩
          · have h2 := hMC.1
            rw [size_appendChild] at h2
            rw [← hs1]
            omega
          · refine ⟨{ element := el, fullpath := fp, original_subs := [] }, ht1.symm, hEl, ?_⟩
            have h2 := hMC.1
            rw [size_appendChild, hAsz] at h2
            rw [← hs1]
            have h3 : el < s.size + 1 := by rw [hEl]; exact Nat.lt_succ_self _
            exact Nat.lt_of_lt_of_le h3 h2

/-- Well-formedness of the collections threaded through row processing: every
collection node's element is a live store id, and no two collection entries
alias the same element (distinct lxml objects). -/
def TreeWF (st : RowState) : Prop :=
  (∀ nd ∈ st.tree.parameters ++ st.tree.formula_values, nd.element < st.store.size) ∧
  ((st.tree.parameters ++ st.tree.formula_values).map Node.element).Nodup

lemma nodup_map_mid (P F : List Node) (x : Node)
    (h : ((P ++ F).map Node.element).Nodup)
    (hx : x.element ∉ (P ++ F).map Node.element) :
    (((P ++ [x]) ++ F).map Node.element).Nodup := by
  have hperm : ((P ++ [x]) ++ F).Perm (x :: (P ++ F)) := by
    rw [List.append_assoc, List.singleton_append]
    exact List.perm_middle
  rw [List.Perm.nodup_iff (hperm.map Node.element)]
  simp only [List.map_cons]
  exact List.nodup_cons.mpr ⟨hx, h⟩

lemma nodup_map_end (P F : List Node) (x : Node)
    (h : ((P ++ F).map Node.element).Nodup)
    (hx : x.element ∉ (P ++ F).map Node.element) :
    ((P ++ (F ++ [x])).map Node.element).Nodup := by
  have hperm : (P ++ (F ++ [x])).Perm (x :: (P ++ F)) :=
    List.Perm.trans (List.Perm.append_left P (List.perm_append_singleton x F))
      List.perm_middle
  rw [List.Perm.nodup_iff (hperm.map Node.element)]
  simp only [List.map_cons]
  exact List.nodup_cons.mpr ⟨hx, h⟩

lemma fresh_not_mem_map (l : List Node) (sz : Nat) (x : Node)
    (hb : ∀ nd ∈ l, nd.element < sz) (hx : x.element = sz) :
    x.element ∉ l.map Node.element := by
  intro hmem
  rcases List.mem_map.mp hmem with ⟨nd0, hnd0, he⟩
  have := hb nd0 hnd0
  rw [he, hx] at this
  exact Nat.lt_irrefl _ this

lemma processRow_inv (sheet : String) (r : Nat) (st : RowState) (rd : Dict String)
    (st' : RowState) (h : processRow sheet r st rd = Except.ok st') (hWF : TreeWF st) :
    Mono st.store st'.store ∧ TreeWF st' ∧
      st'.tree.root = st.tree.root ∧ st'.tree.filepath = st.tree.filepath ∧
      (∃ ex, st'.tree.parameters = st.tree.parameters ++ ex) ∧
      (∃ ex, st'.tree.formula_values = st.tree.formula_values ++ ex) ∧
      st'.stats.deleted = st.stats.deleted ∧
      (∀ fp ∈ st'.acc.seen_params, fp ∈ st.acc.seen_params ∨
        fp = pyStrip ((dget rd "FullPath").getD "")) ∧
      (∀ fp ∈ st'.acc.seen_fvs, fp ∈ st.acc.seen_fvs ∨
        fp = pyStrip ((dget rd "FullPath").getD "")) := by
  unfold processRow at h
  by_cases hcnt : preCheckCount rd > 2
  · rw [if_pos hcnt] at h
    cases h
    exact ⟨Mono.refl _, hWF, rfl, rfl, ⟨[], (List.append_nil _).symm⟩,
      ⟨[], (List.append_nil _).symm⟩, rfl, fun fp hf => Or.inl hf, fun fp hf => Or.inl hf⟩
  · rw [if_neg hcnt] at h
    by_cases hp : (pyStrip ((dget rd "TagType").getD "") == "Parameter") = true
    · rw [if_pos hp] at h
      cases hn : dget rd "Name" with
      | none =>
        rw [hn] at h
        simp only [except_bind_error] at h
        exact Except.noConfusion h
      | some nm =>
        rw [hn] at h
        simp only [except_bind_ok] at h
        cases hf : st.tree.find_parameter (pyStrip ((dget rd "FullPath").getD "")) with
        | some nd =>
          rw [hf] at h
          simp only [except_bind_ok, except_bind_error] at h
          cases hu : ParameterNode.update_from_dict st.store nd rd with
          | error e =>
            rw [hu] at h
            simp only [except_bind_error] at h
            exact Except.noConfusion h
          | ok pr =>
            rcases pr with ⟨s1, ch⟩
            rw [hu] at h
            simp only [except_bind_ok, Except.ok.injEq] at h
            cases h
            have hmem : nd ∈ st.tree.parameters :=
              List.mem_of_find?_eq_some hf
            have hel : nd.element < st.store.size :=
              hWF.1 nd (List.mem_append_left _ hmem)
            have hM : Mono st.store s1 := mono_update_param st.store nd rd s1 ch hu hel
            refine ⟨hM, ⟨?_, hWF.2⟩, rfl, rfl, ⟨[], (List.append_nil _).symm⟩,
              ⟨[], (List.append_nil _).symm⟩, (by split <;> rfl), ?_, fun fp hf' => Or.inl hf'⟩
            · intro nd0 hnd0
              exact Nat.lt_of_lt_of_le (hWF.1 nd0 hnd0) hM.1
            · intro fp hf'
              rcases List.mem_append.mp hf' with h1 | h2
              · exact Or.inl h1
              · exact Or.inr (List.mem_singleton.mp h2)
        | none =>
          rw [hf] at h
          simp only [except_bind_ok, except_bind_error] at h
          cases hc : RecipeTree.create_parameter st.store st.tree rd with
          | error e =>
            rw [hc] at h
            simp only [except_bind_error] at h
            exact Except.noConfusion h
          | ok pr =>
            rcases pr with ⟨s1, t1⟩
            rw [hc] at h
            simp only [except_bind_ok, Except.ok.injEq] at h
            cases h
            obtain ⟨hM, hsz, nd', ht1, hel', hlt'⟩ := create_param_spec st.store st.tree rd s1 t1 hc
            subst ht1
            have hxnot : nd'.element ∉
                (st.tree.parameters ++ st.tree.formula_values).map Node.element :=
              fresh_not_mem_map _ st.store.size nd' hWF.1 hel'
            refine ⟨hM, ⟨?_, ?_⟩, rfl, rfl, ⟨[nd'], rfl⟩,
              ⟨[], (List.append_nil _).symm⟩, rfl, ?_, fun fp hf' => Or.inl hf'⟩
            · intro nd0 hnd0
              rcases List.mem_append.mp hnd0 with h1 | h2
              · rcases List.mem_append.mp h1 with h3 | h4
                · exact Nat.lt_of_lt_of_le (hWF.1 nd0 (List.mem_append_left _ h3)) hM.1
                · rw [List.mem_singleton.mp h4]
                  exact hlt'
              · exact Nat.lt_of_lt_of_le (hWF.1 nd0 (List.mem_append_right _ h2)) hM.1
            · exact nodup_map_mid _ _ nd' hWF.2 hxnot
            · intro fp hf'
              rcases List.mem_append.mp hf' with h1 | h2
              · exact Or.inl h1
              · exact Or.inr (List.mem_singleton.mp h2)
    · rw [if_neg hp] at h
      by_cases hfv : (pyStrip ((dget rd "TagType").getD "") == "FormulaValue") = true
      · rw [if_pos hfv] at h
        cases hn : dget rd "Name" with
        | none =>
          rw [hn] at h
          simp only [except_bind_error] at h
          exact Except.noConfusion h
        | some nm =>
          rw [hn] at h
          simp only [except_bind_ok] at h
          cases hs : stepOfPath (pyStrip ((dget rd "FullPath").getD "")) with
          | error e =>
            rw [hs] at h
            simp only [except_bind_error] at h
            exact Except.noConfusion h
          | ok stp =>
            rw [hs] at h
            simp only [except_bind_ok] at h
            by_cases hdef : (!(strIsEmpty (pyStrip ((dget rd "Defer").getD ""))) &&
                !(st.acc.excel_param_names.contains (pyStrip ((dget rd "Defer").getD "")))) = true
            · rw [if_pos hdef] at h
              cases h
              exact ⟨Mono.refl _, hWF, rfl, rfl, ⟨[], (List.append_nil _).symm⟩,
                ⟨[], (List.append_nil _).symm⟩, rfl, fun fp hf' => Or.inl hf',
                fun fp hf' => Or.inl hf'⟩
            · rw [if_neg hdef] at h
              cases hff : st.tree.find_formulavalue (pyStrip ((dget rd "FullPath").getD "")) with
              | some nd =>
                rw [hff] at h
                simp only [except_bind_ok, except_bind_error] at h
                cases hu : FormulaValueNode.update_from_dict st.store nd rd with
                | error e =>
                  rw [hu] at h
                  simp only [except_bind_error] at h
                  exact Except.noConfusion h
                | ok pr =>
                  rcases pr with ⟨s1, ch⟩
                  rw [hu] at h
                  simp only [except_bind_ok, Except.ok.injEq] at h
                  cases h
                  have hmem : nd ∈ st.tree.formula_values :=
                    List.mem_of_find?_eq_some hff
                  have hel : nd.element < st.store.size :=
                    hWF.1 nd (List.mem_append_right _ hmem)
                  have hM : Mono st.store s1 := mono_update_fv st.store nd rd s1 ch hu hel
                  refine ⟨hM, ⟨?_, hWF.2⟩, rfl, rfl, ⟨[], (List.append_nil _).symm⟩,
                    ⟨[], (List.append_nil _).symm⟩, (by split <;> rfl), fun fp hf' => Or.inl hf', ?_⟩
                  · intro nd0 hnd0
                    exact Nat.lt_of_lt_of_le (hWF.1 nd0 hnd0) hM.1
                  · intro fp hf'
                    rcases List.mem_append.mp hf' with h1 | h2
                    · exact Or.inl h1
                    · exact Or.inr (List.mem_singleton.mp h2)
              | none =>
                rw [hff] at h
                simp only [except_bind_ok, except_bind_error] at h
                cases hc : RecipeTree.create_formulavalue st.store st.tree rd with
                | error e =>
                  rw [hc] at h
                  simp only [except_bind_error] at h
                  exact Except.noConfusion h
                | ok pr =>
                  rcases pr with ⟨s1, t1⟩
                  rw [hc] at h
                  simp only [except_bind_ok, Except.ok.injEq] at h
                  cases h
                  obtain ⟨hM, hsz, nd', ht1, hel', hlt'⟩ :=
                    create_fv_spec st.store st.tree rd s1 t1 hc
                  subst ht1
                  have hxnot : nd'.element ∉
                      (st.tree.parameters ++ st.tree.formula_values).map Node.element :=
                    fresh_not_mem_map _ st.store.size nd' hWF.1 hel'
                  refine ⟨hM, ⟨?_, ?_⟩, rfl, rfl, ⟨[], (List.append_nil _).symm⟩,
                    ⟨[nd'], rfl⟩, rfl, fun fp hf' => Or.inl hf', ?_⟩
                  · intro nd0 hnd0
                    rcases List.mem_append.mp hnd0 with h1 | h2
                    · exact Nat.lt_of_lt_of_le (hWF.1 nd0 (List.mem_append_left _ h1)) hM.1
                    · rcases List.mem_append.mp h2 with h3 | h4
                      · exact Nat.lt_of_lt_of_le (hWF.1 nd0 (List.mem_append_right _ h3)) hM.1
                      · rw [List.mem_singleton.mp h4]
                        exact hlt'
                  · exact nodup_map_end _ _ nd' hWF.2 hxnot
                  · intro fp hf'
                    rcases List.mem_append.mp hf' with h1 | h2
                    · exact Or.inl h1
                    · exact Or.inr (List.mem_singleton.mp h2)
      · rw [if_neg hfv] at h
        cases h
        exact ⟨Mono.refl _, hWF, rfl, rfl, ⟨[], (List.append_nil _).symm⟩,
          ⟨[], (List.append_nil _).symm⟩, rfl, fun fp hf' => Or.inl hf',
          fun fp hf' => Or.inl hf'⟩

/-- The trimmed FullPath cells of a sheet's data rows (the submitted row set
keyed the way the importer keys it). -/
def rowPathsOf (header : List String) (rows : List (List String)) : List String :=
  rows.map (fun cells => pyStrip ((dget (dictOf (header.zip cells)) "FullPath").getD ""))

lemma processRowsFrom_inv (sheet : String) (header : List String) :
    ∀ (rows : List (List String)) (r : Nat) (st st' : RowState),
      processRowsFrom sheet header r st rows = Except.ok st' → TreeWF st →
      Mono st.store st'.store ∧ TreeWF st' ∧
        st'.tree.root = st.tree.root ∧ st'.tree.filepath = st.tree.filepath ∧
        (∃ ex, st'.tree.parameters = st.tree.parameters ++ ex) ∧
        (∃ ex, st'.tree.formula_values = st.tree.formula_values ++ ex) ∧
        st'.stats.deleted = st.stats.deleted ∧
        (∀ fp ∈ st'.acc.seen_params,
          fp ∈ st.acc.seen_params ∨ fp ∈ rowPathsOf header rows) ∧
        (∀ fp ∈ st'.acc.seen_fvs,
          fp ∈ st.acc.seen_fvs ∨ fp ∈ rowPathsOf header rows) := by
  intro rows
  induction rows with
  | nil =>
    intro r st st' h hWF
    simp only [processRowsFrom] at h
    cases h
    exact ⟨Mono.refl _, hWF, rfl, rfl, ⟨[], (List.append_nil _).symm⟩,
      ⟨[], (List.append_nil _).symm⟩, rfl, fun fp hf => Or.inl hf, fun fp hf => Or.inl hf⟩
  | cons row rest ih =>
    intro r st st' h hWF
    simp only [processRowsFrom] at h
    cases h1 : processRow sheet r st (dictOf (header.zip row)) with
    | error e =>
      rw [h1] at h
      simp only [except_bind_error] at h
      exact Except.noConfusion h
    | ok st1 =>
      rw [h1] at h
      simp only [except_bind_ok] at h
      obtain ⟨m1, w1, rt1, fp1, ⟨exP1, hP1⟩, ⟨exF1, hF1⟩, d1, sp1, sf1⟩ :=
        processRow_inv sheet r st (dictOf (header.zip row)) st1 h1 hWF
      obtain ⟨m2, w2, rt2, fp2, ⟨exP2, hP2⟩, ⟨exF2, hF2⟩, d2, sp2, sf2⟩ :=
        ih (r + 1) st1 st' h w1
      refine ⟨Mono.trans m1 m2, w2, rt2.trans rt1, fp2.trans fp1,
        ⟨exP1 ++ exP2, by rw [hP2, hP1, List.append_assoc]⟩,
        ⟨exF1 ++ exF2, by rw [hF2, hF1, List.append_assoc]⟩,
        d2.trans d1, ?_, ?_⟩
      · intro fp hf
        rcases sp2 fp hf with h2 | h3
        · rcases sp1 fp h2 with h4 | h5
          · exact Or.inl h4
          · refine Or.inr ?_
            simp only [rowPathsOf, List.map_cons, List.mem_cons]
            exact Or.inl h5
        · refine Or.inr ?_
          simp only [rowPathsOf, List.map_cons, List.mem_cons]
          simp only [rowPathsOf] at h3
          exact Or.inr h3
      · intro fp hf
        rcases sf2 fp hf with h2 | h3
        · rcases sf1 fp h2 with h4 | h5
          · exact Or.inl h4
          · refine Or.inr ?_
            simp only [rowPathsOf, List.map_cons, List.mem_cons]
            exact Or.inl h5
        · refine Or.inr ?_
          simp only [rowPathsOf, List.map_cons, List.mem_cons]
          simp only [rowPathsOf] at h3
          exact Or.inr h3

lemma getparent_some (s : Store) (c p : EId) (h : getparent s c = some p) :
    p < s.size ∧ c ∈ (s.get p).children := by
  unfold getparent at h
  have hmem := List.mem_of_find?_eq_some h
  have hpred := List.find?_some h
  exact ⟨List.mem_range.mp hmem, by simpa using hpred⟩

lemma deleteParams_frame :
    ∀ (pre : List Node) (st st' : RowState),
      deleteParams pre st = Except.ok st' →
      st'.acc = st.acc ∧ st'.errors = st.errors ∧
      st'.tree.formula_values = st.tree.formula_values ∧
      st'.tree.root = st.tree.root ∧ st'.tree.filepath = st.tree.filepath ∧
      st'.store.size = st.store.size ∧
      (∀ c, occCount st'.store c ≤ occCount st.store c) ∧
      st'.stats.deleted = st.stats.deleted +
        pre.countP (fun nd => !(st.acc.seen_params.contains nd.fullpath)) := by
  intro pre
  induction pre with
  | nil =>
    intro st st' h
    unfold deleteParams at h
    simp only [List.foldlM_nil] at h
    cases h
    exact ⟨rfl, rfl, rfl, rfl, rfl, rfl, fun c => Nat.le_refl _, by simp⟩
  | cons nd rest ih =>
    intro st st' h
    unfold deleteParams at h
    simp only [List.foldlM_cons] at h
    by_cases hseen : st.acc.seen_params.contains nd.fullpath = true
    · rw [if_pos hseen] at h
      simp only [except_bind_ok] at h
      have h' : deleteParams rest st = Except.ok st' := h
      obtain ⟨a1, e1, f1, r1, p1, s1, o1, d1⟩ := ih st st' h'
      refine ⟨a1, e1, f1, r1, p1, s1, o1, ?_⟩
      rw [d1, List.countP_cons, hseen]
      simp
    · rw [if_neg hseen] at h
      cases hgp : getparent st.store nd.element with
      | none =>
        rw [hgp] at h
        simp only [except_bind_error] at h
        exact Except.noConfusion h
      | some p =>
        rw [hgp] at h
        simp only [except_bind_ok] at h
        have h' : deleteParams rest
            { st with
              store := st.store.removeChild p nd.element
              tree := { st.tree with parameters := st.tree.parameters.erase nd }
              stats := { st.stats with deleted := st.stats.deleted + 1 } } =
            Except.ok st' := h
        obtain ⟨a1, e1, f1, r1, p1, s1, o1, d1⟩ := ih _ st' h'
        refine ⟨a1, e1, f1, r1, p1, ?_, ?_, ?_⟩
        · rw [s1]
          exact size_removeChild st.store p nd.element
        · intro c
          exact Nat.le_trans (o1 c) (occ_removeChild_le st.store p nd.element c)
        · have hfalse : st.acc.seen_params.contains nd.fullpath = false := by
            cases hx : st.acc.seen_params.contains nd.fullpath
            · rfl
            · exact absurd hx hseen
          have d1' : st'.stats.deleted = st.stats.deleted + 1 +
              rest.countP (fun nd => !(st.acc.seen_params.contains nd.fullpath)) := d1
          rw [d1', List.countP_cons, hfalse]
          simp only [Bool.not_false, if_pos]
          omega

lemma deleteParams_filter :
    ∀ (pre keep : List Node) (st st' : RowState),
      deleteParams pre st = Except.ok st' →
      st.tree.parameters = keep ++ pre → (keep ++ pre).Nodup →
      st'.tree.parameters =
        keep ++ pre.filter (fun nd => st.acc.seen_params.contains nd.fullpath) := by
  intro pre
  induction pre with
  | nil =>
    intro keep st st' h hT hN
    unfold deleteParams at h
    simp only [List.foldlM_nil] at h
    cases h
    simpa using hT
  | cons nd rest ih =>
    intro keep st st' h hT hN
    unfold deleteParams at h
    simp only [List.foldlM_cons] at h
    by_cases hseen : st.acc.seen_params.contains nd.fullpath = true
    · rw [if_pos hseen] at h
      simp only [except_bind_ok] at h
      have h' : deleteParams rest st = Except.ok st' := h
      have hT' : st.tree.parameters = (keep ++ [nd]) ++ rest := by
        rw [hT, List.append_assoc, List.singleton_append]
      have hN' : ((keep ++ [nd]) ++ rest).Nodup := by
        rw [List.append_assoc, List.singleton_append]
        exact hN
      have := ih (keep ++ [nd]) st st' h' hT' hN'
      rw [this, List.filter_cons, if_pos hseen, List.append_assoc, List.singleton_append]
    · rw [if_neg hseen] at h
      cases hgp : getparent st.store nd.element with
      | none =>
        rw [hgp] at h
        simp only [except_bind_error] at h
        exact Except.noConfusion h
      | some p =>
        rw [hgp] at h
        simp only [except_bind_ok] at h
        have h' : deleteParams rest
            { st with
              store := st.store.removeChild p nd.element
              tree := { st.tree with parameters := st.tree.parameters.erase nd }
              stats := { st.stats with deleted := st.stats.deleted + 1 } } =
            Except.ok st' := h
        have hndk : nd ∉ keep := by
          intro hmem
          have hdisj := (List.nodup_append.mp hN).2.2
          exact hdisj hmem (List.mem_cons_self nd rest)
        have hTerase : st.tree.parameters.erase nd = keep ++ rest := by
          rw [hT, List.erase_append_right _ hndk, List.erase_cons_head]
        have hN' : (keep ++ rest).Nodup := by
          refine List.Nodup.sublist ?_ hN
          exact List.Sublist.append (List.Sublist.refl keep) (List.sublist_cons_self nd rest)
        have := ih keep _ st' h' hTerase hN'
        rw [this, List.filter_cons]
        have hfalse : st.acc.seen_params.contains nd.fullpath = false := by
          cases hx : st.acc.seen_params.contains nd.fullpath
          · rfl
          · exact absurd hx hseen
        rw [hfalse]
        simp

lemma deleteParams_occ_zero :
    ∀ (pre : List Node) (st st' : RowState),
      deleteParams pre st = Except.ok st' →
      ∀ nd ∈ pre, st.acc.seen_params.contains nd.fullpath = false →
        occCount st.store nd.element ≤ 1 → occCount st'.store nd.element = 0 := by
  intro pre
  induction pre with
  | nil =>
    intro st st' h nd hmem
    exact absurd hmem (List.not_mem_nil nd)
  | cons nd0 rest ih =>
    intro st st' h nd hmem hunseen hocc
    unfold deleteParams at h
    simp only [List.foldlM_cons] at h
    by_cases hseen : st.acc.seen_params.contains nd0.fullpath = true
    · rw [if_pos hseen] at h
      simp only [except_bind_ok] at h
      have h' : deleteParams rest st = Except.ok st' := h
      rcases List.mem_cons.mp hmem with rfl | hmem'
      · rw [hunseen] at hseen
        exact Bool.noConfusion hseen
      · exact ih st st' h' nd hmem' hunseen hocc
    · rw [if_neg hseen] at h
      cases hgp : getparent st.store nd0.element with
      | none =>
        rw [hgp] at h
        simp only [except_bind_error] at h
        exact Except.noConfusion h
      | some p =>
        rw [hgp] at h
        simp only [except_bind_ok] at h
        have h' : deleteParams rest
            { st with
              store := st.store.removeChild p nd0.element
              tree := { st.tree with parameters := st.tree.parameters.erase nd0 }
              stats := { st.stats with deleted := st.stats.deleted + 1 } } =
            Except.ok st' := h
        obtain ⟨hp, hc⟩ := getparent_some st.store nd0.element p hgp
        rcases List.mem_cons.mp hmem with rfl | hmem'
        · -- this very node is removed here; its count drops to zero and stays there
          have hx := occ_setChildren_exact st.store p
            ((st.store.get p).children.erase nd.element) nd.element hp
          have herase : ((st.store.get p).children.erase nd.element).count nd.element =
              (st.store.get p).children.count nd.element - 1 :=
            List.count_erase_self nd.element (st.store.get p).children
          have hcnt1 : 1 ≤ (st.store.get p).children.count nd.element :=
            List.one_le_count_iff.mpr hc
          have hzero : occCount (st.store.removeChild p nd.element) nd.element = 0 := by
            have : occCount (st.store.setChildren p
                ((st.store.get p).children.erase nd.element)) nd.element = 0 := by
              omega
            exact this
          obtain ⟨_, _, _, _, _, _, o1, _⟩ := deleteParams_frame rest _ st' h'
          have := o1 nd.element
          rw [hzero] at this
          exact Nat.le_zero.mp this
        · refine ih _ st' h' nd hmem' hunseen ?_
          exact Nat.le_trans (occ_removeChild_le st.store p nd0.element nd.element) hocc

lemma deleteFVs_frame :
    ∀ (pre : List Node) (st st' : RowState),
      deleteFVs pre st = Except.ok st' →
      st'.acc = st.acc ∧ st'.errors = st.errors ∧
      st'.tree.parameters = st.tree.parameters ∧
      st'.tree.root = st.tree.root ∧ st'.tree.filepath = st.tree.filepath ∧
      st'.store.size = st.store.size ∧
      (∀ c, occCount st'.store c ≤ occCount st.store c) ∧
      st'.stats.deleted = st.stats.deleted +
        pre.countP (fun nd => !(st.acc.seen_fvs.contains nd.fullpath)) := by
  intro pre
  induction pre with
  | nil =>
    intro st st' h
    unfold deleteFVs at h
    simp only [List.foldlM_nil] at h
    cases h
    exact ⟨rfl, rfl, rfl, rfl, rfl, rfl, fun c => Nat.le_refl _, by simp⟩
  | cons nd rest ih =>
    intro st st' h
    unfold deleteFVs at h
    simp only [List.foldlM_cons] at h
    by_cases hseen : st.acc.seen_fvs.contains nd.fullpath = true
    · rw [if_pos hseen] at h
      simp only [except_bind_ok] at h
      have h' : deleteFVs rest st = Except.ok st' := h
      obtain ⟨a1, e1, f1, r1, p1, s1, o1, d1⟩ := ih st st' h'
      refine ⟨a1, e1, f1, r1, p1, s1, o1, ?_⟩
      rw [d1, List.countP_cons, hseen]
      simp
    · rw [if_neg hseen] at h
      cases hgp : getparent st.store nd.element with
      | none =>
        rw [hgp] at h
        simp only [except_bind_error] at h
        exact Except.noConfusion h
      | some p =>
        rw [hgp] at h
        cases hsp : stepOfPath nd.fullpath with
        | error e =>
          rw [hsp] at h
          simp only [except_bind_error] at h
          exact Except.noConfusion h
        | ok stp =>
          rw [hsp] at h
          simp only [except_bind_ok] at h
          have h' : deleteFVs rest
              { st with
                store := st.store.removeChild p nd.element
                tree := { st.tree with formula_values := st.tree.formula_values.erase nd }
                stats := { st.stats with deleted := st.stats.deleted + 1 } } =
              Except.ok st' := h
          obtain ⟨a1, e1, f1, r1, p1, s1, o1, d1⟩ := ih _ st' h'
          refine ⟨a1, e1, f1, r1, p1, ?_, ?_, ?_⟩
          · rw [s1]
            exact size_removeChild st.store p nd.element
          · intro c
            exact Nat.le_trans (o1 c) (occ_removeChild_le st.store p nd.element c)
          · have hfalse : st.acc.seen_fvs.contains nd.fullpath = false := by
              cases hx : st.acc.seen_fvs.contains nd.fullpath
              · rfl
              · exact absurd hx hseen
            have d1' : st'.stats.deleted = st.stats.deleted + 1 +
                rest.countP (fun nd => !(st.acc.seen_fvs.contains nd.fullpath)) := d1
            rw [d1', List.countP_cons, hfalse]
            simp only [Bool.not_false, if_pos]
            omega

lemma deleteFVs_filter :
    ∀ (pre keep : List Node) (st st' : RowState),
      deleteFVs pre st = Except.ok st' →
      st.tree.formula_values = keep ++ pre → (keep ++ pre).Nodup →
      st'.tree.formula_values =
        keep ++ pre.filter (fun nd => st.acc.seen_fvs.contains nd.fullpath) := by
  intro pre
  induction pre with
  | nil =>
    intro keep st st' h hT hN
    unfold deleteFVs at h
    simp only [List.foldlM_nil] at h
    cases h
    simpa using hT
  | cons nd rest ih =>
    intro keep st st' h hT hN
    unfold deleteFVs at h
    simp only [List.foldlM_cons] at h
    by_cases hseen : st.acc.seen_fvs.contains nd.fullpath = true
    · rw [if_pos hseen] at h
      simp only [except_bind_ok] at h
      have h' : deleteFVs rest st = Except.ok st' := h
      have hT' : st.tree.formula_values = (keep ++ [nd]) ++ rest := by
        rw [hT, List.append_assoc, List.singleton_append]
      have hN' : ((keep ++ [nd]) ++ rest).Nodup := by
        rw [List.append_assoc, List.singleton_append]
        exact hN
      have := ih (keep ++ [nd]) st st' h' hT' hN'
      rw [this, List.filter_cons, if_pos hseen, List.append_assoc, List.singleton_append]
    · rw [if_neg hseen] at h
      cases hgp : getparent st.store nd.element with
      | none =>
        rw [hgp] at h
        simp only [except_bind_error] at h
        exact Except.noConfusion h
      | some p =>
        rw [hgp] at h
        cases hsp : stepOfPath nd.fullpath with
        | error e =>
          rw [hsp] at h
          simp only [except_bind_error] at h
          exact Except.noConfusion h
        | ok stp =>
          rw [hsp] at h
          simp only [except_bind_ok] at h
          have h' : deleteFVs rest
              { st with
                store := st.store.removeChild p nd.element
                tree := { st.tree with formula_values := st.tree.formula_values.erase nd }
                stats := { st.stats with deleted := st.stats.deleted + 1 } } =
              Except.ok st' := h
          have hndk : nd ∉ keep := by
            intro hmem
            have hdisj := (List.nodup_append.mp hN).2.2
            exact hdisj hmem (List.mem_cons_self nd rest)
          have hTerase : st.tree.formula_values.erase nd = keep ++ rest := by
            rw [hT, List.erase_append_right _ hndk, List.erase_cons_head]
          have hN' : (keep ++ rest).Nodup := by
            refine List.Nodup.sublist ?_ hN
            exact List.Sublist.append (List.Sublist.refl keep) (List.sublist_cons_self nd rest)
          have := ih keep _ st' h' hTerase hN'
          rw [this, List.filter_cons]
          have hfalse : st.acc.seen_fvs.contains nd.fullpath = false := by
            cases hx : st.acc.seen_fvs.contains nd.fullpath
            · rfl
            · exact absurd hx hseen
          rw [hfalse]
          simp

lemma deleteFVs_occ_zero :
    ∀ (pre : List Node) (st st' : RowState),
      deleteFVs pre st = Except.ok st' →
      ∀ nd ∈ pre, st.acc.seen_fvs.contains nd.fullpath = false →
        occCount st.store nd.element ≤ 1 → occCount st'.store nd.element = 0 := by
  intro pre
  induction pre with
  | nil =>
    intro st st' h nd hmem
    exact absurd hmem (List.not_mem_nil nd)
  | cons nd0 rest ih =>
    intro st st' h nd hmem hunseen hocc
    unfold deleteFVs at h
    simp only [List.foldlM_cons] at h
    by_cases hseen : st.acc.seen_fvs.contains nd0.fullpath = true
    · rw [if_pos hseen] at h
      simp only [except_bind_ok] at h
      have h' : deleteFVs rest st = Except.ok st' := h
      rcases List.mem_cons.mp hmem with rfl | hmem'
      · rw [hunseen] at hseen
        exact Bool.noConfusion hseen
      · exact ih st st' h' nd hmem' hunseen hocc
    · rw [if_neg hseen] at h
      cases hgp : getparent st.store nd0.element with
      | none =>
        rw [hgp] at h
        simp only [except_bind_error] at h
        exact Except.noConfusion h
      | some p =>
        rw [hgp] at h
        cases hsp : stepOfPath nd0.fullpath with
        | error e =>
          rw [hsp] at h
          simp only [except_bind_error] at h
          exact Except.noConfusion h
        | ok stp =>
          rw [hsp] at h
          simp only [except_bind_ok] at h
          have h' : deleteFVs rest
              { st with
                store := st.store.removeChild p nd0.element
                tree := { st.tree with formula_values := st.tree.formula_values.erase nd0 }
                stats := { st.stats with deleted := st.stats.deleted + 1 } } =
              Except.ok st' := h
          obtain ⟨hp, hc⟩ := getparent_some st.store nd0.element p hgp
          rcases List.mem_cons.mp hmem with rfl | hmem'
          · have hx := occ_setChildren_exact st.store p
              ((st.store.get p).children.erase nd.element) nd.element hp
            have herase : ((st.store.get p).children.erase nd.element).count nd.element =
                (st.store.get p).children.count nd.element - 1 :=
              List.count_erase_self nd.element (st.store.get p).children
            have hcnt1 : 1 ≤ (st.store.get p).children.count nd.element :=
              List.one_le_count_iff.mpr hc
            have hzero : occCount (st.store.removeChild p nd.element) nd.element = 0 := by
              have hz : occCount (st.store.setChildren p
                  ((st.store.get p).children.erase nd.element)) nd.element = 0 := by
                omega
              exact hz
            obtain ⟨_, _, _, _, _, _, o1, _⟩ := deleteFVs_frame rest _ st' h'
            have hle := o1 nd.element
            rw [hzero] at hle
            exact Nat.le_zero.mp hle
          · refine ih _ st' h' nd hmem' hunseen ?_
            exact Nat.le_trans (occ_removeChild_le st.store p nd0.element nd.element) hocc

lemma contains_false_of_not_mem {l : List String} {a : String} (h : a ∉ l) :
    l.contains a = false := by
  cases hx : l.contains a
  · rfl
  · exact absurd (by simpa using hx) h

lemma mem_of_contains_true {l : List String} {a : String} (h : l.contains a = true) :
    a ∈ l := by simpa using h

lemma contains_true_of_mem {l : List String} {a : String} (h : a ∈ l) :
    l.contains a = true := by simpa using h

/-- C8: after a sheet is reconciled, every entity whose path existed in the
document before reconciliation but is absent from the sheet's submitted row
set (the trimmed FullPath cells) is removed from its owning collection and
detached from the tree (its element no longer occurs in any child list), and
the deleted counter grows by at least one per such entity. -/
theorem c8_deletion_completeness
    (name : String) (header : List String) (dataRows : List (List String))
    (s : Store) (t : RecipeTree) (errors : List String) (stats : Stats)
    (s' : Store) (t' : RecipeTree) (errors' : List String) (stats' : Stats)
    (hok : processSheet name (header :: dataRows) s t errors stats =
      Except.ok (s', t', errors', stats'))
    (hWF : ∀ nd ∈ t.parameters ++ t.formula_values,
      nd.element < s.size ∧ occCount s nd.element ≤ 1)
    (hNd : ((t.parameters ++ t.formula_values).map Node.element).Nodup) :
    (∀ nd ∈ t.parameters, nd.fullpath ∉ rowPathsOf header dataRows →
      nd ∉ t'.parameters ∧ occCount s' nd.element = 0) ∧
    (∀ nd ∈ t.formula_values, nd.fullpath ∉ rowPathsOf header dataRows →
      nd ∉ t'.formula_values ∧ occCount s' nd.element = 0) ∧
    stats.deleted
      + t.parameters.countP (fun nd => !((rowPathsOf header dataRows).contains nd.fullpath))
      + t.formula_values.countP (fun nd => !((rowPathsOf header dataRows).contains nd.fullpath))
      ≤ stats'.deleted := by
  unfold processSheet at hok
  simp only [] at hok
  cases h1 : processRowsFrom name header 2
      { store := s, tree := t,
        acc := { excel_param_names := [], seen_params := [], seen_fvs := [] },
        errors := errors, stats := stats } dataRows with
  | error e =>
    rw [h1] at hok
    simp only [except_bind_error] at hok
    exact Except.noConfusion hok
  | ok st1 =>
    rw [h1] at hok
    simp only [except_bind_ok] at hok
    cases h2 : deleteParams st1.tree.parameters st1 with
    | error e =>
      rw [h2] at hok
      simp only [except_bind_error] at hok
      exact Except.noConfusion hok
    | ok st2 =>
      rw [h2] at hok
      simp only [except_bind_ok] at hok
      cases h3 : deleteFVs st2.tree.formula_values st2 with
      | error e =>
        rw [h3] at hok
        simp only [except_bind_error] at hok
        exact Except.noConfusion hok
      | ok st3 =>
        rw [h3] at hok
        simp only [except_bind_ok, Except.ok.injEq, Prod.mk.injEq] at hok
        obtain ⟨hs', ht', herr', hstats'⟩ := hok
        obtain ⟨m1, w1, rt1, fp1, ⟨exP, hP⟩, ⟨exF, hF⟩, d1, sp1, sf1⟩ :=
          processRowsFrom_inv name header dataRows 2 _ st1 h1
            ⟨fun nd hnd => (hWF nd hnd).1, hNd⟩
        have hP' : st1.tree.parameters = t.parameters ++ exP := hP
        have hF' : st1.tree.formula_values = t.formula_values ++ exF := hF
        obtain ⟨a2, e2, f2, r2, p2, sz2, o2, d2⟩ := deleteParams_frame _ st1 st2 h2
        obtain ⟨a3, e3, f3, r3, p3, sz3, o3, d3⟩ := deleteFVs_frame _ st2 st3 h3
        have hNd1 : (st1.tree.parameters ++ st1.tree.formula_values).Nodup :=
          List.Nodup.of_map Node.element w1.2
        have hNdP1 : st1.tree.parameters.Nodup :=
          ((List.sublist_append_left _ _).nodup) hNd1
        have hNdF1 : st1.tree.formula_values.Nodup :=
          ((List.sublist_append_right _ _).nodup) hNd1
        have hfilterP := deleteParams_filter st1.tree.parameters [] st1 st2 h2 rfl
          (by simpa using hNdP1)
        have hfilterF := deleteFVs_filter st2.tree.formula_values [] st2 st3 h3 rfl
          (by simpa using (f2 ▸ hNdF1))
        simp only [List.nil_append] at hfilterP hfilterF
        -- unseen-ness of row-set-absent paths
        have hunseenP : ∀ nd : Node, nd.fullpath ∉ rowPathsOf header dataRows →
            st1.acc.seen_params.contains nd.fullpath = false := by
          intro nd hnotin
          cases hx : st1.acc.seen_params.contains nd.fullpath
          · rfl
          · rcases sp1 _ (mem_of_contains_true hx) with hmem0 | hrp
            · exact absurd hmem0 (List.not_mem_nil _)
            · exact absurd hrp hnotin
        have hunseenF : ∀ nd : Node, nd.fullpath ∉ rowPathsOf header dataRows →
            st1.acc.seen_fvs.contains nd.fullpath = false := by
          intro nd hnotin
          cases hx : st1.acc.seen_fvs.contains nd.fullpath
          · rfl
          · rcases sf1 _ (mem_of_contains_true hx) with hmem0 | hrp
            · exact absurd hmem0 (List.not_mem_nil _)
            · exact absurd hrp hnotin
        refine ⟨?_, ?_, ?_⟩
        · -- parameters
          intro nd hnd hnotin
          have hmem1 : nd ∈ st1.tree.parameters := by
            rw [hP]
            exact List.mem_append_left _ hnd
          have hun := hunseenP nd hnotin
          constructor
          · rw [← ht', f3, hfilterP]
            intro hmemf
            have := List.of_mem_filter hmemf
            rw [hun] at this
            exact Bool.noConfusion this
          · have hb := hWF nd (List.mem_append_left _ hnd)
            have hocc1 : occCount st1.store nd.element ≤ 1 :=
              Nat.le_trans (m1.2 nd.element hb.1) hb.2
            have hz2 : occCount st2.store nd.element = 0 :=
              deleteParams_occ_zero _ st1 st2 h2 nd hmem1 hun hocc1
            have hz3 := o3 nd.element
            rw [hz2] at hz3
            rw [← hs']
            exact Nat.le_zero.mp hz3
        · -- formula values
          intro nd hnd hnotin
          have hmem1 : nd ∈ st1.tree.formula_values := by
            rw [hF]
            exact List.mem_append_left _ hnd
          have hmem2 : nd ∈ st2.tree.formula_values := by
            rw [f2]
            exact hmem1
          have hun : st2.acc.seen_fvs.contains nd.fullpath = false := by
            rw [a2]
            exact hunseenF nd hnotin
          constructor
          · rw [← ht', hfilterF]
            intro hmemf
            have := List.of_mem_filter hmemf
            rw [hun] at this
            exact Bool.noConfusion this
          · have hb := hWF nd (List.mem_append_right _ hnd)
            have hocc1 : occCount st1.store nd.element ≤ 1 :=
              Nat.le_trans (m1.2 nd.element hb.1) hb.2
            have hocc2 : occCount st2.store nd.element ≤ 1 :=
              Nat.le_trans (o2 nd.element) hocc1
            have hz3 : occCount st3.store nd.element = 0 :=
              deleteFVs_occ_zero _ st2 st3 h3 nd hmem2 hun hocc2
            rw [← hs']
            exact hz3
        · -- the deleted counter
          have hcntP : t.parameters.countP
              (fun nd => !((rowPathsOf header dataRows).contains nd.fullpath)) ≤
              st1.tree.parameters.countP
                (fun nd => !(st1.acc.seen_params.contains nd.fullpath)) := by
            rw [hP', List.countP_append]
            have hmono : t.parameters.countP
                (fun nd => !((rowPathsOf header dataRows).contains nd.fullpath)) ≤
                t.parameters.countP
                  (fun nd => !(st1.acc.seen_params.contains nd.fullpath)) := by
              refine List.countP_mono_left ?_
              intro nd _ hpred
              have hnotin : nd.fullpath ∉ rowPathsOf header dataRows := by
                intro hmem
                rw [contains_true_of_mem hmem] at hpred
                exact Bool.noConfusion hpred
              rw [hunseenP nd hnotin]
              rfl
            omega
          have hcntF : t.formula_values.countP
              (fun nd => !((rowPathsOf header dataRows).contains nd.fullpath)) ≤
              st2.tree.formula_values.countP
                (fun nd => !(st2.acc.seen_fvs.contains nd.fullpath)) := by
            rw [f2, hF', List.countP_append]
            have hmono : t.formula_values.countP
                (fun nd => !((rowPathsOf header dataRows).contains nd.fullpath)) ≤
                t.formula_values.countP
                  (fun nd => !(st2.acc.seen_fvs.contains nd.fullpath)) := by
              refine List.countP_mono_left ?_
              intro nd _ hpred
              have hnotin : nd.fullpath ∉ rowPathsOf header dataRows := by
                intro hmem
                rw [contains_true_of_mem hmem] at hpred
                exact Bool.noConfusion hpred
              rw [a2, hunseenF nd hnotin]
              rfl
            omega
          have hd1 : st1.stats.deleted = stats.deleted := d1
          rw [← hstats', d3, d2, hd1]
          omega

/-- The store after reconciling `dS`/`dT` against a sheet with no data rows:
the Parameter element 2 and the FormulaValue element 8 are detached. -/
def c8S' : Store := { elems :=
  [ { tag := "RecipeElement", text := none, attrs := [], children := [1, 5] },
    { tag := "RecipeElementID", text := some "TEST", attrs := [], children := [] },
    { tag := "Parameter", text := none, attrs := [], children := [3, 4] },
    { tag := "Name", text := some "Param1", attrs := [], children := [] },
    { tag := "Real", text := some "1", attrs := [], children := [] },
    { tag := "Steps", text := none, attrs := [], children := [6] },
    { tag := "Step", text := none, attrs := [], children := [7] },
    { tag := "Name", text := some "Step1", attrs := [], children := [] },
    { tag := "FormulaValue", text := none, attrs := [], children := [9, 10, 11] },
    { tag := "Name", text := some "FV1", attrs := [], children := [] },
    { tag := "Value", text := some "2", attrs := [], children := [] },
    { tag := "Integer", text := some "3", attrs := [], children := [] } ] }

/-- The `dT` tree after the same run: both collections emptied. -/
def c8T' : RecipeTree :=
  { filepath := "TEST.pxml", root := 0, parameters := [], formula_values := [] }

theorem c8_deletion_completeness_witness :
    (∀ nd ∈ dT.parameters, nd.fullpath ∉ rowPathsOf EXCEL_COLUMNS [] →
      nd ∉ c8T'.parameters ∧ occCount c8S' nd.element = 0) ∧
    (∀ nd ∈ dT.formula_values, nd.fullpath ∉ rowPathsOf EXCEL_COLUMNS [] →
      nd ∉ c8T'.formula_values ∧ occCount c8S' nd.element = 0) ∧
    (Stats.deleted { created := 0, updated := 0, deleted := 0 })
      + dT.parameters.countP
          (fun nd => !((rowPathsOf EXCEL_COLUMNS []).contains nd.fullpath))
      + dT.formula_values.countP
          (fun nd => !((rowPathsOf EXCEL_COLUMNS []).contains nd.fullpath))
      ≤ Stats.deleted { created := 0, updated := 0, deleted := 2 } :=
  c8_deletion_completeness "TEST.pxml" EXCEL_COLUMNS [] dS dT []
    { created := 0, updated := 0, deleted := 0 } c8S' c8T' []
    { created := 0, updated := 0, deleted := 2 }
    (by decide) (by decide) (by decide)

/-! ## Dictionary lemmas for the round-trip development -/

lemma dmem_eq_isSome {α : Type} (m : Dict α) (k : String) :
    dmem m k = (dget m k).isSome := by
  unfold dmem dget
  cases m.find? (fun p => p.1 == k) <;> rfl

lemma dget_none_of_dmem_false {α : Type} {m : Dict α} {k : String}
    (h : dmem m k = false) : dget m k = none := by
  rw [dmem_eq_isSome] at h
  cases hx : dget m k
  · rfl
  · rw [hx] at h
    exact Bool.noConfusion h

lemma dmem_true_of_dget_some {α : Type} {m : Dict α} {k : String} {v : α}
    (h : dget m k = some v) : dmem m k = true := by
  rw [dmem_eq_isSome, h]
  rfl

lemma dget_cons {α : Type} (q : String × α) (l : Dict α) (k' : String) :
    dget (q :: l) k' = if (q.1 == k') = true then some q.2 else dget l k' := by
  cases h : (q.1 == k') <;> simp [dget, List.find?_cons, h]

lemma dmem_cons {α : Type} (q : String × α) (l : Dict α) (k' : String) :
    dmem (q :: l) k' = ((q.1 == k') || dmem l k') := by
  cases h : (q.1 == k') <;> simp [dmem, List.find?_cons, h]

lemma dget_map_overwrite {α : Type} (k : String) (v : α) :
    ∀ (m : Dict α) (k' : String),
      dget (m.map (fun p => if p.1 == k then (p.1, v) else p)) k' =
        if k' = k then (if dmem m k then some v else none) else dget m k' := by
  intro m
  induction m with
  | nil =>
    intro k'
    simp [dget, dmem]
  | cons p rest ih =>
    intro k'
    have hfst : ((if (p.1 == k) = true then (p.1, v) else p) : String × α).1 = p.1 := by
      split <;> rfl
    have hsnd : ((if (p.1 == k) = true then (p.1, v) else p) : String × α).2 =
        if (p.1 == k) = true then v else p.2 := by
      split <;> rfl
    simp only [List.map_cons]
    rw [dget_cons, hfst, hsnd, dmem_cons, dget_cons, ih]
    by_cases hpk' : (p.1 == k') = true <;> by_cases hpk : (p.1 == k) = true <;>
      by_cases hk'k : k' = k <;>
      simp_all [beq_iff_eq]

lemma dget_append {α : Type} (m1 m2 : Dict α) (k : String) :
    dget (m1 ++ m2) k = ((dget m1 k).or (dget m2 k)) := by
  unfold dget
  rw [List.find?_append]
  cases m1.find? (fun p => p.1 == k) <;> simp

lemma dget_dinsert {α : Type} (m : Dict α) (k : String) (v : α) (k' : String) :
    dget (dinsert m k v) k' = if k' = k then some v else dget m k' := by
  unfold dinsert
  by_cases h : dmem m k = true
  · rw [if_pos h, dget_map_overwrite, h]
    by_cases he : k' = k <;> simp [he]
  · have hf : dmem m k = false := by
      cases hx : dmem m k
      · rfl
      · exact absurd hx h
    rw [if_neg h, dget_append]
    by_cases he : k' = k
    · rw [if_pos he, he, dget_none_of_dmem_false hf]
      simp [dget, List.find?_cons]
    · rw [if_neg he]
      have h2 : dget [(k, v)] k' = none := by
        have : (k == k') = false := by
          simp only [beq_eq_false_iff_ne]
          exact fun hx => he hx.symm
        simp [dget, List.find?_cons, this]
      rw [h2]
      cases dget m k' <;> rfl

lemma dinsert_fresh {α : Type} {m : Dict α} {k : String} (v : α)
    (h : dmem m k = false) : dinsert m k v = m ++ [(k, v)] := by
  unfold dinsert
  rw [h]
  simp

lemma dmem_append {α : Type} (m1 m2 : Dict α) (k : String) :
    dmem (m1 ++ m2) k = (dmem m1 k || dmem m2 k) := by
  rw [dmem_eq_isSome, dget_append, dmem_eq_isSome, dmem_eq_isSome]
  cases dget m1 k <;> cases dget m2 k <;> rfl

lemma dmem_keys_false {α : Type} :
    ∀ (m : Dict α) (k : String), k ∉ m.map Prod.fst → dmem m k = false := by
  intro m
  induction m with
  | nil => intro k _; rfl
  | cons p rest ih =>
    intro k hk
    simp only [List.map_cons, List.mem_cons] at hk
    push_neg at hk
    rw [dmem_cons, ih k hk.2]
    have : (p.1 == k) = false := by
      simp only [beq_eq_false_iff_ne]
      exact fun hx => hk.1 hx.symm
    rw [this]
    rfl

lemma foldl_dinsert_fresh {α : Type} :
    ∀ (l : List (String × α)) (acc : Dict α),
      ((acc ++ l).map Prod.fst).Nodup →
      l.foldl (fun m q => dinsert m q.1 q.2) acc = acc ++ l := by
  intro l
  induction l with
  | nil => intro acc _; simp
  | cons q rest ih =>
    intro acc hnd
    simp only [List.foldl_cons]
    have hknot : q.1 ∉ acc.map Prod.fst := by
      intro hmem
      rw [List.map_append] at hnd
      have hdisj := (List.nodup_append.mp hnd).2.2
      exact hdisj hmem (by simp)
    rw [dinsert_fresh q.2 (dmem_keys_false acc q.1 hknot)]
    have hnd' : (((acc ++ [q]) ++ rest).map Prod.fst).Nodup := by
      rw [List.append_assoc, List.singleton_append]
      exact hnd
    rw [ih (acc ++ [q]) hnd', List.append_assoc, List.singleton_append]

lemma dictOf_nodup_id {α : Type} (l : List (String × α))
    (h : (l.map Prod.fst).Nodup) : dictOf l = l := by
  unfold dictOf
  rw [foldl_dinsert_fresh l [] (by simpa using h)]
  simp

lemma zip_map_self {α β : Type} (f : α → β) :
    ∀ l : List α, l.zip (l.map f) = l.map (fun x => (x, f x)) := by
  intro l
  induction l with
  | nil => rfl
  | cons x rest ih => simp [List.zip_cons_cons, ih]

lemma dget_map_pairs {α : Type} (f : String → α) :
    ∀ (l : List String) (k : String),
      dget (l.map (fun x => (x, f x))) k = if k ∈ l then some (f k) else none := by
  intro l
  induction l with
  | nil => intro k; simp [dget]
  | cons x rest ih =>
    intro k
    simp only [List.map_cons]
    rw [dget_cons]
    by_cases hx : (x == k) = true
    · have hxe : x = k := by simpa using hx
      rw [if_pos hx]
      subst hxe
      simp
    · have hxe : ¬ (x = k) := by simpa using hx
      rw [if_neg hx, ih k]
      by_cases hk : k ∈ rest
      · simp [hk, hxe]
      · have hke : ¬ (k = x) := fun h => hxe h.symm
        simp [hk, hke]

lemma dget_merge {α : Type} :
    ∀ (subs : List (String × α)) (row : Dict α) (k : String),
      dget (subs.foldl (fun r kv => if dmem r kv.1 then r else dinsert r kv.1 kv.2) row) k =
        ((dget row k).or (dget subs k)) := by
  intro subs
  induction subs with
  | nil =>
    intro row k
    show dget row k = (dget row k).or (dget ([] : Dict α) k)
    cases dget row k <;> rfl
  | cons q rest ih =>
    intro row k
    simp only [List.foldl_cons]
    by_cases hd : dmem row q.1 = true
    · rw [if_pos hd, ih, dget_cons]
      by_cases hk : (q.1 == k) = true
      · have hke : q.1 = k := by simpa using hk
        rw [if_pos hk]
        subst hke
        cases hrow : dget row q.1 with
        | none =>
          rw [dmem_eq_isSome, hrow] at hd
          exact Bool.noConfusion hd
        | some w => rfl
      · rw [if_neg hk]
    · have hdf : dmem row q.1 = false := by
        cases hx : dmem row q.1
        · rfl
        · exact absurd hx hd
      rw [if_neg hd, ih, dget_dinsert, dget_cons]
      by_cases hk : k = q.1
      · rw [if_pos hk]
        have hk2 : (q.1 == k) = true := by simp [hk]
        rw [if_pos hk2, hk, dget_none_of_dmem_false hdf]
        cases dget rest q.1 <;> rfl
      · rw [if_neg hk]
        have hk2 : (q.1 == k) = false := by
          simp only [beq_eq_false_iff_ne]
          exact fun hx => hk hx.symm
        rw [if_neg (by simp [hk2] : ¬ ((q.1 == k) = true))]

lemma dget_foldl_dinsert {α : Type} (g : String → α) :
    ∀ (cols : List String) (r0 : Dict α) (k : String),
      dget (cols.foldl (fun r c => dinsert r c (g c)) r0) k =
        if k ∈ cols then some (g k) else dget r0 k := by
  intro cols
  induction cols with
  | nil => intro r0 k; simp
  | cons c rest ih =>
    intro r0 k
    simp only [List.foldl_cons]
    rw [ih, dget_dinsert]
    by_cases hr : k ∈ rest
    · simp [hr]
    · by_cases hc : k = c
      · simp [hr, hc]
      · simp [hr, hc]

lemma dget_foldl_dinsert_ne {α β : Type} (keyOf : β → String) (valOf : β → α) :
    ∀ (l : List β) (r0 : Dict α) (k : String),
      (∀ x ∈ l, keyOf x ≠ k) →
      dget (l.foldl (fun r x => dinsert r (keyOf x) (valOf x)) r0) k = dget r0 k := by
  intro l
  induction l with
  | nil => intro r0 k _; rfl
  | cons x rest ih =>
    intro r0 k hk
    simp only [List.foldl_cons]
    rw [ih _ k (fun y hy => hk y (List.mem_cons_of_mem _ hy)), dget_dinsert,
      if_neg (fun he => hk x (List.mem_cons_self _ _) he.symm)]

lemma listStarts_append (l m : List Char) : listStarts (l ++ m) l = true := by
  induction l with
  | nil => simp [listStarts]
  | cons c rest ih => simp [listStarts, ih]

lemma strStarts_append (pre t : String) : strStarts (pre ++ t) pre = true := by
  unfold strStarts
  rw [String.data_append]
  exact listStarts_append pre.data t.data

lemma ne_of_not_prefixed {k t : String} (pre : String)
    (h : strStarts k pre = false) : pre ++ t ≠ k := by
  intro he
  rw [← he, strStarts_append] at h
  exact Bool.noConfusion h

lemma dget_fvl_skip_fold {α : Type} (v : α) :
    ∀ (cols : List String) (row : Dict α) (k : String),
      strStarts k "FormulaValueLimit_" = false →
      dget (cols.foldl
        (fun r col => if strStarts col "FormulaValueLimit_" then dinsert r col v else r)
        row) k = dget row k := by
  intro cols
  induction cols with
  | nil => intro row k _; rfl
  | cons c rest ih =>
    intro row k hk
    simp only [List.foldl_cons]
    rw [ih _ k hk]
    by_cases hc : strStarts c "FormulaValueLimit_" = true
    · rw [if_pos hc, dget_dinsert]
      have : ¬ (k = c) := by
        intro he
        rw [he, hc] at hk
        exact Bool.noConfusion hk
      rw [if_neg this]
    · rw [if_neg hc]

lemma dget_nil {α : Type} (k : String) : dget ([] : Dict α) k = none := rfl

lemma param_row_dget (nd : Node) (k : String) :
    dget (ParameterNode.to_excel_row nd) k =
      ((if k = "Defer" then some ""
        else if k = "EnumerationMember" then some ((dget nd.original_subs "EnumerationMember").getD "")
        else if k = "EnumerationSet" then some ((dget nd.original_subs "EnumerationSet").getD "")
        else if k = "String" then some ((dget nd.original_subs "String").getD "")
        else if k = "Low" then some ((dget nd.original_subs "Low").getD "")
        else if k = "High" then some ((dget nd.original_subs "High").getD "")
        else if k = "Integer" then some ((dget nd.original_subs "Integer").getD "")
        else if k = "Real" then some ((dget nd.original_subs "Real").getD "")
        else if k = "Name" then some ((dget nd.original_subs "Name").getD "")
        else if k = "FullPath" then some nd.fullpath
        else if k = "Name" then some ""
        else if k = "TagType" then some "Parameter"
        else none).or (dget nd.original_subs k)) := by
  simp only [ParameterNode.to_excel_row, dictOf, List.foldl_cons, List.foldl_nil]
  rw [dget_merge, dget_dinsert, dget_dinsert, dget_dinsert, dget_dinsert, dget_dinsert,
    dget_dinsert, dget_dinsert, dget_dinsert, dget_dinsert, dget_dinsert, dget_dinsert,
    dget_dinsert, dget_nil]

lemma fv_row_dget (s : Store) (nd : Node) (k : String)
    (hk : strStarts k "FormulaValueLimit_" = false) :
    dget (FormulaValueNode.to_excel_row s nd) k =
      ((if k = "EnumerationMember" then some ((dget nd.original_subs "EnumerationMember").getD "")
        else if k = "EnumerationSet" then some ((dget nd.original_subs "EnumerationSet").getD "")
        else if k = "String" then some ((dget nd.original_subs "String").getD "")
        else if k = "Integer" then some ((dget nd.original_subs "Integer").getD "")
        else if k = "Real" then some ((dget nd.original_subs "Real").getD "")
        else if k = "Value" then
          some (if strIsEmpty ((dget nd.original_subs "Defer").getD "")
            then (dget nd.original_subs "Value").getD "" else "")
        else if k = "Defer" then some ((dget nd.original_subs "Defer").getD "")
        else if k = "Name" then some ((dget nd.original_subs "Name").getD "")
        else if k = "FullPath" then some nd.fullpath
        else if k = "Name" then some ""
        else if k = "TagType" then some "FormulaValue"
        else none).or (dget nd.original_subs k)) := by
  have hver : ¬ ("FormulaValueLimit_Verification" = k) := by
    have he : ("FormulaValueLimit_Verification" : String) =
        "FormulaValueLimit_" ++ "Verification" := rfl
    rw [he]
    exact ne_of_not_prefixed _ hk
  simp only [FormulaValueNode.to_excel_row, dictOf, List.foldl_cons, List.foldl_nil]
  rw [dget_merge]
  cases hfvl : findChild s nd.element "FormulaValueLimit" with
  | some fvl =>
    simp only [hfvl]
    rw [dget_foldl_dinsert_ne (fun c => "FormulaValueLimit_" ++ (s.get c).tag)
      (fun c => (s.get c).text.getD "") _ _ k (fun c _ => ne_of_not_prefixed _ hk)]
    rw [dget_dinsert, if_neg (fun he => hver he.symm), dget_dinsert, dget_dinsert,
      dget_dinsert, dget_dinsert, dget_dinsert, dget_dinsert, dget_dinsert, dget_dinsert,
      dget_dinsert, dget_dinsert, dget_dinsert, dget_nil]
  | none =>
    simp only [hfvl]
    rw [dget_fvl_skip_fold _ _ _ k hk]
    rw [dget_dinsert, dget_dinsert, dget_dinsert, dget_dinsert, dget_dinsert, dget_dinsert,
      dget_dinsert, dget_dinsert, dget_dinsert, dget_dinsert, dget_dinsert, dget_nil]

lemma param_row_val (nd : Node) (k : String) (hsk : paramSkipKey k = false) :
    (dget (ParameterNode.to_excel_row nd) k).getD "" = (dget nd.original_subs k).getD "" := by
  have hsk' := hsk
  simp only [paramSkipKey, Bool.or_eq_false_iff, beq_eq_false_iff_ne] at hsk'
  obtain ⟨⟨⟨hT, hF⟩, hD⟩, _⟩ := hsk'
  rw [param_row_dget, if_neg hD]
  by_cases h0 : k = "EnumerationMember"
  · subst h0
    rfl
  · rw [if_neg h0]
    by_cases h1 : k = "EnumerationSet"
    · subst h1
      rfl
    · rw [if_neg h1]
      by_cases h2 : k = "String"
      · subst h2
        rfl
      · rw [if_neg h2]
        by_cases h3 : k = "Low"
        · subst h3
          rfl
        · rw [if_neg h3]
          by_cases h4 : k = "High"
          · subst h4
            rfl
          · rw [if_neg h4]
            by_cases h5 : k = "Integer"
            · subst h5
              rfl
            · rw [if_neg h5]
              by_cases h6 : k = "Real"
              · subst h6
                rfl
              · rw [if_neg h6]
                by_cases h7 : k = "Name"
                · subst h7
                  rfl
                · rw [if_neg h7]
                  rw [if_neg hF, if_neg h7, if_neg hT]
                  cases dget nd.original_subs k <;> rfl

lemma fv_row_val (s : Store) (nd : Node) (k : String)
    (hk1 : strStarts k "FormulaValueLimit_" = false)
    (hT : ¬ (k = "TagType")) (hF : ¬ (k = "FullPath")) (hV : ¬ (k = "Value")) :
    (dget (FormulaValueNode.to_excel_row s nd) k).getD "" =
      (dget nd.original_subs k).getD "" := by
  rw [fv_row_dget s nd k hk1]
  by_cases g0 : k = "EnumerationMember"
  · subst g0
    rfl
  · rw [if_neg g0]
    by_cases g1 : k = "EnumerationSet"
    · subst g1
      rfl
    · rw [if_neg g1]
      by_cases g2 : k = "String"
      · subst g2
        rfl
      · rw [if_neg g2]
        by_cases g3 : k = "Integer"
        · subst g3
          rfl
        · rw [if_neg g3]
          by_cases g4 : k = "Real"
          · subst g4
            rfl
          · rw [if_neg g4]
            rw [if_neg hV]
            by_cases gD : k = "Defer"
            · subst gD
              rfl
            · rw [if_neg gD]
              by_cases gN : k = "Name"
              · subst gN
                rfl
              · rw [if_neg gN, if_neg hF, if_neg gN, if_neg hT]
                cases dget nd.original_subs k <;> rfl

lemma param_row_tagtype (nd : Node) :
    dget (ParameterNode.to_excel_row nd) "TagType" = some "Parameter" := by
  rw [param_row_dget, if_neg (by decide), if_neg (by decide), if_neg (by decide),
    if_neg (by decide), if_neg (by decide), if_neg (by decide), if_neg (by decide),
    if_neg (by decide), if_neg (by decide), if_neg (by decide), if_neg (by decide),
    if_pos rfl]
  rfl

lemma param_row_fullpath (nd : Node) :
    dget (ParameterNode.to_excel_row nd) "FullPath" = some nd.fullpath := by
  rw [param_row_dget, if_neg (by decide), if_neg (by decide), if_neg (by decide),
    if_neg (by decide), if_neg (by decide), if_neg (by decide), if_neg (by decide),
    if_neg (by decide), if_neg (by decide), if_pos rfl]
  rfl

lemma param_row_name (nd : Node) :
    dget (ParameterNode.to_excel_row nd) "Name" =
      some ((dget nd.original_subs "Name").getD "") := by
  rw [param_row_dget, if_neg (by decide), if_neg (by decide), if_neg (by decide),
    if_neg (by decide), if_neg (by decide), if_neg (by decide), if_neg (by decide),
    if_neg (by decide), if_pos rfl]
  rfl

lemma param_row_defer (nd : Node) :
    dget (ParameterNode.to_excel_row nd) "Defer" = some "" := by
  rw [param_row_dget, if_pos rfl]
  rfl

lemma fv_row_tagtype (s : Store) (nd : Node) :
    dget (FormulaValueNode.to_excel_row s nd) "TagType" = some "FormulaValue" := by
  rw [fv_row_dget s nd "TagType" (by decide), if_neg (by decide), if_neg (by decide),
    if_neg (by decide), if_neg (by decide), if_neg (by decide), if_neg (by decide),
    if_neg (by decide), if_neg (by decide), if_neg (by decide), if_neg (by decide),
    if_pos rfl]
  rfl

lemma fv_row_fullpath (s : Store) (nd : Node) :
    dget (FormulaValueNode.to_excel_row s nd) "FullPath" = some nd.fullpath := by
  rw [fv_row_dget s nd "FullPath" (by decide), if_neg (by decide), if_neg (by decide),
    if_neg (by decide), if_neg (by decide), if_neg (by decide), if_neg (by decide),
    if_neg (by decide), if_neg (by decide), if_pos rfl]
  rfl

lemma fv_row_name (s : Store) (nd : Node) :
    dget (FormulaValueNode.to_excel_row s nd) "Name" =
      some ((dget nd.original_subs "Name").getD "") := by
  rw [fv_row_dget s nd "Name" (by decide), if_neg (by decide), if_neg (by decide),
    if_neg (by decide), if_neg (by decide), if_neg (by decide), if_neg (by decide),
    if_neg (by decide), if_pos rfl]
  rfl

lemma fv_row_defer (s : Store) (nd : Node) :
    dget (FormulaValueNode.to_excel_row s nd) "Defer" =
      some ((dget nd.original_subs "Defer").getD "") := by
  rw [fv_row_dget s nd "Defer" (by decide), if_neg (by decide), if_neg (by decide),
    if_neg (by decide), if_neg (by decide), if_neg (by decide), if_neg (by decide),
    if_pos rfl]
  rfl

lemma fv_row_value (s : Store) (nd : Node) :
    dget (FormulaValueNode.to_excel_row s nd) "Value" =
      some (if strIsEmpty ((dget nd.original_subs "Defer").getD "")
        then (dget nd.original_subs "Value").getD "" else "") := by
  rw [fv_row_dget s nd "Value" (by decide), if_neg (by decide), if_neg (by decide),
    if_neg (by decide), if_neg (by decide), if_neg (by decide), if_pos rfl]
  rfl

lemma projRow_eq (header : List String) (r : Dict String) (hnd : header.Nodup) :
    dictOf (header.zip (header.map (fun col => (dget r col).getD ""))) =
      header.map (fun col => (col, (dget r col).getD "")) := by
  rw [zip_map_self]
  refine dictOf_nodup_id _ ?_
  rw [List.map_map]
  simpa [Function.comp_def] using hnd

lemma projRow_dget (header : List String) (r : Dict String) (k : String)
    (hnd : header.Nodup) :
    dget (dictOf (header.zip (header.map (fun col => (dget r col).getD "")))) k =
      if k ∈ header then some ((dget r k).getD "") else none := by
  rw [projRow_eq _ _ hnd, dget_map_pairs]

lemma snapshot_find (s : Store) (e : EId)
    (htags : ((s.get e).children.map (fun c => (s.get c).tag)).Nodup) (k : String) :
    dget (snapshotSubs s e) k =
      (findChild s e k).map (fun c => (s.get c).text.getD "") := by
  unfold snapshotSubs findChild
  rw [dictOf_nodup_id _ (by
    rw [List.map_map]
    simpa [Function.comp] using htags)]
  unfold dget
  rw [List.find?_map]
  simp [Function.comp_def, Option.map_map]

lemma snapshot_some_findChild (s : Store) (e : EId) (k : String) (w : String)
    (htags : ((s.get e).children.map (fun c => (s.get c).tag)).Nodup)
    (h : dget (snapshotSubs s e) k = some w) :
    ∃ c, findChild s e k = some c ∧ (s.get c).text.getD "" = w := by
  rw [snapshot_find s e htags k] at h
  rcases Option.map_eq_some'.mp h with ⟨c, hc, hw⟩
  exact ⟨c, hc, hw⟩

lemma applyRowField_noop (s : Store) (el : EId) (subs : Dict String) (k : String)
    (hsubs : subs = snapshotSubs s el)
    (htags : ((s.get el).children.map (fun c => (s.get c).tag)).Nodup) :
    applyRowField s el subs false k (pyStrip ((dget subs k).getD "")) = (s, false) := by
  cases hg : dget subs k with
  | none =>
    have hdm : dmem subs k = false := by rw [dmem_eq_isSome, hg]; rfl
    have hcond : (strIsEmpty (pyStrip ((none : Option String).getD "")) && !(dmem subs k)) =
        true := by
      rw [hdm]
      decide
    unfold applyRowField
    rw [hcond]
    simp
  | some w =>
    obtain ⟨c, hfc, htext⟩ := snapshot_some_findChild s el k w htags (hsubs ▸ hg)
    have hdm : dmem subs k = true := by rw [dmem_eq_isSome, hg]; rfl
    have hcond : (strIsEmpty (pyStrip ((some w).getD "")) && !(dmem subs k)) = false := by
      rw [hdm]
      simp
    unfold applyRowField
    rw [hcond]
    simp only [Bool.false_eq_true, if_false, hfc]
    have heq : (pyStrip ((some w).getD "") != safe_strip (s.get c).text) = false := by
      unfold safe_strip
      rw [htext]
      simp
    rw [heq]
    simp

lemma update_param_fold_noop (s : Store) (el : EId) (subs : Dict String)
    (hsubs : subs = snapshotSubs s el)
    (htags : ((s.get el).children.map (fun c => (s.get c).tag)).Nodup) :
    ∀ entries : List (String × String),
      (∀ p ∈ entries, paramSkipKey p.1 = false → p.2 = (dget subs p.1).getD "") →
      entries.foldl
        (fun (acc : Store × Bool) kv =>
          if paramSkipKey kv.1 then acc
          else applyRowField acc.1 el subs acc.2 kv.1 (pyStrip kv.2)) (s, false) =
        (s, false) := by
  intro entries
  induction entries with
  | nil => intro _; rfl
  | cons p rest ih =>
    intro hval
    simp only [List.foldl_cons]
    by_cases hk : paramSkipKey p.1 = true
    · rw [if_pos hk]
      exact ih (fun q hq => hval q (List.mem_cons_of_mem _ hq))
    · have hkf : paramSkipKey p.1 = false := by
        cases hx : paramSkipKey p.1
        · rfl
        · exact absurd hx hk
      rw [if_neg hk]
      have hv := hval p (List.mem_cons_self _ _) hkf
      rw [show applyRowField s el subs false p.1 (pyStrip p.2) = (s, false) from by
        rw [hv]; exact applyRowField_noop s el subs p.1 hsubs htags]
      exact ih (fun q hq => hval q (List.mem_cons_of_mem _ hq))

lemma update_fv_fold_noop (s : Store) (el : EId) (subs : Dict String) (row : Dict String)
    (hsubs : subs = snapshotSubs s el)
    (htags : ((s.get el).children.map (fun c => (s.get c).tag)).Nodup) :
    ∀ entries : List (String × String),
      (∀ p ∈ entries,
        (strStarts p.1 "FormulaValueLimit_" || p.1 == "TagType" || p.1 == "FullPath") = false →
        ((p.1 == "Value" && !(strIsEmpty (pyStrip ((dget row "Defer").getD "")))) = false) →
        ((p.1 == "Defer" && strIsEmpty (pyStrip p.2)) = false) →
        p.2 = (dget subs p.1).getD "") →
      entries.foldl
        (fun (acc : Store × Bool) kv =>
          if strStarts kv.1 "FormulaValueLimit_" || kv.1 == "TagType" ||
              kv.1 == "FullPath" then acc
          else
            let text := pyStrip kv.2
            if kv.1 == "Value" && !(strIsEmpty (pyStrip ((dget row "Defer").getD ""))) then acc
            else if kv.1 == "Defer" && strIsEmpty text then acc
            else applyRowField acc.1 el subs acc.2 kv.1 text) (s, false) =
        (s, false) := by
  intro entries
  induction entries with
  | nil => intro _; rfl
  | cons p rest ih =>
    intro hval
    simp only [List.foldl_cons]
    by_cases h1 : (strStarts p.1 "FormulaValueLimit_" || p.1 == "TagType" ||
        p.1 == "FullPath") = true
    · rw [if_pos h1]
      exact ih (fun q hq => hval q (List.mem_cons_of_mem _ hq))
    · have h1f : (strStarts p.1 "FormulaValueLimit_" || p.1 == "TagType" ||
          p.1 == "FullPath") = false := by
        cases hx : (strStarts p.1 "FormulaValueLimit_" || p.1 == "TagType" ||
            p.1 == "FullPath")
        · rfl
        · exact absurd hx h1
      rw [if_neg h1]
      by_cases h2 : (p.1 == "Value" &&
          !(strIsEmpty (pyStrip ((dget row "Defer").getD "")))) = true
      · rw [if_pos h2]
        exact ih (fun q hq => hval q (List.mem_cons_of_mem _ hq))
      · have h2f : (p.1 == "Value" &&
            !(strIsEmpty (pyStrip ((dget row "Defer").getD "")))) = false := by
          cases hx : (p.1 == "Value" && !(strIsEmpty (pyStrip ((dget row "Defer").getD ""))))
          · rfl
          · exact absurd hx h2
        rw [if_neg h2]
        by_cases h3 : (p.1 == "Defer" && strIsEmpty (pyStrip p.2)) = true
        · rw [if_pos h3]
          exact ih (fun q hq => hval q (List.mem_cons_of_mem _ hq))
        · have h3f : (p.1 == "Defer" && strIsEmpty (pyStrip p.2)) = false := by
            cases hx : (p.1 == "Defer" && strIsEmpty (pyStrip p.2))
            · rfl
            · exact absurd hx h3
          rw [if_neg h3]
          have hv := hval p (List.mem_cons_self _ _) h1f h2f h3f
          rw [show applyRowField s el subs false p.1 (pyStrip p.2) = (s, false) from by
            rw [hv]; exact applyRowField_noop s el subs p.1 hsubs htags]
          exact ih (fun q hq => hval q (List.mem_cons_of_mem _ hq))

/-- The per-entity data-type population count, phrased on the snapshot. -/
def typeCountSubs (subs : Dict String) (fields : List String) : Nat :=
  (fields.map (fun f => if strIsEmpty (pyStrip ((dget subs f).getD "")) then 0 else 1)).sum

lemma rowTypeCount_fold :
    ∀ (fields : List String) (row : Dict String) (acc : Nat),
      (∀ f ∈ fields, (dget row f).isSome = true) →
      fields.foldlM
        (fun acc f =>
          match dget row f with
          | none => Except.error PyErr.keyError
          | some v => Except.ok (acc + (if strIsEmpty (pyStrip v) then 0 else 1)))
        acc =
      Except.ok (acc +
        (fields.map (fun f => if strIsEmpty (pyStrip ((dget row f).getD "")) then 0 else 1)).sum) := by
  intro fields
  induction fields with
  | nil =>
    intro row acc _
    simp only [List.foldlM_nil, List.map_nil, List.sum_nil, Nat.add_zero]
    rfl
  | cons f rest ih =>
    intro row acc hsome
    simp only [List.foldlM_cons]
    cases hf : dget row f with
    | none =>
      have := hsome f (List.mem_cons_self _ _)
      rw [hf] at this
      exact Bool.noConfusion this
    | some v =>
      simp only [except_bind_ok]
      rw [ih row _ (fun g hg => hsome g (List.mem_cons_of_mem _ hg))]
      simp only [List.map_cons, List.sum_cons, hf, Option.getD_some]
      rw [Nat.add_assoc]

lemma rowTypeCount_eq (row : Dict String) (fields : List String)
    (h : ∀ f ∈ fields, (dget row f).isSome = true) :
    rowTypeCount row fields = Except.ok
      ((fields.map (fun f => if strIsEmpty (pyStrip ((dget row f).getD "")) then 0 else 1)).sum) := by
  unfold rowTypeCount
  rw [rowTypeCount_fold fields row 0 h]
  simp

lemma update_param_noop (s : Store) (nd : Node) (header : List String)
    (hhdr : header.Nodup)
    (hsubs : nd.original_subs = snapshotSubs s nd.element)
    (htags : ((s.get nd.element).children.map (fun c => (s.get c).tag)).Nodup)
    (hfR : "Real" ∈ header) (hfI : "Integer" ∈ header) (hfS : "String" ∈ header)
    (hfE : "EnumerationSet" ∈ header)
    (hcnt : typeCountSubs nd.original_subs ["Real", "Integer", "String", "EnumerationSet"] ≤ 2) :
    ParameterNode.update_from_dict s nd
      (dictOf (header.zip (header.map
        (fun col => (dget (ParameterNode.to_excel_row nd) col).getD "")))) =
      Except.ok (s, false) := by
  have hrget : ∀ f ∈ header,
      dget (dictOf (header.zip (header.map
        (fun col => (dget (ParameterNode.to_excel_row nd) col).getD "")))) f =
      some ((dget (ParameterNode.to_excel_row nd) f).getD "") := by
    intro f hf
    rw [projRow_dget _ _ _ hhdr, if_pos hf]
  have hrtc : rowTypeCount
      (dictOf (header.zip (header.map
        (fun col => (dget (ParameterNode.to_excel_row nd) col).getD ""))))
      ["Real", "Integer", "String", "EnumerationSet"] =
      Except.ok (typeCountSubs nd.original_subs ["Real", "Integer", "String", "EnumerationSet"]) := by
    rw [rowTypeCount_eq _ _ ?_]
    · unfold typeCountSubs
      simp only [List.map_cons, List.map_nil]
      rw [hrget "Real" hfR, hrget "Integer" hfI, hrget "String" hfS, hrget "EnumerationSet" hfE]
      rw [param_row_val nd "Real" (by decide), param_row_val nd "Integer" (by decide),
        param_row_val nd "String" (by decide), param_row_val nd "EnumerationSet" (by decide)]
      rfl
    · intro f hf
      fin_cases hf <;>
        simp only [hrget "Real" hfR, hrget "Integer" hfI, hrget "String" hfS,
          hrget "EnumerationSet" hfE, Option.isSome_some]
  unfold ParameterNode.update_from_dict
  rw [hrtc]
  simp only [except_bind_ok]
  rw [if_neg (by omega)]
  rw [projRow_eq _ _ hhdr]
  rw [update_param_fold_noop s nd.element nd.original_subs hsubs htags _ ?_]
  · simp [pure_eq_ok]
  · intro p hp hskip
    rcases List.mem_map.mp hp with ⟨col, _, hpe⟩
    rw [← hpe]
    rw [← hpe] at hskip
    exact param_row_val nd col hskip

lemma update_fv_noop (s : Store) (nd : Node) (header : List String)
    (hhdr : header.Nodup)
    (hsubs : nd.original_subs = snapshotSubs s nd.element)
    (htags : ((s.get nd.element).children.map (fun c => (s.get c).tag)).Nodup)
    (hfR : "Real" ∈ header) (hfI : "Integer" ∈ header) (hfS : "String" ∈ header)
    (hfE : "EnumerationSet" ∈ header) (hfD : "Defer" ∈ header)
    (hcnt : typeCountSubs nd.original_subs
      ["Real", "Integer", "String", "EnumerationSet", "Defer"] ≤ 2)
    (hagree : strIsEmpty ((dget nd.original_subs "Defer").getD "") =
      strIsEmpty (pyStrip ((dget nd.original_subs "Defer").getD ""))) :
    FormulaValueNode.update_from_dict s nd
      (dictOf (header.zip (header.map
        (fun col => (dget (FormulaValueNode.to_excel_row s nd) col).getD "")))) =
      Except.ok (s, false) := by
  have hrget : ∀ f ∈ header,
      dget (dictOf (header.zip (header.map
        (fun col => (dget (FormulaValueNode.to_excel_row s nd) col).getD "")))) f =
      some ((dget (FormulaValueNode.to_excel_row s nd) f).getD "") := by
    intro f hf
    rw [projRow_dget _ _ _ hhdr, if_pos hf]
  have hrtc : rowTypeCount
      (dictOf (header.zip (header.map
        (fun col => (dget (FormulaValueNode.to_excel_row s nd) col).getD ""))))
      ["Real", "Integer", "String", "EnumerationSet", "Defer"] =
      Except.ok (typeCountSubs nd.original_subs
        ["Real", "Integer", "String", "EnumerationSet", "Defer"]) := by
    rw [rowTypeCount_eq _ _ ?_]
    · unfold typeCountSubs
      simp only [List.map_cons, List.map_nil]
      rw [hrget "Real" hfR, hrget "Integer" hfI, hrget "String" hfS,
        hrget "EnumerationSet" hfE, hrget "Defer" hfD]
      rw [fv_row_val s nd "Real" (by decide) (by decide) (by decide) (by decide),
        fv_row_val s nd "Integer" (by decide) (by decide) (by decide) (by decide),
        fv_row_val s nd "String" (by decide) (by decide) (by decide) (by decide),
        fv_row_val s nd "EnumerationSet" (by decide) (by decide) (by decide) (by decide),
        fv_row_val s nd "Defer" (by decide) (by decide) (by decide) (by decide)]
      rfl
    · intro f hf
      fin_cases hf <;>
        simp only [hrget "Real" hfR, hrget "Integer" hfI, hrget "String" hfS,
          hrget "EnumerationSet" hfE, hrget "Defer" hfD, Option.isSome_some]
  unfold FormulaValueNode.update_from_dict
  rw [hrtc]
  simp only [except_bind_ok]
  rw [if_neg (by omega)]
  rw [projRow_eq _ _ hhdr]
  rw [update_fv_fold_noop s nd.element nd.original_subs _ hsubs htags _ ?_]
  · simp [pure_eq_ok]
  · intro p hp h1 h2 h3
    rcases List.mem_map.mp hp with ⟨col, hcol, hpe⟩
    rw [← hpe] at h1 h2 h3 ⊢
    simp only []
    by_cases hcv : col = "Value"
    · subst hcv
      have hdefrow : dget (header.map
          (fun col => (col, (dget (FormulaValueNode.to_excel_row s nd) col).getD "")))
          "Defer" = some ((dget (FormulaValueNode.to_excel_row s nd) "Defer").getD "") := by
        rw [dget_map_pairs, if_pos hfD]
      have hdblank : strIsEmpty (pyStrip ((dget nd.original_subs "Defer").getD "")) = true := by
        simp only [hdefrow, fv_row_defer] at h2
        simp only [beq_self_eq_true, Bool.true_and, Bool.not_eq_false'] at h2
        simpa using h2
      rw [fv_row_value, Option.getD_some, if_pos (by rw [hagree]; exact hdblank)]
    · rw [fv_row_val s nd col ?_ ?_ ?_ hcv]
      · simp only [Bool.or_eq_false_iff, beq_eq_false_iff_ne] at h1
        exact h1.1.1
      · simp only [Bool.or_eq_false_iff, beq_eq_false_iff_ne] at h1
        exact h1.1.2
      · simp only [Bool.or_eq_false_iff, beq_eq_false_iff_ne] at h1
        exact h1.2

lemma pyStrip_empty : strIsEmpty (pyStrip "") = true := by decide

lemma processRow_param_noop (sheet : String) (r : Nat) (st : RowState) (nd : Node)
    (header : List String) (hhdr : header.Nodup)
    (hfT : "TagType" ∈ header) (hfN : "Name" ∈ header) (hfF : "FullPath" ∈ header)
    (hfR : "Real" ∈ header) (hfI : "Integer" ∈ header) (hfS : "String" ∈ header)
    (hfE : "EnumerationSet" ∈ header) (hfD : "Defer" ∈ header)
    (hsubs : nd.original_subs = snapshotSubs st.store nd.element)
    (htags : ((st.store.get nd.element).children.map (fun c => (st.store.get c).tag)).Nodup)
    (hcnt : typeCountSubs nd.original_subs ["Real", "Integer", "String", "EnumerationSet"] ≤ 2)
    (htrim : pyStrip nd.fullpath = nd.fullpath)
    (hfind : st.tree.find_parameter nd.fullpath = some nd) :
    processRow sheet r st
      (dictOf (header.zip (header.map
        (fun col => (dget (ParameterNode.to_excel_row nd) col).getD "")))) =
      Except.ok { st with acc := { st.acc with
        excel_param_names := st.acc.excel_param_names ++
          [pyStrip ((dget nd.original_subs "Name").getD "")]
        seen_params := st.acc.seen_params ++ [nd.fullpath] } } := by
  have hrget : ∀ f ∈ header,
      dget (dictOf (header.zip (header.map
        (fun col => (dget (ParameterNode.to_excel_row nd) col).getD "")))) f =
      some ((dget (ParameterNode.to_excel_row nd) f).getD "") := by
    intro f hf
    rw [projRow_dget _ _ _ hhdr, if_pos hf]
  have hfp : pyStrip ((dget (dictOf (header.zip (header.map
      (fun col => (dget (ParameterNode.to_excel_row nd) col).getD "")))) "FullPath").getD "") =
      nd.fullpath := by
    rw [hrget "FullPath" hfF, param_row_fullpath, Option.getD_some, Option.getD_some, htrim]
  have htt : pyStrip ((dget (dictOf (header.zip (header.map
      (fun col => (dget (ParameterNode.to_excel_row nd) col).getD "")))) "TagType").getD "") =
      "Parameter" := by
    rw [hrget "TagType" hfT, param_row_tagtype, Option.getD_some, Option.getD_some]
    decide
  have hprecheck : preCheckCount (dictOf (header.zip (header.map
      (fun col => (dget (ParameterNode.to_excel_row nd) col).getD "")))) =
      typeCountSubs nd.original_subs ["Real", "Integer", "String", "EnumerationSet"] := by
    unfold preCheckCount typeCountSubs safe_strip
    simp only [List.map_cons, List.map_nil]
    rw [hrget "Real" hfR, hrget "Integer" hfI, hrget "String" hfS,
      hrget "EnumerationSet" hfE, hrget "Defer" hfD]
    rw [param_row_val nd "Real" (by decide), param_row_val nd "Integer" (by decide),
      param_row_val nd "String" (by decide), param_row_val nd "EnumerationSet" (by decide),
      param_row_defer]
    simp only [Option.getD_some, pyStrip_empty, if_pos, List.sum_cons, List.sum_nil]
    omega
  unfold processRow
  rw [hprecheck, if_neg (by omega), hfp, htt]
  rw [if_pos (by decide)]
  rw [hrget "Name" hfN, param_row_name, Option.getD_some]
  simp only [except_bind_ok]
  rw [hfind]
  simp only [except_bind_ok]
  rw [update_param_noop st.store nd header hhdr hsubs htags hfR hfI hfS hfE hcnt]
  simp only [except_bind_ok]
  rfl

lemma processRow_fv_noop (sheet : String) (r : Nat) (st : RowState) (nd : Node)
    (header : List String) (hhdr : header.Nodup)
    (hfT : "TagType" ∈ header) (hfN : "Name" ∈ header) (hfF : "FullPath" ∈ header)
    (hfR : "Real" ∈ header) (hfI : "Integer" ∈ header) (hfS : "String" ∈ header)
    (hfE : "EnumerationSet" ∈ header) (hfD : "Defer" ∈ header)
    (hsubs : nd.original_subs = snapshotSubs st.store nd.element)
    (htags : ((st.store.get nd.element).children.map (fun c => (st.store.get c).tag)).Nodup)
    (hcnt : typeCountSubs nd.original_subs
      ["Real", "Integer", "String", "EnumerationSet", "Defer"] ≤ 2)
    (hagree : strIsEmpty ((dget nd.original_subs "Defer").getD "") =
      strIsEmpty (pyStrip ((dget nd.original_subs "Defer").getD "")))
    (htrim : pyStrip nd.fullpath = nd.fullpath)
    (hfind : st.tree.find_formulavalue nd.fullpath = some nd)
    (hstep : (stepOfPath nd.fullpath).isOk = true)
    (hdefok : strIsEmpty (pyStrip ((dget nd.original_subs "Defer").getD "")) = true ∨
      st.acc.excel_param_names.contains
        (pyStrip ((dget nd.original_subs "Defer").getD "")) = true) :
    processRow sheet r st
      (dictOf (header.zip (header.map
        (fun col => (dget (FormulaValueNode.to_excel_row st.store nd) col).getD "")))) =
      Except.ok { st with acc := { st.acc with
        seen_fvs := st.acc.seen_fvs ++ [nd.fullpath] } } := by
  have hrget : ∀ f ∈ header,
      dget (dictOf (header.zip (header.map
        (fun col => (dget (FormulaValueNode.to_excel_row st.store nd) col).getD "")))) f =
      some ((dget (FormulaValueNode.to_excel_row st.store nd) f).getD "") := by
    intro f hf
    rw [projRow_dget _ _ _ hhdr, if_pos hf]
  have hfp : pyStrip ((dget (dictOf (header.zip (header.map
      (fun col => (dget (FormulaValueNode.to_excel_row st.store nd) col).getD ""))))
      "FullPath").getD "") = nd.fullpath := by
    rw [hrget "FullPath" hfF, fv_row_fullpath, Option.getD_some, Option.getD_some, htrim]
  have htt : pyStrip ((dget (dictOf (header.zip (header.map
      (fun col => (dget (FormulaValueNode.to_excel_row st.store nd) col).getD ""))))
      "TagType").getD "") = "FormulaValue" := by
    rw [hrget "TagType" hfT, fv_row_tagtype, Option.getD_some, Option.getD_some]
    decide
  have hdefval : pyStrip ((dget (dictOf (header.zip (header.map
      (fun col => (dget (FormulaValueNode.to_excel_row st.store nd) col).getD ""))))
      "Defer").getD "") = pyStrip ((dget nd.original_subs "Defer").getD "") := by
    rw [hrget "Defer" hfD, fv_row_defer, Option.getD_some, Option.getD_some]
  have hprecheck : preCheckCount (dictOf (header.zip (header.map
      (fun col => (dget (FormulaValueNode.to_excel_row st.store nd) col).getD "")))) =
      typeCountSubs nd.original_subs ["Real", "Integer", "String", "EnumerationSet", "Defer"] := by
    unfold preCheckCount typeCountSubs safe_strip
    simp only [List.map_cons, List.map_nil]
    rw [hrget "Real" hfR, hrget "Integer" hfI, hrget "String" hfS,
      hrget "EnumerationSet" hfE, hrget "Defer" hfD]
    rw [fv_row_val st.store nd "Real" (by decide) (by decide) (by decide) (by decide),
      fv_row_val st.store nd "Integer" (by decide) (by decide) (by decide) (by decide),
      fv_row_val st.store nd "String" (by decide) (by decide) (by decide) (by decide),
      fv_row_val st.store nd "EnumerationSet" (by decide) (by decide) (by decide) (by decide),
      fv_row_val st.store nd "Defer" (by decide) (by decide) (by decide) (by decide)]
    simp only [Option.getD_some]
  unfold processRow
  rw [hprecheck, if_neg (by omega), hfp, htt]
  rw [if_neg (by decide), if_pos (by decide)]
  rw [hrget "Name" hfN, fv_row_name, Option.getD_some]
  simp only [except_bind_ok]
  cases hso : stepOfPath nd.fullpath with
  | error e =>
    rw [hso] at hstep
    exact Bool.noConfusion hstep
  | ok stp =>
    simp only [except_bind_ok]
    rw [hdefval]
    have hcond : (!(strIsEmpty (pyStrip ((dget nd.original_subs "Defer").getD ""))) &&
        !(st.acc.excel_param_names.contains
          (pyStrip ((dget nd.original_subs "Defer").getD "")))) = false := by
      rcases hdefok with h | h
      · rw [h]
        rfl
      · rw [h]
        simp
    rw [hcond]
    simp only [Bool.false_eq_true, if_false]
    rw [hfind]
    simp only []
    rw [update_fv_noop st.store nd header hhdr hsubs htags hfR hfI hfS hfE hfD hcnt hagree]
    simp only [except_bind_ok]
    rfl

/-- Faithful-projection conditions on one collection node: the snapshot still
matches the live element, child tags are unambiguous, and the stored full path
carries no surrounding whitespace. -/
def NodeOK (s : Store) (nd : Node) : Prop :=
  nd.original_subs = snapshotSubs s nd.element ∧
  ((s.get nd.element).children.map (fun c => (s.get c).tag)).Nodup ∧
  pyStrip nd.fullpath = nd.fullpath

/-- A Parameter entity whose row round-trips: faithful projection plus at most
two populated data-type fields (the `> 2` pre-check passes). -/
def ParamOK (s : Store) (nd : Node) : Prop :=
  NodeOK s nd ∧
  typeCountSubs nd.original_subs ["Real", "Integer", "String", "EnumerationSet"] ≤ 2

/-- A FormulaValue entity whose row round-trips: faithful projection, the type
pre-check passes, the `Defer` text is blank exactly when its strip is blank
(the export forces `Value` on the raw text, the import checks the strip), the
path parses to a step, and a non-blank defer resolves against the sheet's own
Parameter names. -/
def FVOK (s : Store) (t : RecipeTree) (nd : Node) : Prop :=
  NodeOK s nd ∧
  typeCountSubs nd.original_subs ["Real", "Integer", "String", "EnumerationSet", "Defer"] ≤ 2 ∧
  strIsEmpty ((dget nd.original_subs "Defer").getD "") =
    strIsEmpty (pyStrip ((dget nd.original_subs "Defer").getD "")) ∧
  (stepOfPath nd.fullpath).isOk = true ∧
  (strIsEmpty (pyStrip ((dget nd.original_subs "Defer").getD "")) = true ∨
    pyStrip ((dget nd.original_subs "Defer").getD "") ∈
      t.parameters.map (fun p => pyStrip ((dget p.original_subs "Name").getD ""))) 

/-- Per-tree round-trip conditions. -/
def RTreeOK (s : Store) (t : RecipeTree) : Prop :=
  (∀ nd ∈ t.parameters, ParamOK s nd) ∧
  (∀ nd ∈ t.formula_values, FVOK s t nd) ∧
  (t.parameters.map Node.fullpath).Nodup ∧
  (t.formula_values.map Node.fullpath).Nodup

lemma find_self (l : List Node) (nd : Node) (hmem : nd ∈ l)
    (hnd : (l.map Node.fullpath).Nodup) :
    l.find? (fun p => p.fullpath == nd.fullpath) = some nd := by
  cases hf : l.find? (fun p => p.fullpath == nd.fullpath) with
  | none =>
    have := List.find?_eq_none.mp hf nd hmem
    simp at this
  | some p =>
    have hpe : p.fullpath = nd.fullpath := by
      have := List.find?_some hf
      simpa using this
    have hpm := List.mem_of_find?_eq_some hf
    have : p = nd := List.inj_on_of_nodup_map hnd hpm hmem hpe
    rw [this]

lemma rows_params_noop (sheet : String) (header : List String) (hhdr : header.Nodup)
    (hfT : "TagType" ∈ header) (hfN : "Name" ∈ header) (hfF : "FullPath" ∈ header)
    (hfR : "Real" ∈ header) (hfI : "Integer" ∈ header) (hfS : "String" ∈ header)
    (hfE : "EnumerationSet" ∈ header) (hfD : "Defer" ∈ header) :
    ∀ (ps : List Node) (r : Nat) (st : RowState),
      (∀ nd ∈ ps, ParamOK st.store nd ∧ st.tree.find_parameter nd.fullpath = some nd) →
      processRowsFrom sheet header r st
        (ps.map (fun nd => header.map
          (fun col => (dget (ParameterNode.to_excel_row nd) col).getD ""))) =
      Except.ok { st with acc := { st.acc with
        excel_param_names := st.acc.excel_param_names ++
          ps.map (fun nd => pyStrip ((dget nd.original_subs "Name").getD ""))
        seen_params := st.acc.seen_params ++ ps.map Node.fullpath } } := by
  intro ps
  induction ps with
  | nil =>
    intro r st _
    simp only [List.map_nil, processRowsFrom, List.append_nil]
  | cons nd rest ih =>
    intro r st hok
    obtain ⟨⟨⟨hsubs, htags, htrim⟩, hcnt⟩, hfind⟩ := hok nd (List.mem_cons_self _ _)
    simp only [List.map_cons, processRowsFrom]
    rw [processRow_param_noop sheet r st nd header hhdr hfT hfN hfF hfR hfI hfS hfE hfD
      hsubs htags hcnt htrim hfind]
    simp only [except_bind_ok]
    rw [ih (r + 1) { st with acc := { st.acc with excel_param_names := st.acc.excel_param_names ++ [pyStrip ((dget nd.original_subs "Name").getD "")], seen_params := st.acc.seen_params ++ [nd.fullpath] } } (fun q hq => hok q (List.mem_cons_of_mem _ hq))]
    simp [List.append_assoc]

lemma rows_fvs_noop (sheet : String) (header : List String) (hhdr : header.Nodup)
    (hfT : "TagType" ∈ header) (hfN : "Name" ∈ header) (hfF : "FullPath" ∈ header)
    (hfR : "Real" ∈ header) (hfI : "Integer" ∈ header) (hfS : "String" ∈ header)
    (hfE : "EnumerationSet" ∈ header) (hfD : "Defer" ∈ header) :
    ∀ (fs : List Node) (r : Nat) (st : RowState),
      (∀ nd ∈ fs,
        (nd.original_subs = snapshotSubs st.store nd.element ∧
          ((st.store.get nd.element).children.map (fun c => (st.store.get c).tag)).Nodup ∧
          pyStrip nd.fullpath = nd.fullpath) ∧
        typeCountSubs nd.original_subs
          ["Real", "Integer", "String", "EnumerationSet", "Defer"] ≤ 2 ∧
        strIsEmpty ((dget nd.original_subs "Defer").getD "") =
          strIsEmpty (pyStrip ((dget nd.original_subs "Defer").getD "")) ∧
        (stepOfPath nd.fullpath).isOk = true ∧
        (strIsEmpty (pyStrip ((dget nd.original_subs "Defer").getD "")) = true ∨
          st.acc.excel_param_names.contains
            (pyStrip ((dget nd.original_subs "Defer").getD "")) = true) ∧
        st.tree.find_formulavalue nd.fullpath = some nd) →
      processRowsFrom sheet header r st
        (fs.map (fun nd => header.map
          (fun col => (dget (FormulaValueNode.to_excel_row st.store nd) col).getD ""))) =
      Except.ok { st with acc := { st.acc with
        seen_fvs := st.acc.seen_fvs ++ fs.map Node.fullpath } } := by
  intro fs
  induction fs with
  | nil =>
    intro r st _
    simp only [List.map_nil, processRowsFrom, List.append_nil]
  | cons nd rest ih =>
    intro r st hok
    obtain ⟨⟨hsubs, htags, htrim⟩, hcnt, hagree, hstep, hdefok, hfind⟩ :=
      hok nd (List.mem_cons_self _ _)
    simp only [List.map_cons, processRowsFrom]
    rw [processRow_fv_noop sheet r st nd header hhdr hfT hfN hfF hfR hfI hfS hfE hfD
      hsubs htags hcnt hagree htrim hfind hstep hdefok]
    simp only [except_bind_ok]
    rw [ih (r + 1) { st with acc := { st.acc with seen_fvs := st.acc.seen_fvs ++ [nd.fullpath] } } (fun q hq => hok q (List.mem_cons_of_mem _ hq))]
    simp [List.append_assoc]

lemma deleteParams_all_seen :
    ∀ (pre : List Node) (st : RowState),
      (∀ nd ∈ pre, st.acc.seen_params.contains nd.fullpath = true) →
      deleteParams pre st = Except.ok st := by
  intro pre
  induction pre with
  | nil => intro st _; rfl
  | cons nd rest ih =>
    intro st hseen
    unfold deleteParams
    simp only [List.foldlM_cons]
    rw [if_pos (hseen nd (List.mem_cons_self _ _))]
    simp only [except_bind_ok]
    exact ih st (fun q hq => hseen q (List.mem_cons_of_mem _ hq))

lemma deleteFVs_all_seen :
    ∀ (pre : List Node) (st : RowState),
      (∀ nd ∈ pre, st.acc.seen_fvs.contains nd.fullpath = true) →
      deleteFVs pre st = Except.ok st := by
  intro pre
  induction pre with
  | nil => intro st _; rfl
  | cons nd rest ih =>
    intro st hseen
    unfold deleteFVs
    simp only [List.foldlM_cons]
    rw [if_pos (hseen nd (List.mem_cons_self _ _))]
    simp only [except_bind_ok]
    exact ih st (fun q hq => hseen q (List.mem_cons_of_mem _ hq))

/-- The Parameter names a sheet's exported rows contribute, in order. -/
def paramNamesOf (t : RecipeTree) : List String :=
  t.parameters.map (fun nd => pyStrip ((dget nd.original_subs "Name").getD ""))

lemma processSheet_noop (name : String) (header : List String) (s : Store)
    (t : RecipeTree) (errors : List String) (stats : Stats)
    (hhdr : header.Nodup)
    (hfT : "TagType" ∈ header) (hfN : "Name" ∈ header) (hfF : "FullPath" ∈ header)
    (hfR : "Real" ∈ header) (hfI : "Integer" ∈ header) (hfS : "String" ∈ header)
    (hfE : "EnumerationSet" ∈ header) (hfD : "Defer" ∈ header)
    (hok : RTreeOK s t) :
    processSheet name (header ::
      ((t.parameters.map ParameterNode.to_excel_row ++
        t.formula_values.map (FormulaValueNode.to_excel_row s)).map
        (fun r => header.map (fun col => (dget r col).getD ""))))
      s t errors stats = Except.ok (s, t, errors, stats) := by
  obtain ⟨hP, hF, hPnd, hFnd⟩ := hok
  unfold processSheet
  simp only [List.map_append, List.map_map, Function.comp_def]
  have h1 := rows_params_noop name header hhdr hfT hfN hfF hfR hfI hfS hfE hfD
    t.parameters 2
    { store := s, tree := t,
      acc := { excel_param_names := [], seen_params := [], seen_fvs := [] },
      errors := errors, stats := stats }
    (by
      intro nd hnd
      refine ⟨hP nd hnd, ?_⟩
      show t.parameters.find? (fun p => p.fullpath == nd.fullpath) = some nd
      exact find_self t.parameters nd hnd hPnd)
  have h1' : processRowsFrom name header 2
      { store := s, tree := t,
        acc := { excel_param_names := [], seen_params := [], seen_fvs := [] },
        errors := errors, stats := stats }
      (t.parameters.map (fun nd => header.map
        (fun col => (dget (ParameterNode.to_excel_row nd) col).getD ""))) =
      Except.ok { store := s
                  tree := t
                  acc := { excel_param_names := paramNamesOf t
                           seen_params := t.parameters.map Node.fullpath
                           seen_fvs := [] }
                  errors := errors
                  stats := stats } := h1.trans rfl
  have h2 := rows_fvs_noop name header hhdr hfT hfN hfF hfR hfI hfS hfE hfD
    t.formula_values (2 + t.parameters.length)
    { store := s
      tree := t
      acc := { excel_param_names := paramNamesOf t
               seen_params := t.parameters.map Node.fullpath
               seen_fvs := [] }
      errors := errors
      stats := stats }
    (by
      intro nd hnd
      refine ⟨(hF nd hnd).1, (hF nd hnd).2.1, (hF nd hnd).2.2.1,
        (hF nd hnd).2.2.2.1, ?_, ?_⟩
      · rcases (hF nd hnd).2.2.2.2 with hblank | hmem
        · exact Or.inl hblank
        · exact Or.inr (contains_true_of_mem hmem)
      · show t.formula_values.find? (fun p => p.fullpath == nd.fullpath) = some nd
        exact find_self t.formula_values nd hnd hFnd)
  have h2' : processRowsFrom name header (2 + t.parameters.length)
      { store := s
        tree := t
        acc := { excel_param_names := paramNamesOf t
                 seen_params := t.parameters.map Node.fullpath
                 seen_fvs := [] }
        errors := errors
        stats := stats }
      (t.formula_values.map (fun nd => header.map
        (fun col => (dget (FormulaValueNode.to_excel_row s nd) col).getD ""))) =
      Except.ok { store := s
                  tree := t
                  acc := { excel_param_names := paramNamesOf t
                           seen_params := t.parameters.map Node.fullpath
                           seen_fvs := t.formula_values.map Node.fullpath }
                  errors := errors
                  stats := stats } := h2.trans rfl
  rw [processRowsFrom_append]
  simp only [List.length_map]
  rw [h1']
  simp only [except_bind_ok]
  rw [h2']
  simp only [except_bind_ok]
  rw [deleteParams_all_seen _ _ (by
    intro nd hnd
    exact contains_true_of_mem (List.mem_map_of_mem Node.fullpath hnd))]
  simp only [except_bind_ok]
  rw [deleteFVs_all_seen _ _ (by
    intro nd hnd
    exact contains_true_of_mem (List.mem_map_of_mem Node.fullpath hnd))]
  simp only [except_bind_ok]

lemma insSorted_perm (a : String) : ∀ l : List String, (insSorted a l).Perm (a :: l) := by
  intro l
  induction l with
  | nil => exact List.Perm.refl _
  | cons b r ih =>
    unfold insSorted
    split
    · exact List.Perm.refl _
    · exact List.Perm.trans (List.Perm.cons b ih) (List.Perm.swap a b r)

lemma sortStr_perm : ∀ l : List String, (sortStr l).Perm l := by
  intro l
  induction l with
  | nil => exact List.Perm.refl _
  | cons x r ih =>
    unfold sortStr
    simp only [List.foldr_cons]
    exact List.Perm.trans (insSorted_perm x _) (List.Perm.cons x ih)

/-- The exported row dictionaries of one tree, in sheet order. -/
def exportRowsOf (s : Store) (t : RecipeTree) : List (Dict String) :=
  t.parameters.map ParameterNode.to_excel_row ++
    t.formula_values.map (FormulaValueNode.to_excel_row s)

/-- The extra columns beyond `EXCEL_COLUMNS`, sorted and de-duplicated. -/
def exportExtras (s : Store) (trees : List RecipeTree) : List String :=
  sortStr ((((trees.map (fun t => exportRowsOf s t)).flatten.map
    (fun r => r.map (fun kv => kv.1))).flatten.filter
    (fun k => !(EXCEL_COLUMNS.contains k))).dedup)

/-- The shared worksheet header. -/
def exportHeader (s : Store) (trees : List RecipeTree) : List String :=
  EXCEL_COLUMNS ++ exportExtras s trees

lemma exportHeader_nodup (s : Store) (trees : List RecipeTree) :
    (exportHeader s trees).Nodup := by
  unfold exportHeader
  rw [List.nodup_append]
  refine ⟨by decide, ?_, ?_⟩
  · unfold exportExtras
    exact (sortStr_perm _).nodup_iff.mpr (List.nodup_dedup _)
  · intro x hx hx2
    unfold exportExtras at hx2
    have hx3 := (sortStr_perm _).mem_iff.mp hx2
    have hx4 := List.mem_dedup.mp hx3
    have hx5 := List.of_mem_filter hx4
    rw [contains_true_of_mem hx] at hx5
    exact Bool.noConfusion hx5

lemma export_eq (s : Store) (trees : List RecipeTree)
    (hbase : (trees.map (fun t => basename t.filepath)).Nodup) :
    ExcelExporter.export s trees =
      trees.map (fun t =>
        { name := basename t.filepath
          cells := exportHeader s trees ::
            ((t.parameters.map ParameterNode.to_excel_row ++
              t.formula_values.map (FormulaValueNode.to_excel_row s)).map
              (fun r => (exportHeader s trees).map (fun col => (dget r col).getD ""))) }) := by
  simp only [ExcelExporter.export]
  rw [dictOf_nodup_id _ (by
    rw [List.map_map]
    simpa [Function.comp_def] using hbase)]
  rw [List.map_map]
  rfl

lemma lastIdx_aux :
    ∀ (ts : List RecipeTree) (k i : Nat) (t : RecipeTree),
      ((ts.map (fun u => basename u.filepath)).Nodup) →
      ts[i]? = some t →
      ((((List.enumFrom k ts).filter
        (fun p => basename p.2.filepath == basename t.filepath)).map Prod.fst).getLast?) =
        some (k + i) := by
  intro ts
  induction ts with
  | nil =>
    intro k i t _ h
    simp at h
  | cons t0 rest ih =>
    intro k i t hnd hget
    simp only [List.map_cons, List.nodup_cons] at hnd
    simp only [List.enumFrom]
    cases i with
    | zero =>
      simp only [List.getElem?_cons_zero, Option.some.injEq] at hget
      subst hget
      rw [List.filter_cons]
      simp only [beq_self_eq_true, if_pos]
      have hrest : (List.enumFrom (k + 1) rest).filter
          (fun p => basename p.2.filepath == basename t0.filepath) = [] := by
        rw [List.filter_eq_nil_iff]
        rintro ⟨j, u⟩ hmem
        have hu : u ∈ rest := by
          rcases List.mem_enumFrom hmem with ⟨h1, h2, h3⟩
          rw [h3]
          exact List.getElem_mem _
        simp only [beq_iff_eq]
        intro he
        exact hnd.1 (he ▸ List.mem_map_of_mem (fun u => basename u.filepath) hu)
      rw [hrest]
      rfl
    | succ j =>
      simp only [List.getElem?_cons_succ] at hget
      have htmem : t ∈ rest := by
        rcases List.getElem?_eq_some.mp hget with ⟨hlt, hval⟩
        exact hval ▸ List.getElem_mem hlt
      have hne : (basename t0.filepath == basename t.filepath) = false := by
        simp only [beq_eq_false_iff_ne]
        intro he
        exact hnd.1 (he ▸ List.mem_map_of_mem (fun u => basename u.filepath) htmem)
      rw [List.filter_cons, hne]
      simp only [Bool.false_eq_true, if_false]
      have := ih (k + 1) j t hnd.2 hget
      exact this.trans (congrArg some (by omega))

lemma lastIdxWithBasename_self (trees : List RecipeTree) (i : Nat) (t : RecipeTree)
    (hbase : (trees.map (fun u => basename u.filepath)).Nodup)
    (hget : trees[i]? = some t) :
    lastIdxWithBasename trees (basename t.filepath) = some i := by
  unfold lastIdxWithBasename
  have h := lastIdx_aux trees 0 i t hbase hget
  simpa [List.enum] using h

lemma set_getElem?_self :
    ∀ (l : List RecipeTree) (i : Nat) (t : RecipeTree),
      l[i]? = some t → l.set i t = l := by
  intro l
  induction l with
  | nil =>
    intro i t h
    simp at h
  | cons x rest ih =>
    intro i t h
    cases i with
    | zero =>
      simp only [List.getElem?_cons_zero, Option.some.injEq] at h
      rw [← h]
      rfl
    | succ j =>
      simp only [List.getElem?_cons_succ] at h
      simp only [List.set_cons_succ]
      rw [ih j t h]

lemma processAllSheets_fold_noop (s : Store) (trees : List RecipeTree) :
    ∀ (wb : Workbook),
      (∀ sh ∈ wb, ∀ (errors : List String) (stats : Stats),
        ∃ i, lastIdxWithBasename trees sh.name = some i ∧
          processSheet sh.name sh.cells s (trees.getD i default) errors stats =
            Except.ok (s, trees.getD i default, errors, stats) ∧
          trees.set i (trees.getD i default) = trees) →
      ∀ (errors : List String) (stats : Stats),
        wb.foldlM
          (fun (acc : Store × List RecipeTree × List String × Stats) sheet =>
            let (s, trees, errors, stats) := acc
            match lastIdxWithBasename trees sheet.name with
            | none => Except.ok acc
            | some i => do
              let t := trees.getD i default
              let (s1, t1, errors1, stats1) ←
                processSheet sheet.name sheet.cells s t errors stats
              Except.ok (s1, trees.set i t1, errors1, stats1))
          (s, trees, errors, stats) =
        Except.ok (s, trees, errors, stats) := by
  intro wb
  induction wb with
  | nil =>
    intro _ errors stats
    rfl
  | cons sh rest ih =>
    intro hsh errors stats
    simp only [List.foldlM_cons]
    obtain ⟨i, hidx, hps, hset⟩ := hsh sh (List.mem_cons_self _ _) errors stats
    simp only [hidx, hps, except_bind_ok, hset]
    exact ih (fun q hq => hsh q (List.mem_cons_of_mem _ hq)) errors stats

/-- C3: exporting every entity of a set of documents and re-importing the
unmodified workbook is a no-op — the store, the trees and all counters come
back unchanged (`created = updated = deleted = 0`) — whenever each entity's
original fields are fully captured by the projection (`RTreeOK`: snapshots
match the live elements, child tags are unambiguous, paths are trimmed and
step-shaped, at most two data-type fields are populated, `Defer` blankness
survives stripping and non-blank defers name a Parameter of the same tree)
and sheet names do not collide. -/
theorem c3_export_import_roundtrip_noop (s : Store) (trees : List RecipeTree)
    (hbase : (trees.map (fun u => basename u.filepath)).Nodup)
    (htrees : ∀ t ∈ trees, RTreeOK s t) :
    ExcelImporter.import_changes s trees (ExcelExporter.export s trees) =
      Except.ok (s, trees, { created := 0, updated := 0, deleted := 0 }) := by
  rw [export_eq s trees hbase]
  unfold ExcelImporter.import_changes
  have hall : processAllSheets s trees
      (trees.map (fun t =>
        { name := basename t.filepath
          cells := exportHeader s trees ::
            ((t.parameters.map ParameterNode.to_excel_row ++
              t.formula_values.map (FormulaValueNode.to_excel_row s)).map
              (fun r => (exportHeader s trees).map (fun col => (dget r col).getD ""))) })) =
      Except.ok (s, trees, [], { created := 0, updated := 0, deleted := 0 }) := by
    unfold processAllSheets
    refine processAllSheets_fold_noop s trees _ ?_ [] _
    intro sh hsh errors stats
    rcases List.mem_map.mp hsh with ⟨t, htmem, hte⟩
    rcases List.getElem?_of_mem htmem with ⟨i, hget⟩
    have hgetD : trees.getD i default = t := by
      rw [List.getD_eq_getElem?_getD, hget]
      rfl
    refine ⟨i, ?_, ?_, ?_⟩
    · rw [← hte]
      exact lastIdxWithBasename_self trees i t hbase hget
    · rw [hgetD, ← hte]
      exact processSheet_noop (basename t.filepath) (exportHeader s trees) s t errors stats
        (exportHeader_nodup s trees)
        (List.mem_append_left _ (by decide)) (List.mem_append_left _ (by decide))
        (List.mem_append_left _ (by decide)) (List.mem_append_left _ (by decide))
        (List.mem_append_left _ (by decide)) (List.mem_append_left _ (by decide))
        (List.mem_append_left _ (by decide)) (List.mem_append_left _ (by decide))
        (htrees t htmem)
    · rw [hgetD]
      exact set_getElem?_self trees i t hget
  rw [hall]
  simp only [except_bind_ok]
  rfl

theorem c3_export_import_roundtrip_noop_witness :
    ExcelImporter.import_changes dS [dT] (ExcelExporter.export dS [dT]) =
      Except.ok (dS, [dT], { created := 0, updated := 0, deleted := 0 }) :=
  c3_export_import_roundtrip_noop dS [dT] (by decide) (by
    intro t ht
    have he := List.mem_singleton.mp ht
    subst he
    unfold RTreeOK ParamOK FVOK NodeOK
    refine ⟨?_, ?_, ?_, ?_⟩ <;> decide)
